import Mathlib

/-!
Verification development for the lazy-crawl repository (TypeScript).

The repository crawls three content sources (a Facebook feed, a Twitter
list API, a Gmail mailbox), stops each pagination run against a persisted
seen-set ("watermark"), emits one markdown artifact per run, and later
re-parses and compacts those artifacts.

This file shallowly embeds the pure core of that code:
  - src/utils.ts      : content hashing, seen-set queries, state merges,
                        markdown generation;
  - src/tweet.ts      : the Twitter list pagination loop;
  - src/gmail.ts      : the per-sender Gmail pagination loop and the
                        overall newsletter run;
  - src/fb.ts         : the Facebook scroll/capture loop;
  - src/lean.ts       : the artifact parser and the dedup pass.

Modelling conventions:
  - JavaScript strings are modelled as Lean `String` / `List Char`; the
    embedding identifies a UTF-16 code unit with a Unicode code point
    (exact for all characters in the Basic Multilingual Plane, which is
    the only place the repository's fixed patterns live).
  - `string | null` / optional fields become `Option String`; JavaScript
    truthiness of a string (null, undefined and "" are falsy) is modelled
    explicitly where the source relies on it.
  - 32-bit integer wrap-around (`x & x` in JS) is modelled as arithmetic
    on `Int` with an explicit reduction modulo 2^32.
  - External effect surfaces (the list API, the Gmail API, the DOM, the
    clock) are parameters of the embedded control loops; file writes and
    state writes are modelled as an explicit effect trace.
-/

namespace LazyCrawl

/-! ## JavaScript character and string primitives -/

/-- The character class `\s` of JavaScript regular expressions (also the
set trimmed by `String.prototype.trim`). -/
def jsIsWhitespace (c : Char) : Bool :=
  decide (c.toNat = 32 ∨ c.toNat = 9 ∨ c.toNat = 10 ∨ c.toNat = 13 ∨
    c.toNat = 11 ∨ c.toNat = 12 ∨ c.toNat = 0xa0 ∨ c.toNat = 0x1680 ∨
    (0x2000 ≤ c.toNat ∧ c.toNat ≤ 0x200a) ∨
    c.toNat = 0x2028 ∨ c.toNat = 0x2029 ∨ c.toNat = 0x202f ∨
    c.toNat = 0x205f ∨ c.toNat = 0x3000 ∨ c.toNat = 0xfeff)

/-- ASCII lower-casing, the fragment of `String.prototype.toLowerCase`
exercised by the repository's inputs. -/
def jsToLower (c : Char) : Char :=
  if 65 ≤ c.toNat ∧ c.toNat ≤ 90 then Char.ofNat (c.toNat + 32) else c

/-- `content.replace(/\s+/g, ' ')`: collapse every maximal whitespace run
to a single space.  The Boolean flag records whether the previous input
character was whitespace (i.e. whether we are inside a run). -/
def collapseWsAux : Bool → List Char → List Char
  | _, [] => []
  | prevWs, c :: cs =>
    if jsIsWhitespace c then
      if prevWs then collapseWsAux true cs
      else ' ' :: collapseWsAux true cs
    else c :: collapseWsAux false cs

/-- `content.replace(/\s+/g, ' ')`. -/
def collapseWs (l : List Char) : List Char := collapseWsAux false l

/-- Drop the trailing whitespace run. -/
def trimRightWs : List Char → List Char
  | [] => []
  | c :: cs =>
    match trimRightWs cs with
    | [] => if jsIsWhitespace c then [] else [c]
    | r => c :: r

/-- `String.prototype.trim`: drop leading and trailing whitespace. -/
def jsTrimC (l : List Char) : List Char :=
  trimRightWs (l.dropWhile jsIsWhitespace)

/-- String wrapper for `jsTrimC`. -/
def jsTrimStr (s : String) : String := ⟨jsTrimC s.data⟩

/-! ## Content fingerprinting (src/utils.ts, createContentHash /
extractFacebookPostId) -/

/-- `ToInt32` (the `hash & hash` step): reduce an integer to the range
`[-2^31, 2^31)`. -/
def toInt32 (n : Int) : Int :=
  let m := n.emod 4294967296
  if m ≥ 2147483648 then m - 4294967296 else m

/-- One iteration of the rolling hash:
`hash = ((hash << 5) - hash) + charCode; hash = hash & hash`.
The shift itself wraps to 32 bits before the subtraction. -/
def hashStep (h : Int) (c : Char) : Int :=
  toInt32 (toInt32 (h * 32) - h + c.toNat)

/-- A base-36 digit, as produced by `Number.prototype.toString(36)`. -/
def digit36 (n : Nat) : Char :=
  if n < 10 then Char.ofNat (48 + n) else Char.ofNat (87 + n)

/-- Base-36 rendering of a natural number (fuelled to stay structurally
recursive; `natToBase36` supplies enough fuel). -/
def natToBase36Aux : Nat → Nat → List Char
  | 0, _ => []
  | f + 1, n => if n < 36 then [digit36 n] else natToBase36Aux f (n / 36) ++ [digit36 (n % 36)]

/-- `Math.abs(hash).toString(36)` for a natural number.  32 digits of
fuel suffice for every number below `36^32`; the hash values rendered
here are below `2^31`. -/
def natToBase36 (n : Nat) : String := ⟨natToBase36Aux 32 n⟩

/-- The normalization step of `createContentHash` (src/utils.ts:106-111):
collapse whitespace runs, trim, lower-case, truncate to 150 characters. -/
def normalizeContent (content : String) : List Char :=
  ((jsTrimC (collapseWs content.data)).map jsToLower).take 150

/-- src/utils.ts:106-121 `createContentHash`. -/
def createContentHash (content : String) : String :=
  let h := (normalizeContent content).foldl hashStep 0
  "h" ++ natToBase36 h.natAbs

/-- Truthiness of a `string | null` value: null and `""` are falsy. -/
def strTruthy : Option String → Bool
  | none => false
  | some s => !(s == "")

/-- src/utils.ts:6-9 `SeenPost`. -/
structure SeenPost where
  postId : Option String
  contentHash : String
deriving DecidableEq, Repr

/-- src/utils.ts:124-140 `isPostSeen`: linear scan; an entry matches when
both ids are truthy and equal, or when the content hashes are equal. -/
def isPostSeen (postId : Option String) (contentHash : String)
    (seenPosts : List SeenPost) : Bool :=
  seenPosts.any fun seen =>
    (strTruthy postId && strTruthy seen.postId && postId == seen.postId) ||
    contentHash == seen.contentHash

/-- Leftmost occurrence of the literal `pat` that is followed by at least
one character accepted by `ok`; returns the maximal accepted run after
the occurrence.  This is the semantics of the JS regex `pat(ok+)` with a
single capture group. -/
def scanCapture (pat : List Char) (ok : Char → Bool) : List Char → Option (List Char)
  | [] => none
  | c :: rest =>
    if pat.isPrefixOf (c :: rest) ∧ ((c :: rest).drop pat.length).takeWhile ok ≠ [] then
      some (((c :: rest).drop pat.length).takeWhile ok)
    else scanCapture pat ok rest

/-- `[a-zA-Z0-9]`. -/
def isAlnum (c : Char) : Bool := c.isAlpha || c.isDigit

/-- src/utils.ts:87-103 `extractFacebookPostId`: try `pfbid<alnum+>`
(truncated to 20 captured characters), then `story_fbid=<digits>`, then
`/posts/<digits>`; empty URL is falsy and yields null. -/
def extractFacebookPostId (url : String) : Option String :=
  if url = "" then none
  else
    match scanCapture "pfbid".data isAlnum url.data with
    | some run => some ("pfbid" ++ String.mk (run.take 20))
    | none =>
      match scanCapture "story_fbid=".data Char.isDigit url.data with
      | some ds => some ("story_" ++ String.mk ds)
      | none =>
        match scanCapture "/posts/".data Char.isDigit url.data with
        | some ds => some ("post_" ++ String.mk ds)
        | none => none

/-- src/utils.ts:52 `StoppedReason`. -/
inductive StoppedReason where
  | reached_previous
  | scroll_limit
  | api_limit
  | query_exhausted
deriving DecidableEq, Repr

/-- The string written into artifact frontmatter for a stop reason. -/
def StoppedReason.render : StoppedReason → String
  | .reached_previous => "reached_previous"
  | .scroll_limit => "scroll_limit"
  | .api_limit => "api_limit"
  | .query_exhausted => "query_exhausted"

/-! ## Claim C5: isPostSeen -/

private lemma seenEntryMatches (pid : Option String) (h : String) (sp : SeenPost) :
    ((strTruthy pid && strTruthy sp.postId && pid == sp.postId) || h == sp.contentHash) = true ↔
      ((∃ p, pid = some p ∧ sp.postId = some p ∧ p ≠ "") ∨ h = sp.contentHash) := by
  cases pid with
  | none => simp [strTruthy]
  | some p =>
    cases hsp : sp.postId with
    | none => simp [strTruthy, hsp]
    | some q =>
      simp only [strTruthy, hsp, Bool.or_eq_true, Bool.and_eq_true, Bool.not_eq_true',
        beq_iff_eq, beq_eq_false_iff_ne, ne_eq, Option.some.injEq]
      aesop

/-- Claim C5 (counterexample): as stated, the claim demands a match
whenever the candidate id is non-null and equals a stored non-null
`postId`; but with candidate id `some ""` and stored id `some ""` (both
non-null and equal, hashes distinct) `isPostSeen` returns `false`,
because the source guards both ids with JavaScript truthiness
(`postId && seen.postId && ...`) and the empty string is falsy. -/
theorem c5_isPostSeen_cex :
    ((some "" : Option String) ≠ none ∧ (some "" : Option String) = some "" ∧
      "h1" ≠ "h2") ∧
    isPostSeen (some "") "h1" [{ postId := some "", contentHash := "h2" }] = false := by
  decide

/-- Claim C5 (amended): for every candidate id (possibly null), candidate
hash and seen-set, `isPostSeen` returns true if and only if the candidate
id is non-null and NON-EMPTY and equals some stored non-null non-empty
`postId`, OR the candidate hash equals some stored `contentHash`; and it
always returns false on an empty seen-set. -/
theorem c5_isPostSeen_spec (pid : Option String) (h : String) (seen : List SeenPost) :
    (isPostSeen pid h seen = true ↔
      ∃ sp ∈ seen, ((∃ p, pid = some p ∧ sp.postId = some p ∧ p ≠ "") ∨ h = sp.contentHash)) ∧
    isPostSeen pid h [] = false := by
  refine ⟨?_, by simp [isPostSeen]⟩
  simp only [isPostSeen, List.any_eq_true]
  constructor
  · rintro ⟨sp, hsp, hmatch⟩
    exact ⟨sp, hsp, (seenEntryMatches pid h sp).mp hmatch⟩
  · rintro ⟨sp, hsp, hmatch⟩
    exact ⟨sp, hsp, (seenEntryMatches pid h sp).mpr hmatch⟩

/-! ## Claim C6: createContentHash -/

private lemma toNat_charOfNat (n : Nat) (h : n < 55296) : (Char.ofNat n).toNat = n := by
  have hv : n.isValidChar := Or.inl h
  simp only [Char.ofNat, hv, dif_pos, Char.ofNatAux, Char.toNat, UInt32.toNat]
  simp [UInt32.ofNatCore, BitVec.toNat_ofNat]

private lemma jsIsWhitespace_jsToLower (c : Char) :
    jsIsWhitespace (jsToLower c) = jsIsWhitespace c := by
  unfold jsToLower
  split
  · next h =>
    have h2 : (Char.ofNat (c.toNat + 32)).toNat = c.toNat + 32 :=
      toNat_charOfNat _ (by omega)
    simp only [jsIsWhitespace, h2, decide_eq_decide]
    omega
  · rfl

/-- Two character sequences that differ only in whitespace-run contents
and lengths or in (ASCII) letter case: equal non-whitespace characters up
to lower-casing, with nonempty whitespace runs facing nonempty whitespace
runs. -/
inductive WsCase : List Char → List Char → Prop where
  | nil : WsCase [] []
  | cons {c d : Char} {s t : List Char} :
      jsToLower c = jsToLower d → jsIsWhitespace c = false → jsIsWhitespace d = false →
      WsCase s t → WsCase (c :: s) (d :: t)
  | wsrun {u v s t : List Char} :
      u ≠ [] → v ≠ [] → (∀ c ∈ u, jsIsWhitespace c = true) → (∀ c ∈ v, jsIsWhitespace c = true) →
      WsCase s t → WsCase (u ++ s) (v ++ t)

private lemma collapseWsAux_cons_notWs {c : Char} (h : jsIsWhitespace c = false)
    (b : Bool) (s : List Char) :
    collapseWsAux b (c :: s) = c :: collapseWsAux false s := by
  cases b <;> simp [collapseWsAux, h]

private lemma collapseWsAux_wsrun {u : List Char} (hne : u ≠ [])
    (hws : ∀ c ∈ u, jsIsWhitespace c = true) (s : List Char) :
    collapseWsAux true (u ++ s) = collapseWsAux true s ∧
    collapseWsAux false (u ++ s) = ' ' :: collapseWsAux true s := by
  induction u with
  | nil => exact absurd rfl hne
  | cons x u ih =>
    have hx : jsIsWhitespace x = true := hws x (by simp)
    cases u with
    | nil => simp [collapseWsAux, hx]
    | cons y u =>
      have ih2 := ih (by simp) (fun c hc => hws c (by simp [hc]))
      refine ⟨?_, ?_⟩
      · simpa [collapseWsAux, hx] using ih2.1
      · simpa [collapseWsAux, hx] using ih2.1

private lemma collapse_map_lower_of_wsCase {s t : List Char} (h : WsCase s t) :
    ∀ b, (collapseWsAux b s).map jsToLower = (collapseWsAux b t).map jsToLower := by
  induction h with
  | nil => intro b; rfl
  | cons hlow hc hd _ ih =>
    intro b
    rw [collapseWsAux_cons_notWs hc, collapseWsAux_cons_notWs hd]
    simp only [List.map_cons, hlow, ih false]
  | wsrun hu hv hwu hwv _ ih =>
    intro b
    cases b with
    | true =>
      rw [(collapseWsAux_wsrun hu hwu _).1, (collapseWsAux_wsrun hv hwv _).1]
      exact ih true
    | false =>
      rw [(collapseWsAux_wsrun hu hwu _).2, (collapseWsAux_wsrun hv hwv _).2]
      simp only [List.map_cons, ih true]

private lemma dropWhileWs_map_lower (l : List Char) :
    (l.map jsToLower).dropWhile jsIsWhitespace =
      (l.dropWhile jsIsWhitespace).map jsToLower := by
  induction l with
  | nil => rfl
  | cons c cs ih =>
    simp only [List.map_cons, List.dropWhile_cons, jsIsWhitespace_jsToLower]
    split <;> simp_all

private lemma trimRightWs_map_lower (l : List Char) :
    trimRightWs (l.map jsToLower) = (trimRightWs l).map jsToLower := by
  induction l with
  | nil => rfl
  | cons c cs ih =>
    cases htr : trimRightWs cs with
    | nil =>
      simp only [List.map_cons, trimRightWs, ih, htr, List.map_nil,
        jsIsWhitespace_jsToLower]
      split <;> simp
    | cons r rs =>
      simp only [List.map_cons, trimRightWs, ih, htr]

private lemma jsTrimC_map_lower (l : List Char) :
    jsTrimC (l.map jsToLower) = (jsTrimC l).map jsToLower := by
  unfold jsTrimC
  rw [dropWhileWs_map_lower, trimRightWs_map_lower]

private lemma normalizeContent_eq_of_wsCase {s t : String} (h : WsCase s.data t.data) :
    normalizeContent s = normalizeContent t := by
  unfold normalizeContent
  have h1 : (jsTrimC (collapseWs s.data)).map jsToLower =
      (jsTrimC (collapseWs t.data)).map jsToLower := by
    rw [← jsTrimC_map_lower, ← jsTrimC_map_lower]
    unfold collapseWs
    rw [collapse_map_lower_of_wsCase h false]
  rw [h1]

set_option maxRecDepth 4000 in
/-- Claim C6: `createContentHash` is a deterministic pure function; two
strings that differ only in whitespace-run lengths or (ASCII) letter case
hash identically (the normalization collapses runs, trims, lower-cases,
and truncates to 150 characters before hashing); and the trivially
distinct inputs "Content A" and "Content B" hash differently. -/
theorem c6_createContentHash_spec :
    (∀ s : String, createContentHash s = createContentHash s) ∧
    (∀ s t : String, WsCase s.data t.data → createContentHash s = createContentHash t) ∧
    createContentHash "Content A" ≠ createContentHash "Content B" := by
  refine ⟨fun s => rfl, fun s t h => ?_, by decide⟩
  unfold createContentHash
  rw [normalizeContent_eq_of_wsCase h]

/-- Claim C6 (witness): "A  B" and "a b" differ only in case and in the
length of one whitespace run, and hash identically. -/
theorem c6_createContentHash_witness :
    WsCase "A  B".data "a b".data ∧
    createContentHash "A  B" = createContentHash "a b" := by
  have h1 : WsCase ['B'] ['b'] := .cons (by decide) (by decide) (by decide) .nil
  have h2 : WsCase ([' ', ' '] ++ ['B']) ([' '] ++ ['b']) :=
    .wsrun (by decide) (by decide) (by decide) (by decide) h1
  have h3 : WsCase ('A' :: ([' ', ' '] ++ ['B'])) ('a' :: ([' '] ++ ['b'])) :=
    .cons (by decide) (by decide) (by decide) h2
  have hw : WsCase "A  B".data "a b".data := h3
  exact ⟨hw, (c6_createContentHash_spec.2.1) "A  B" "a b" hw⟩

/-! ## Crawl state slices and watermark merges (src/utils.ts) -/

/-- The `{ url, content }` shape passed to `updateFacebookState`. -/
structure UrlContent where
  url : String
  content : String
deriving DecidableEq, Repr

/-- src/utils.ts:142 `MAX_SEEN_POSTS`. -/
def MAX_SEEN_POSTS : Nat := 10

/-- The `SeenPost` entry built for one captured post inside
`updateFacebookState` (src/utils.ts:148-151). -/
def fbFingerprint (p : UrlContent) : SeenPost :=
  { postId := extractFacebookPostId p.url, contentHash := createContentHash p.content }

/-- The `facebook` slice of `CrawlState` (src/utils.ts:12-17; the legacy
`lastSeenUrl` field is never read by the modelled operations). -/
structure FacebookSlice where
  lastSeenPosts : List SeenPost
  lastCrawlTime : Option String

/-- src/utils.ts:144-159 `updateFacebookState`, with the read-modify-write
of the state file made explicit (`st` is the state read, the result is the
state written) and the clock passed in as `now`. -/
def updateFacebookState (posts : List UrlContent) (now : String)
    (st : FacebookSlice) : FacebookSlice :=
  { lastSeenPosts := (posts.map fbFingerprint ++ st.lastSeenPosts).take MAX_SEEN_POSTS,
    lastCrawlTime := some now }

/-- src/utils.ts:42-50 `GmailEmail` (the `from` header field is named
`fromAddr` because `from` is a Lean keyword). -/
structure GmailEmail where
  id : String
  threadId : String
  date : String
  fromAddr : String
  subject : String
  content : String
  labels : List String
deriving DecidableEq, Repr

/-- src/utils.ts:285 `MAX_GMAIL_SEEN_IDS_PER_SENDER`. -/
def MAX_GMAIL_SEEN_IDS_PER_SENDER : Nat := 5

/-- `senderPattern.toLowerCase()`. -/
def jsToLowerStr (s : String) : String := ⟨s.data.map jsToLower⟩

/-- The `gmail` slice of `CrawlState`.  The record
`seenIdsBySender : Record<string, string[]>` is modelled as a total
function defaulting to `[]`, which is how the source reads it (a missing
key is initialised to `[]` before use, src/utils.ts:298-300). -/
structure GmailSlice where
  seenIdsBySender : String → List String
  lastCrawlTime : Option String

/-- The per-sender merge loop of `updateGmailState`
(src/utils.ts:296-306): iterate over the `emailsBySender` map in
insertion order, prepending each sender's new ids to that sender's window
and truncating to 5. -/
def gmailMergeFold (emailsBySender : List (String × List GmailEmail))
    (m : String → List String) : String → List String :=
  emailsBySender.foldl
    (fun m p =>
      let k := jsToLowerStr p.1
      fun q =>
        if q = k then ((p.2.map GmailEmail.id) ++ m k).take MAX_GMAIL_SEEN_IDS_PER_SENDER
        else m q)
    m

/-- src/utils.ts:287-310 `updateGmailState`. -/
def updateGmailState (emailsBySender : List (String × List GmailEmail)) (now : String)
    (st : GmailSlice) : GmailSlice :=
  { seenIdsBySender := gmailMergeFold emailsBySender st.seenIdsBySender,
    lastCrawlTime := some now }

/-- Normalized key of one `emailsBySender` entry. -/
def normKey (p : String × List GmailEmail) : String := jsToLowerStr p.1

/-! ## Claim C4: bounded most-recent-first seen windows -/

/-- One step of the merge fold. -/
private def gmailMergeStep (m : String → List String)
    (p : String × List GmailEmail) : String → List String :=
  fun q =>
    if q = jsToLowerStr p.1 then
      ((p.2.map GmailEmail.id) ++ m (jsToLowerStr p.1)).take MAX_GMAIL_SEEN_IDS_PER_SENDER
    else m q

private lemma gmailMergeFold_cons (p : String × List GmailEmail)
    (rest : List (String × List GmailEmail)) (m : String → List String) :
    gmailMergeFold (p :: rest) m = gmailMergeFold rest (gmailMergeStep m p) := rfl

private lemma gmailMergeFold_notMentioned (ebs : List (String × List GmailEmail))
    (m : String → List String) (q : String) (hq : q ∉ ebs.map normKey) :
    gmailMergeFold ebs m q = m q := by
  induction ebs generalizing m with
  | nil => rfl
  | cons p rest ih =>
    simp only [List.map_cons, List.mem_cons, not_or] at hq
    rw [gmailMergeFold_cons, ih (gmailMergeStep m p) hq.2]
    simp only [gmailMergeStep, normKey] at hq ⊢
    rw [if_neg hq.1]

private lemma gmailMergeFold_mentioned (ebs : List (String × List GmailEmail))
    (m : String → List String) (hnd : (ebs.map normKey).Nodup)
    (p : String × List GmailEmail) (hp : p ∈ ebs) :
    gmailMergeFold ebs m (normKey p) =
      ((p.2.map GmailEmail.id) ++ m (normKey p)).take MAX_GMAIL_SEEN_IDS_PER_SENDER := by
  induction ebs generalizing m with
  | nil => cases hp
  | cons hd rest ih =>
    simp only [List.map_cons, List.nodup_cons] at hnd
    rcases List.mem_cons.mp hp with rfl | hmem
    · rw [gmailMergeFold_cons,
        gmailMergeFold_notMentioned rest (gmailMergeStep m p) (normKey p) hnd.1]
      simp [gmailMergeStep, normKey]
    · have hne : normKey p ≠ normKey hd := by
        intro h
        exact hnd.1 (h ▸ List.mem_map_of_mem normKey hmem)
      rw [gmailMergeFold_cons, ih (gmailMergeStep m hd) hnd.2 hmem]
      simp only [gmailMergeStep, normKey] at hne ⊢
      rw [if_neg hne]

private lemma gmailMergeFold_bounded (ebs : List (String × List GmailEmail))
    (m : String → List String)
    (hm : ∀ q, (m q).length ≤ MAX_GMAIL_SEEN_IDS_PER_SENDER) (q : String) :
    (gmailMergeFold ebs m q).length ≤ MAX_GMAIL_SEEN_IDS_PER_SENDER := by
  induction ebs generalizing m with
  | nil => exact hm q
  | cons p rest ih =>
    rw [gmailMergeFold_cons]
    refine ih (gmailMergeStep m p) (fun r => ?_)
    by_cases h : r = jsToLowerStr p.1
    · simp [gmailMergeStep, h, List.length_take]
    · simp only [gmailMergeStep, if_neg h]
      exact hm r

/-- Claim C4: every watermark update preserves the bounded
most-recent-first window invariant.  `updateFacebookState` prepends the
new posts' fingerprints (in list order, newest first) to the existing
window and the result never exceeds 10 entries; `updateGmailState`
prepends new message ids per (lower-cased) sender key and truncates each
touched window to 5, windows of senders not mentioned in the update are
unchanged, and the 5-entry bound is preserved for every key. -/
theorem c4_seen_window_spec :
    (∀ (posts : List UrlContent) (now : String) (st : FacebookSlice),
      (updateFacebookState posts now st).lastSeenPosts.length ≤ 10 ∧
      ∀ i : Nat, i < 10 →
        (updateFacebookState posts now st).lastSeenPosts.get? i =
          (posts.map fbFingerprint ++ st.lastSeenPosts).get? i) ∧
    (∀ (ebs : List (String × List GmailEmail)) (now : String) (st : GmailSlice),
      ((ebs.map normKey).Nodup →
        ∀ p ∈ ebs,
          (updateGmailState ebs now st).seenIdsBySender (normKey p) =
            ((p.2.map GmailEmail.id) ++ st.seenIdsBySender (normKey p)).take 5) ∧
      (∀ q, q ∉ ebs.map normKey →
        (updateGmailState ebs now st).seenIdsBySender q = st.seenIdsBySender q) ∧
      ((∀ q, (st.seenIdsBySender q).length ≤ 5) →
        ∀ q, ((updateGmailState ebs now st).seenIdsBySender q).length ≤ 5)) := by
  refine ⟨fun posts now st => ⟨?_, fun i hi => ?_⟩, fun ebs now st => ⟨?_, ?_, ?_⟩⟩
  · simp [updateFacebookState, MAX_SEEN_POSTS, List.length_take]
  · simp only [updateFacebookState, MAX_SEEN_POSTS, List.getElem?_take]
    simp [hi]
  · exact fun hnd p hp => gmailMergeFold_mentioned ebs _ hnd p hp
  · exact fun q hq => gmailMergeFold_notMentioned ebs _ q hq
  · exact fun hb q => gmailMergeFold_bounded ebs _ hb q

/-- Claim C4 (witness): concrete update of both slices.  A Facebook
update of one post on a 10-entry window stays at 10 entries with the new
fingerprint in front; a Gmail update for sender "A@x.com" rewrites key
"a@x.com" and leaves key "other" unchanged. -/
theorem c4_seen_window_witness :
    (updateFacebookState [⟨"", "x"⟩] "t"
        ⟨List.replicate 10 ⟨none, "h0"⟩, none⟩).lastSeenPosts.length ≤ 10 ∧
    (updateGmailState [("A@x.com", [⟨"m1", "t1", "d", "f", "s", "c", []⟩])] "t"
        ⟨fun _ => ["old1"], none⟩).seenIdsBySender "a@x.com" = ["m1", "old1"] ∧
    (updateGmailState [("A@x.com", [⟨"m1", "t1", "d", "f", "s", "c", []⟩])] "t"
        ⟨fun _ => ["old1"], none⟩).seenIdsBySender "other" = ["old1"] := by
  refine ⟨(c4_seen_window_spec.1 _ _ _).1, ?_, ?_⟩
  · have h := (c4_seen_window_spec.2 [("A@x.com", [⟨"m1", "t1", "d", "f", "s", "c", []⟩])] "t"
      ⟨fun _ => ["old1"], none⟩).1 (by decide)
      ("A@x.com", [⟨"m1", "t1", "d", "f", "s", "c", []⟩]) (by simp)
    simpa [normKey, jsToLowerStr, jsToLower] using h
  · have h := (c4_seen_window_spec.2 [("A@x.com", [⟨"m1", "t1", "d", "f", "s", "c", []⟩])] "t"
      ⟨fun _ => ["old1"], none⟩).2.1 "other" (by decide)
    simpa using h

/-! ## Captured item shapes (src/utils.ts:25-50) -/

/-- src/utils.ts:25-29 `FacebookPost`. -/
structure FacebookPost where
  author : String
  content : String
  url : String
deriving DecidableEq, Repr

/-- src/utils.ts:31-40 `TwitterPost`. -/
structure TwitterPost where
  id : String
  createdAt : String
  author : String
  username : String
  url : String
  content : String
  quotedContent : Option String
  retweetedContent : Option String
deriving DecidableEq, Repr

/-! ## Claim C2: artifact write versus watermark update ordering

Each crawler ends with an emit phase that (possibly) writes the artifact
file and (possibly) persists the watermark.  The phase is modelled as the
ordered trace of those two externally visible effects. -/

/-- The two persistent effects of a crawl run's emit phase. -/
inductive RunEffect where
  | writeArtifact
  | updateState
deriving DecidableEq, Repr

/-- src/tweet.ts:93-131: `if (posts.length === 0) { log } else { ...;
writeMDFile(outputPath, mdContent); if (posts[0]) {
updateTwitterState(posts[0].id) } }`. -/
def tweetEmitPhase (posts : List TwitterPost) : List RunEffect :=
  if posts.length = 0 then []
  else
    [RunEffect.writeArtifact] ++
      (match posts.head? with
       | some _ => [RunEffect.updateState]
       | none => [])

/-- src/fb.ts:186-200: `if (posts.length === 0) { warn } else { ...;
writeMDFile(outputPath, mdContent); updateFacebookState(...) }`. -/
def fbEmitPhase (posts : List FacebookPost) : List RunEffect :=
  if posts.length = 0 then []
  else [RunEffect.writeArtifact, RunEffect.updateState]

/-- src/gmail.ts:415-426: `if (allEmails.length > 0) {
updateGmailState(emailsBySender); ...; writeMDFile(outputPath, md) }` —
note the state update comes first. -/
def gmailEmitPhase (allEmails : List GmailEmail) : List RunEffect :=
  if allEmails.length > 0 then [RunEffect.updateState, RunEffect.writeArtifact]
  else []

/-- Every state update in the trace is preceded by an artifact write
(the ordering asserted by the claim). -/
def updatesOnlyAfterWrite (tr : List RunEffect) : Prop :=
  ∀ i, tr.get? i = some RunEffect.updateState →
    ∃ j, j < i ∧ tr.get? j = some RunEffect.writeArtifact

/-- Claim C2 (counterexample): in the Gmail run the watermark update is
performed BEFORE the artifact file is written — on a run that captured
one email the first emitted effect is the state update, so the claimed
"state is updated only after the artifact has been written" fails. -/
theorem c2_emit_order_cex :
    gmailEmitPhase [⟨"m1", "t", "d", "f", "s", "c", []⟩] =
      [RunEffect.updateState, RunEffect.writeArtifact] ∧
    ¬ updatesOnlyAfterWrite (gmailEmitPhase [⟨"m1", "t", "d", "f", "s", "c", []⟩]) := by
  refine ⟨rfl, fun h => ?_⟩
  rcases h 0 rfl with ⟨j, hj, _⟩
  omega

/-- Claim C2 (amended): zero-item runs of all three crawlers perform no
persistent effect at all (no artifact write, no watermark update); on a
run with at least one item the Twitter and Facebook crawlers write the
artifact before updating the watermark, while the Gmail crawler updates
the watermark first and then writes the artifact. -/
theorem c2_emit_order_spec :
    (∀ posts : List TwitterPost,
      (tweetEmitPhase posts = [] ↔ posts = []) ∧
      updatesOnlyAfterWrite (tweetEmitPhase posts)) ∧
    (∀ posts : List FacebookPost,
      (fbEmitPhase posts = [] ↔ posts = []) ∧
      updatesOnlyAfterWrite (fbEmitPhase posts)) ∧
    (∀ emails : List GmailEmail,
      (gmailEmitPhase emails = [] ↔ emails = []) ∧
      (emails ≠ [] →
        gmailEmitPhase emails = [RunEffect.updateState, RunEffect.writeArtifact])) := by
  refine ⟨fun posts => ⟨?_, ?_⟩, fun posts => ⟨?_, ?_⟩, fun emails => ⟨?_, ?_⟩⟩
  · cases posts <;> simp [tweetEmitPhase]
  · cases posts with
    | nil => intro i hi; simp [tweetEmitPhase] at hi
    | cons p ps =>
      intro i hi
      refine ⟨0, ?_, rfl⟩
      simp only [tweetEmitPhase, List.length_cons, List.head?_cons] at hi
      match i, hi with
      | 0, hi => simp at hi
      | n + 1, _ => omega
  · cases posts <;> simp [fbEmitPhase]
  · cases posts with
    | nil => intro i hi; simp [fbEmitPhase] at hi
    | cons p ps =>
      intro i hi
      refine ⟨0, ?_, rfl⟩
      simp only [fbEmitPhase, List.length_cons] at hi
      match i, hi with
      | 0, hi => simp at hi
      | n + 1, _ => omega
  · cases emails <;> simp [gmailEmitPhase]
  · cases emails with
    | nil => intro h; exact absurd rfl h
    | cons e es => intro _; simp [gmailEmitPhase]

/-- Claim C2 (witness): concrete one-item runs.  The Twitter trace writes
before updating, the Gmail trace is exactly update-then-write, and for a
nonempty email list the nonemptiness hypothesis is discharged on
`["m1" ...]`. -/
theorem c2_emit_order_witness :
    ([⟨"m1", "t", "d", "f", "s", "c", []⟩] : List GmailEmail) ≠ [] ∧
    gmailEmitPhase [⟨"m1", "t", "d", "f", "s", "c", []⟩] =
      [RunEffect.updateState, RunEffect.writeArtifact] ∧
    updatesOnlyAfterWrite
      (tweetEmitPhase [⟨"1", "t", "a", "u", "url", "c", none, none⟩]) := by
  refine ⟨by simp, ?_, ?_⟩
  · exact (c2_emit_order_spec.2.2 [⟨"m1", "t", "d", "f", "s", "c", []⟩]).2 (by simp)
  · exact (c2_emit_order_spec.1 [⟨"1", "t", "a", "u", "url", "c", none, none⟩]).2

/-! ## The Twitter list pagination loop (src/tweet.ts:35-90) -/

/-- The fields of a fetched tweet consumed by the loop (rettiwt-api
shapes; absent/empty strings model falsy fields). -/
structure Tweet where
  id : String
  createdAt : String
  fullName : String
  userName : String
  url : String
  fullText : String
  quoted : Option String
  retweeted : Option String
deriving DecidableEq, Repr

/-- One API page: `result.list` and `result.next`.  A missing or empty
list models `!result.list || result.list.length === 0`. -/
structure TweetPage where
  list : List Tweet
  next : Option String
deriving DecidableEq, Repr

/-- src/tweet.ts:13 `MAX_PAGES`. -/
def MAX_PAGES : Nat := 10

/-- src/tweet.ts:56 `lastSeenId && tweet.id === lastSeenId` — the
watermark matches only when it is truthy (non-null, non-empty). -/
def tweetMatch (lastSeenId : Option String) (t : Tweet) : Bool :=
  match lastSeenId with
  | none => false
  | some s => !(s == "") && (t.id == s)

/-- src/tweet.ts:84 `!result.next` — an absent or empty cursor is the
no-more-pages signal. -/
def tweetHasNext (p : TweetPage) : Bool :=
  match p.next with
  | none => false
  | some s => !(s == "")

/-- src/tweet.ts:63-72: normalization of one tweet into a `TwitterPost`.
`toIso` abstracts `new Date(x).toISOString()`. -/
def tweetToPost (toIso : String → String) (t : Tweet) : TwitterPost :=
  { id := t.id,
    createdAt := if t.createdAt = "" then "Unknown" else toIso t.createdAt,
    author := if t.fullName = "" then "Unknown" else t.fullName,
    username := if t.userName = "" then "unknown" else t.userName,
    url := if t.url = "" then "https://twitter.com/i/status/" ++ t.id else t.url,
    content := t.fullText,
    quotedContent := t.quoted,
    retweetedContent := t.retweeted }

/-- src/tweet.ts:52-77: the `for (const tweet of result.list)` body —
capture tweets until the watermark is hit; returns the captured posts and
the `foundPrevious` flag. -/
def tweetProcessPage (lastSeen : Option String) (toIso : String → String) :
    List Tweet → List TwitterPost × Bool
  | [] => ([], false)
  | t :: ts =>
    if tweetMatch lastSeen t then ([], true)
    else
      let r := tweetProcessPage lastSeen toIso ts
      (tweetToPost toIso t :: r.1, r.2)

/-- src/tweet.ts:41-90: the `while (pageCount < MAX_PAGES)` loop.  The
remote list is scripted as a list of pages consumed in cursor order; a
script shorter than the walk behaves as an API that returns an empty
page.  `stoppedReason` starts as `api_limit` and is reassigned only when
the watermark is reached.  The third component records the batches
actually fetched by the run. -/
def tweetCrawlLoop (lastSeen : Option String) (toIso : String → String) :
    Nat → List TweetPage → List TwitterPost × StoppedReason × List (List Tweet)
  | 0, _ => ([], .api_limit, [])
  | _ + 1, [] => ([], .api_limit, [[]])
  | fuel + 1, page :: rest =>
    if page.list.isEmpty then ([], .api_limit, [page.list])
    else
      if (tweetProcessPage lastSeen toIso page.list).2 then
        ((tweetProcessPage lastSeen toIso page.list).1, .reached_previous, [page.list])
      else if tweetHasNext page then
        ((tweetProcessPage lastSeen toIso page.list).1 ++
            (tweetCrawlLoop lastSeen toIso fuel rest).1,
          (tweetCrawlLoop lastSeen toIso fuel rest).2.1,
          page.list :: (tweetCrawlLoop lastSeen toIso fuel rest).2.2)
      else ((tweetProcessPage lastSeen toIso page.list).1, .api_limit, [page.list])

/-- src/tweet.ts:16-131 `crawl`, pagination part. -/
def tweetCrawl (lastSeen : Option String) (toIso : String → String)
    (pages : List TweetPage) : List TwitterPost × StoppedReason × List (List Tweet) :=
  tweetCrawlLoop lastSeen toIso MAX_PAGES pages

private lemma takeWhile_eq_self_of_all {α : Type} (p : α → Bool) (l : List α)
    (h : ∀ x ∈ l, p x = true) : l.takeWhile p = l := by
  induction l with
  | nil => rfl
  | cons a as ih =>
    rw [List.takeWhile_cons, if_pos (h a (by simp))]
    rw [ih (fun x hx => h x (by simp [hx]))]

private lemma takeWhile_append_of_all {α : Type} (p : α → Bool) (l₁ l₂ : List α)
    (h : ∀ x ∈ l₁, p x = true) :
    (l₁ ++ l₂).takeWhile p = l₁ ++ l₂.takeWhile p := by
  induction l₁ with
  | nil => rfl
  | cons a as ih =>
    rw [List.cons_append, List.takeWhile_cons, if_pos (h a (by simp))]
    rw [ih (fun x hx => h x (by simp [hx]))]
    simp

private lemma tweetProcessPage_spec (lastSeen : Option String) (toIso : String → String)
    (l : List Tweet) :
    (tweetProcessPage lastSeen toIso l).2 = l.any (tweetMatch lastSeen) ∧
    (tweetProcessPage lastSeen toIso l).1 =
      (l.takeWhile (fun t => !(tweetMatch lastSeen t))).map (tweetToPost toIso) := by
  induction l with
  | nil => exact ⟨rfl, rfl⟩
  | cons t ts ih =>
    by_cases h : tweetMatch lastSeen t = true
    · simp [tweetProcessPage, h, List.takeWhile_cons]
    · simp only [Bool.not_eq_true] at h
      simp [tweetProcessPage, h, List.takeWhile_cons, ih.1, ih.2]

/-- Master lemma for the Twitter loop: if the batches fetched by a run
contain a watermark match, the run stops with `reached_previous` and
captures exactly the tweets preceding the first match; if they contain no
match, the reason is the initial `api_limit` and every fetched tweet is
captured. -/
private lemma tweetCrawlLoop_spec (lastSeen : Option String) (toIso : String → String)
    (fuel : Nat) (pages : List TweetPage) :
    ((tweetCrawlLoop lastSeen toIso fuel pages).2.2.flatten.any (tweetMatch lastSeen) = true →
      (tweetCrawlLoop lastSeen toIso fuel pages).2.1 = StoppedReason.reached_previous ∧
      (tweetCrawlLoop lastSeen toIso fuel pages).1 =
        ((tweetCrawlLoop lastSeen toIso fuel pages).2.2.flatten.takeWhile
          (fun t => !(tweetMatch lastSeen t))).map (tweetToPost toIso)) ∧
    ((tweetCrawlLoop lastSeen toIso fuel pages).2.2.flatten.any (tweetMatch lastSeen) = false →
      (tweetCrawlLoop lastSeen toIso fuel pages).2.1 = StoppedReason.api_limit ∧
      (tweetCrawlLoop lastSeen toIso fuel pages).1 =
        (tweetCrawlLoop lastSeen toIso fuel pages).2.2.flatten.map (tweetToPost toIso)) := by
  induction fuel generalizing pages with
  | zero => simp [tweetCrawlLoop]
  | succ fuel ih =>
    cases pages with
    | nil => simp [tweetCrawlLoop]
    | cons page rest =>
      have hp := tweetProcessPage_spec lastSeen toIso page.list
      by_cases hempty : page.list.isEmpty
      · rw [show tweetCrawlLoop lastSeen toIso (fuel + 1) (page :: rest) =
            ([], .api_limit, [page.list]) by rw [tweetCrawlLoop, if_pos hempty]]
        rw [List.isEmpty_iff.mp hempty]
        simp
      · by_cases hfound : (tweetProcessPage lastSeen toIso page.list).2 = true
        · rw [show tweetCrawlLoop lastSeen toIso (fuel + 1) (page :: rest) =
              ((tweetProcessPage lastSeen toIso page.list).1, .reached_previous,
                [page.list]) by
            rw [tweetCrawlLoop, if_neg hempty, if_pos hfound]]
          have hany : page.list.any (tweetMatch lastSeen) = true := hp.1 ▸ hfound
          constructor
          · intro _
            refine ⟨rfl, ?_⟩
            simpa using hp.2
          · intro hno
            simp only [List.flatten_cons, List.flatten_nil, List.append_nil] at hno
            rw [hany] at hno
            cases hno
        · have hfound2 : (tweetProcessPage lastSeen toIso page.list).2 = false := by
            simpa using hfound
          have hany : page.list.any (tweetMatch lastSeen) = false := hp.1 ▸ hfound2
          have hallpage : ∀ t ∈ page.list, (!(tweetMatch lastSeen t)) = true := by
            intro t ht
            have := List.any_eq_false.mp hany t ht
            simpa using this
          by_cases hnext : tweetHasNext page = true
          · rw [show tweetCrawlLoop lastSeen toIso (fuel + 1) (page :: rest) =
                ((tweetProcessPage lastSeen toIso page.list).1 ++
                    (tweetCrawlLoop lastSeen toIso fuel rest).1,
                  (tweetCrawlLoop lastSeen toIso fuel rest).2.1,
                  page.list :: (tweetCrawlLoop lastSeen toIso fuel rest).2.2) by
              rw [tweetCrawlLoop, if_neg hempty, if_neg (by simp [hfound2]), if_pos hnext]]
            have ihr := ih rest
            constructor
            · intro hanyall
              simp only [List.flatten_cons, List.any_append, hany, Bool.false_or] at hanyall
              refine ⟨(ihr.1 hanyall).1, ?_⟩
              simp only [List.flatten_cons]
              rw [takeWhile_append_of_all _ _ _ hallpage, List.map_append,
                hp.2, takeWhile_eq_self_of_all _ _ hallpage, (ihr.1 hanyall).2]
            · intro hnoall
              simp only [List.flatten_cons, List.any_append, hany, Bool.false_or] at hnoall
              refine ⟨(ihr.2 hnoall).1, ?_⟩
              simp only [List.flatten_cons]
              rw [List.map_append, hp.2, takeWhile_eq_self_of_all _ _ hallpage,
                (ihr.2 hnoall).2]
          · rw [show tweetCrawlLoop lastSeen toIso (fuel + 1) (page :: rest) =
                ((tweetProcessPage lastSeen toIso page.list).1, .api_limit, [page.list]) by
              rw [tweetCrawlLoop, if_neg hempty, if_neg (by simp [hfound2]),
                if_neg hnext]]
            constructor
            · intro hanyall
              simp only [List.flatten_cons, List.flatten_nil, List.append_nil] at hanyall
              rw [hany] at hanyall
              cases hanyall
            · intro _
              refine ⟨rfl, ?_⟩
              simp only [List.flatten_cons, List.flatten_nil, List.append_nil]
              rw [hp.2, takeWhile_eq_self_of_all _ _ hallpage]

/-! ## Claim C3: stop reason of the Twitter crawler on exhaustion -/

/-- Claim C3 (counterexample): a Twitter run that ends because the
response carries no next cursor (first input: one nonempty page, cursor
absent), and a run that ends because the fetched page is empty (second
input), both report `api_limit`, not `query_exhausted` as claimed —
`stoppedReason` is initialised to `'api_limit'` (src/tweet.ts:36) and is
never reassigned on either exhaustion path. -/
theorem c3_stop_reason_cex :
    (tweetCrawl none (fun s => s)
        [⟨[⟨"1", "", "", "", "", "", none, none⟩], none⟩]).2.1 = StoppedReason.api_limit ∧
    (tweetCrawl none (fun s => s) [⟨[], none⟩]).2.1 = StoppedReason.api_limit ∧
    StoppedReason.api_limit ≠ StoppedReason.query_exhausted := by
  refine ⟨rfl, rfl, by decide⟩

/-- Claim C3 (amended): for the list API (Twitter) source, a run whose
fetched pages never hit the watermark — in particular every run that ends
because a fetched page contains zero items, or because the response
carries no next cursor, or because the page cap is reached — reports stop
reason `api_limit` (the initialised default); the Twitter crawler never
reports `query_exhausted`. -/
theorem c3_stop_reason_spec (lastSeen : Option String) (toIso : String → String)
    (pages : List TweetPage)
    (h : (tweetCrawl lastSeen toIso pages).2.2.flatten.any (tweetMatch lastSeen) = false) :
    (tweetCrawl lastSeen toIso pages).2.1 = StoppedReason.api_limit :=
  ((tweetCrawlLoop_spec lastSeen toIso MAX_PAGES pages).2 h).1

/-- Claim C3 (witness): the no-cursor run from the counterexample fetches
only the one page, matches nothing (the watermark is null), and reports
`api_limit`. -/
theorem c3_stop_reason_witness :
    ((tweetCrawl none (fun s => s)
        [⟨[⟨"1", "", "", "", "", "", none, none⟩], none⟩]).2.2.flatten.any
          (tweetMatch none) = false) ∧
    (tweetCrawl none (fun s => s)
        [⟨[⟨"1", "", "", "", "", "", none, none⟩], none⟩]).2.1 = StoppedReason.api_limit :=
  ⟨rfl, c3_stop_reason_spec none (fun s => s) _ rfl⟩

/-! ## The Gmail per-sender pagination loop (src/gmail.ts:317-369) -/

/-- One page of `users.messages.list`: the message ids and the next page
token.  An id `""` models a falsy `msg.id`. -/
structure GmailPage where
  messages : List String
  nextPageToken : Option String
deriving DecidableEq, Repr

/-- src/gmail.ts:364-365 `pageToken = response.data.nextPageToken ||
undefined; if (!pageToken) break`. -/
def gmailHasNextToken (p : GmailPage) : Bool :=
  match p.nextPageToken with
  | none => false
  | some s => !(s == "")

/-- A message id that stops the sub-run: it survives the falsy-id skip
and is in the sender's seen set (src/gmail.ts:344-347). -/
def gmailMatches (seen : List String) (m : String) : Bool :=
  !(m == "") && decide (m ∈ seen)

/-- src/gmail.ts:343-362: the `for (const msg of messages)` body — skip
falsy ids, stop with `reached_previous` on a seen id, otherwise fetch and
accumulate, stopping with `scroll_limit` as soon as `maxEmails` is
reached.  `fetch` abstracts `fetchEmail` (a `users.messages.get` call).
Returns the accumulated emails and `some reason` when the sub-run
returned from inside the page. -/
def gmailProcessMsgs (seen : List String) (fetch : String → GmailEmail) (maxEmails : Nat)
    (acc : List GmailEmail) : List String → List GmailEmail × Option StoppedReason
  | [] => (acc, none)
  | m :: ms =>
    if m = "" then gmailProcessMsgs seen fetch maxEmails acc ms
    else if m ∈ seen then (acc, some .reached_previous)
    else
      if maxEmails ≤ (acc ++ [fetch m]).length then (acc ++ [fetch m], some .scroll_limit)
      else gmailProcessMsgs seen fetch maxEmails (acc ++ [fetch m]) ms

/-- src/gmail.ts:332-368: the `while (emails.length < config.maxEmails)`
loop of `crawlSender`.  The mailbox is scripted as a list of pages
consumed in token order; a script shorter than the walk behaves as an API
that returns no messages.  `stoppedReason` starts as `query_exhausted`.
The third component records the message-id batches actually fetched. -/
def gmailCrawlLoop (seen : List String) (fetch : String → GmailEmail) (maxEmails : Nat)
    (acc : List GmailEmail) :
    List GmailPage → List GmailEmail × StoppedReason × List (List String)
  | [] =>
    if acc.length < maxEmails then (acc, .query_exhausted, [[]])
    else (acc, .query_exhausted, [])
  | p :: ps =>
    if acc.length < maxEmails then
      if p.messages.isEmpty then (acc, .query_exhausted, [p.messages])
      else
        match gmailProcessMsgs seen fetch maxEmails acc p.messages with
        | (acc2, some r) => (acc2, r, [p.messages])
        | (acc2, none) =>
          if gmailHasNextToken p then
            ((gmailCrawlLoop seen fetch maxEmails acc2 ps).1,
             (gmailCrawlLoop seen fetch maxEmails acc2 ps).2.1,
             p.messages :: (gmailCrawlLoop seen fetch maxEmails acc2 ps).2.2)
          else (acc2, .query_exhausted, [p.messages])
    else (acc, .query_exhausted, [])

/-- src/gmail.ts:317-369 `crawlSender` for one sender's seen ids and
scripted mailbox pages. -/
def crawlSender (seen : List String) (fetch : String → GmailEmail) (maxEmails : Nat)
    (pages : List GmailPage) : List GmailEmail × StoppedReason × List (List String) :=
  gmailCrawlLoop seen fetch maxEmails [] pages

/-- One configured sender of `crawlNewsletters`: its raw config pattern,
whether its sub-run succeeds (`ok = false` models the per-sender
`try/catch` swallowing a thrown fetch), its seen-id slice and its
scripted mailbox pages. -/
structure SenderSpec where
  sender : String
  ok : Bool
  seenIds : List String
  pages : List GmailPage

/-- The body of the `for (const sender of config.allowedSenders)` loop of
`crawlNewsletters` (src/gmail.ts:385-411): on success, append the
sub-run's emails to `allEmails`, record them in `emailsBySender`, and
latch the overall reason to `scroll_limit` if the sub-run stopped with
`scroll_limit`; on a thrown sub-run the state is unchanged. -/
def crawlNewslettersStep (fetch : String → GmailEmail) (maxEmails : Nat)
    (st : List GmailEmail × List (String × List GmailEmail) × StoppedReason)
    (s : SenderSpec) :
    List GmailEmail × List (String × List GmailEmail) × StoppedReason :=
  if s.ok then
    (st.1 ++ (crawlSender s.seenIds fetch maxEmails s.pages).1,
     st.2.1 ++ [(s.sender, (crawlSender s.seenIds fetch maxEmails s.pages).1)],
     if (crawlSender s.seenIds fetch maxEmails s.pages).2.1 = .scroll_limit then
       .scroll_limit
     else st.2.2)
  else st

/-- src/gmail.ts:371-429 `crawlNewsletters`, crawl part: run each sender
sub-run in order, accumulate emails (failed sub-runs contribute nothing);
the overall reason starts as `query_exhausted`. -/
def crawlNewsletters (fetch : String → GmailEmail) (maxEmails : Nat)
    (senders : List SenderSpec) :
    List GmailEmail × List (String × List GmailEmail) × StoppedReason :=
  senders.foldl (crawlNewslettersStep fetch maxEmails) ([], [], .query_exhausted)

/-! ## Claim C9: the overall Gmail stop reason -/

private lemma gmailProcessMsgs_length (seen : List String) (fetch : String → GmailEmail)
    (maxE : Nat) (msgs : List String) (acc : List GmailEmail) (h : acc.length < maxE) :
    ((gmailProcessMsgs seen fetch maxE acc msgs).2 = some StoppedReason.scroll_limit →
      (gmailProcessMsgs seen fetch maxE acc msgs).1.length = maxE) ∧
    ((gmailProcessMsgs seen fetch maxE acc msgs).2 ≠ some StoppedReason.scroll_limit →
      (gmailProcessMsgs seen fetch maxE acc msgs).1.length < maxE) := by
  induction msgs generalizing acc with
  | nil =>
    refine ⟨fun h2 => ?_, fun _ => h⟩
    simp [gmailProcessMsgs] at h2
  | cons m ms ih =>
    by_cases hm : m = ""
    · simpa [gmailProcessMsgs, hm] using ih acc h
    · by_cases hseen : m ∈ seen
      · refine ⟨fun h2 => ?_, fun _ => ?_⟩
        · simp [gmailProcessMsgs, hm, hseen] at h2
        · simpa [gmailProcessMsgs, hm, hseen] using h
      · by_cases hcap : maxE ≤ (acc ++ [fetch m]).length
        · refine ⟨fun _ => ?_, fun h2 => ?_⟩
          · rw [show gmailProcessMsgs seen fetch maxE acc (m :: ms) =
                (acc ++ [fetch m], some StoppedReason.scroll_limit) by
              rw [gmailProcessMsgs, if_neg hm, if_neg hseen, if_pos hcap]]
            simp only [List.length_append, List.length_cons, List.length_nil] at hcap ⊢
            omega
          · exfalso
            apply h2
            rw [show gmailProcessMsgs seen fetch maxE acc (m :: ms) =
                (acc ++ [fetch m], some StoppedReason.scroll_limit) by
              rw [gmailProcessMsgs, if_neg hm, if_neg hseen, if_pos hcap]]
        · have hlen : (acc ++ [fetch m]).length < maxE := by omega
          rw [show gmailProcessMsgs seen fetch maxE acc (m :: ms) =
              gmailProcessMsgs seen fetch maxE (acc ++ [fetch m]) ms by
            rw [gmailProcessMsgs, if_neg hm, if_neg hseen, if_neg hcap]]
          exact ih (acc ++ [fetch m]) hlen

private lemma gmailCrawlLoop_scroll_iff (seen : List String) (fetch : String → GmailEmail)
    (maxE : Nat) (pages : List GmailPage) (acc : List GmailEmail) (h : acc.length ≤ maxE) :
    ((gmailCrawlLoop seen fetch maxE acc pages).2.1 = StoppedReason.scroll_limit ↔
      (gmailCrawlLoop seen fetch maxE acc pages).1.length = maxE ∧ acc.length < maxE) ∧
    (gmailCrawlLoop seen fetch maxE acc pages).1.length ≤ maxE := by
  induction pages generalizing acc with
  | nil =>
    by_cases hlt : acc.length < maxE
    · rw [show gmailCrawlLoop seen fetch maxE acc [] = (acc, .query_exhausted, [[]]) by
        rw [gmailCrawlLoop, if_pos hlt]]
      refine ⟨⟨fun hx => ?_, fun hp => ?_⟩, ?_⟩
      · simp at hx
      · simp at hp; omega
      · simpa using h
    · rw [show gmailCrawlLoop seen fetch maxE acc [] = (acc, .query_exhausted, []) by
        rw [gmailCrawlLoop, if_neg hlt]]
      refine ⟨⟨fun hx => ?_, fun hp => ?_⟩, ?_⟩
      · simp at hx
      · simp at hp; omega
      · simpa using h
  | cons p ps ih =>
    by_cases hlt : acc.length < maxE
    · by_cases hempty : p.messages.isEmpty
      · rw [show gmailCrawlLoop seen fetch maxE acc (p :: ps) =
            (acc, .query_exhausted, [p.messages]) by
          rw [gmailCrawlLoop, if_pos hlt, if_pos hempty]]
        refine ⟨⟨fun hx => ?_, fun hp => ?_⟩, ?_⟩
        · simp at hx
        · simp at hp; omega
        · simpa using h
      · rcases hproc : gmailProcessMsgs seen fetch maxE acc p.messages with ⟨acc2, res⟩
        have hlen := gmailProcessMsgs_length seen fetch maxE p.messages acc hlt
        rw [hproc] at hlen
        cases res with
        | some r =>
          rw [show gmailCrawlLoop seen fetch maxE acc (p :: ps) = (acc2, r, [p.messages]) by
            rw [gmailCrawlLoop, if_pos hlt, if_neg hempty, hproc]]
          by_cases hr : r = StoppedReason.scroll_limit
          · subst hr
            have hval : acc2.length = maxE := by simpa using hlen.1 rfl
            refine ⟨⟨fun _ => ?_, fun _ => rfl⟩, ?_⟩
            · exact ⟨by simpa using hval, hlt⟩
            · simpa using hval.le
          · have hl2 : acc2.length < maxE := by
              simpa using hlen.2 (by simpa using hr)
            refine ⟨⟨fun hx => absurd hx hr, fun hp => ?_⟩, ?_⟩
            · simp at hp; omega
            · simpa using hl2.le
        | none =>
          have hl2 : acc2.length < maxE := by simpa using hlen.2 (by simp)
          by_cases hnext : gmailHasNextToken p = true
          · rw [show gmailCrawlLoop seen fetch maxE acc (p :: ps) =
                ((gmailCrawlLoop seen fetch maxE acc2 ps).1,
                 (gmailCrawlLoop seen fetch maxE acc2 ps).2.1,
                 p.messages :: (gmailCrawlLoop seen fetch maxE acc2 ps).2.2) by
              rw [gmailCrawlLoop, if_pos hlt, if_neg hempty, hproc]
              simp [hnext]]
            have ihr := ih acc2 hl2.le
            refine ⟨?_, by simpa using ihr.2⟩
            constructor
            · intro hx
              have := ihr.1.mp (by simpa using hx)
              exact ⟨by simpa using this.1, hlt⟩
            · intro hp
              have h1 : (gmailCrawlLoop seen fetch maxE acc2 ps).1.length = maxE := by
                simpa using hp.1
              simpa using ihr.1.mpr ⟨h1, hl2⟩
          · rw [show gmailCrawlLoop seen fetch maxE acc (p :: ps) =
                (acc2, .query_exhausted, [p.messages]) by
              rw [gmailCrawlLoop, if_pos hlt, if_neg hempty, hproc]
              simp [hnext]]
            refine ⟨⟨fun hx => ?_, fun hp => ?_⟩, ?_⟩
            · simp at hx
            · simp at hp; omega
            · simpa using hl2.le
    · rw [show gmailCrawlLoop seen fetch maxE acc (p :: ps) =
          (acc, .query_exhausted, []) by rw [gmailCrawlLoop, if_neg hlt]]
      refine ⟨⟨fun hx => ?_, fun hp => ?_⟩, ?_⟩
      · simp at hx
      · simp at hp; omega
      · simpa using h

private lemma crawlNewsletters_fold_scroll (fetch : String → GmailEmail) (maxE : Nat)
    (senders : List SenderSpec)
    (st0 : List GmailEmail × List (String × List GmailEmail) × StoppedReason) :
    ((senders.foldl (crawlNewslettersStep fetch maxE) st0).2.2 = StoppedReason.scroll_limit ↔
      (st0.2.2 = StoppedReason.scroll_limit ∨
        ∃ s ∈ senders, s.ok = true ∧
          (crawlSender s.seenIds fetch maxE s.pages).2.1 = StoppedReason.scroll_limit)) := by
  induction senders generalizing st0 with
  | nil => simp
  | cons s rest ih =>
    rw [List.foldl_cons, ih]
    by_cases hok : s.ok = true
    · by_cases hsub : (crawlSender s.seenIds fetch maxE s.pages).2.1 =
          StoppedReason.scroll_limit
      · simp [crawlNewslettersStep, hok, hsub]
      · simp only [crawlNewslettersStep, if_pos hok, if_neg hsub]
        simp only [List.mem_cons]
        constructor
        · rintro (h1 | h2)
          · exact Or.inl h1
          · exact Or.inr ⟨h2.choose, Or.inr h2.choose_spec.1, h2.choose_spec.2⟩
        · rintro (h1 | ⟨x, hx | hx, hx2⟩)
          · exact Or.inl h1
          · subst hx; exact absurd hx2.2 hsub
          · exact Or.inr ⟨x, hx, hx2⟩
    · simp only [crawlNewslettersStep, if_neg hok]
      simp only [List.mem_cons]
      constructor
      · rintro (h1 | ⟨x, hx, hx2⟩)
        · exact Or.inl h1
        · exact Or.inr ⟨x, Or.inr hx, hx2⟩
      · rintro (h1 | ⟨x, hx | hx, hx2⟩)
        · exact Or.inl h1
        · subst hx; exact absurd hx2.1 hok
        · exact Or.inr ⟨x, hx, hx2⟩

private lemma crawlNewsletters_fold_domain (fetch : String → GmailEmail) (maxE : Nat)
    (senders : List SenderSpec)
    (st0 : List GmailEmail × List (String × List GmailEmail) × StoppedReason) :
    (senders.foldl (crawlNewslettersStep fetch maxE) st0).2.2 = StoppedReason.scroll_limit ∨
    (senders.foldl (crawlNewslettersStep fetch maxE) st0).2.2 = st0.2.2 := by
  induction senders generalizing st0 with
  | nil => exact Or.inr rfl
  | cons s rest ih =>
    rw [List.foldl_cons]
    rcases ih (crawlNewslettersStep fetch maxE st0 s) with h | h
    · exact Or.inl h
    · rw [h]
      by_cases hok : s.ok = true
      · by_cases hsub : (crawlSender s.seenIds fetch maxE s.pages).2.1 =
            StoppedReason.scroll_limit
        · simp [crawlNewslettersStep, hok, hsub]
        · simp [crawlNewslettersStep, hok, hsub]
      · simp [crawlNewslettersStep, hok]

/-- Claim C9: the overall Gmail run's stop reason is `scroll_limit`
exactly when some successful per-sender sub-run hit the per-sender email
cap (it captured `maxEmails` emails, which is the only way a sub-run
stops with `scroll_limit`), and `query_exhausted` otherwise — in
particular also when every sub-run stopped with `reached_previous` or by
exhausting its query. -/
theorem c9_overall_reason_spec (fetch : String → GmailEmail) (maxE : Nat)
    (senders : List SenderSpec) :
    ((crawlNewsletters fetch maxE senders).2.2 = StoppedReason.scroll_limit ↔
      ∃ s ∈ senders, s.ok = true ∧
        (crawlSender s.seenIds fetch maxE s.pages).1.length = maxE ∧ 0 < maxE) ∧
    ((crawlNewsletters fetch maxE senders).2.2 = StoppedReason.scroll_limit ∨
      (crawlNewsletters fetch maxE senders).2.2 = StoppedReason.query_exhausted) := by
  constructor
  · rw [crawlNewsletters, crawlNewsletters_fold_scroll]
    simp only [show (([], [], StoppedReason.query_exhausted) :
        List GmailEmail × List (String × List GmailEmail) × StoppedReason).2.2 =
        StoppedReason.query_exhausted from rfl]
    constructor
    · rintro (h | ⟨s, hs, hok, hsub⟩)
      · cases h
      · have := (gmailCrawlLoop_scroll_iff s.seenIds fetch maxE s.pages []
          (by simp)).1.mp hsub
        exact ⟨s, hs, hok, this.1, by simpa using this.2⟩
    · rintro ⟨s, hs, hok, hlen, hpos⟩
      refine Or.inr ⟨s, hs, hok, ?_⟩
      exact (gmailCrawlLoop_scroll_iff s.seenIds fetch maxE s.pages []
        (by simp)).1.mpr ⟨hlen, by simpa using hpos⟩
  · exact crawlNewsletters_fold_domain fetch maxE senders ([], [], .query_exhausted)

/-! ## The Facebook scroll/capture loop (src/fb.ts:65-151) -/

/-- Remove every occurrence of the literal patterns, scanning left to
right and trying the patterns in order — the semantics of a global
regex replace whose pattern is an alternation of literals.  Fuelled by
the input length to stay structurally recursive. -/
def stripPatternsAux (pats : List (List Char)) : Nat → List Char → List Char
  | 0, _ => []
  | _, [] => []
  | fuel + 1, c :: rest =>
    match pats.find? (fun p => p.isPrefixOf (c :: rest)) with
    | some p =>
      if p.isEmpty then c :: stripPatternsAux pats fuel rest
      else stripPatternsAux pats fuel ((c :: rest).drop p.length)
    | none => c :: stripPatternsAux pats fuel rest

/-- The three "show more" labels removed from story text (src/fb.ts:90). -/
def fbSeeMorePats : List (List Char) :=
  ["查看更多".data, "See more".data, "顯示更多".data]

/-- src/fb.ts:90 `content.replace(/查看更多|See more|顯示更多/g, '').trim()`. -/
def cleanFbContent (s : String) : String :=
  ⟨jsTrimC (stripPatternsAux fbSeeMorePats s.data.length s.data)⟩

/-- One story element visible at a scroll step, after the DOM reads: its
`innerText` (`""` models a failed read), the extracted author and the
extracted permalink href (`""` when absent) (src/fb.ts:87-121). -/
structure FbItem where
  content : String
  author : String
  url : String
deriving DecidableEq, Repr

/-- src/fb.ts:24 `MAX_SCROLL` default. -/
def MAX_SCROLL : Nat := 50

/-- src/fb.ts:94 `cleanContent.substring(0, 100)` — the within-run dedup
key. -/
def fbKey (clean : String) : String := ⟨clean.data.take 100⟩

/-- src/fb.ts:134-138: the captured post — trimmed author, content
truncated to 500 characters. -/
def fbToPost (it : FbItem) (clean : String) : FacebookPost :=
  { author := jsTrimStr it.author, content := ⟨clean.data.take 500⟩, url := it.url }

/-- src/fb.ts:127 `seenPosts.length > 0 && isPostSeen(postId,
contentHash, seenPosts)`. -/
def fbMatch (seenPosts : List SeenPost) (it : FbItem) : Bool :=
  decide (0 < seenPosts.length) &&
    isPostSeen (extractFacebookPostId it.url)
      (createContentHash (cleanFbContent it.content)) seenPosts

/-- src/fb.ts:87-144: the `for (const storyEl of storyMessages)` body.
`sc` is the `seenContent` set of this run's already-captured 100-char
keys (insertion order is irrelevant, only membership is used), `acc` the
posts captured so far; the Boolean is the "reached previously seen post"
flag that breaks the outer loop. -/
def fbProcessBatch (seenPosts : List SeenPost) :
    List String → List FacebookPost → List FbItem →
      List String × List FacebookPost × Bool
  | sc, acc, [] => (sc, acc, false)
  | sc, acc, it :: its =>
    if cleanFbContent it.content = "" then fbProcessBatch seenPosts sc acc its
    else if fbKey (cleanFbContent it.content) ∈ sc then fbProcessBatch seenPosts sc acc its
    else
      if fbMatch seenPosts it then
        (sc ++ [fbKey (cleanFbContent it.content)], acc, true)
      else
        fbProcessBatch seenPosts (sc ++ [fbKey (cleanFbContent it.content)])
          (acc ++ [fbToPost it (cleanFbContent it.content)]) its

/-- src/fb.ts:74-148: the scroll loop, one iteration per scroll step up
to `MAX_SCROLL`.  The virtualized DOM is scripted as the list of
story-element batches visible at successive steps (a script shorter than
the walk behaves as a viewport showing nothing, which captures nothing
and leaves the reason unchanged).  `stoppedReason` starts as
`scroll_limit`.  The third component records the batches the run
actually processed. -/
def fbCrawlLoop (seenPosts : List SeenPost) :
    Nat → List String → List FacebookPost → List (List FbItem) →
      List FacebookPost × StoppedReason × List (List FbItem)
  | 0, _, acc, _ => (acc, .scroll_limit, [])
  | _ + 1, _, acc, [] => (acc, .scroll_limit, [])
  | fuel + 1, sc, acc, batch :: rest =>
    match fbProcessBatch seenPosts sc acc batch with
    | (_, acc2, true) => (acc2, .reached_previous, [batch])
    | (sc2, acc2, false) =>
      ((fbCrawlLoop seenPosts fuel sc2 acc2 rest).1,
       (fbCrawlLoop seenPosts fuel sc2 acc2 rest).2.1,
       batch :: (fbCrawlLoop seenPosts fuel sc2 acc2 rest).2.2)

/-- src/fb.ts:65-151 `extractPosts`. -/
def extractPosts (seenPosts : List SeenPost) (script : List (List FbItem)) :
    List FacebookPost × StoppedReason × List (List FbItem) :=
  fbCrawlLoop seenPosts MAX_SCROLL [] [] script

/-- The dedup key of an item. -/
def fbItemKey (it : FbItem) : String := fbKey (cleanFbContent it.content)

/-! ## Claim C1: stopping at the watermark -/

private lemma takeWhile_left_of_any {α : Type} (p : α → Bool) (l l₂ : List α)
    (h : l.any p = true) :
    (l ++ l₂).takeWhile (fun x => !(p x)) = l.takeWhile (fun x => !(p x)) := by
  induction l with
  | nil => simp at h
  | cons a as ih =>
    by_cases ha : p a = true
    · simp [List.takeWhile_cons, ha]
    · have ha2 : p a = false := by simpa using ha
      simp only [List.any_cons, ha2, Bool.false_or] at h
      simp [List.takeWhile_cons, ha2, ih h]

private lemma gmailProcessMsgs_matchCase (seen : List String) (fetch : String → GmailEmail)
    (maxE : Nat) (msgs : List String) :
    ∀ acc : List GmailEmail,
    msgs.any (gmailMatches seen) = true →
    acc.length + ((msgs.takeWhile (fun m => !(gmailMatches seen m))).filter
      (fun m => !(m == ""))).length < maxE →
    gmailProcessMsgs seen fetch maxE acc msgs =
      (acc ++ ((msgs.takeWhile (fun m => !(gmailMatches seen m))).filter
        (fun m => !(m == ""))).map fetch, some StoppedReason.reached_previous) := by
  induction msgs with
  | nil => intro acc h; simp at h
  | cons m ms ih =>
    intro acc hany hcap
    by_cases hm : m = ""
    · subst hm
      have hmatch : gmailMatches seen "" = false := by simp [gmailMatches]
      simp only [List.any_cons, hmatch, Bool.false_or] at hany
      simp only [List.takeWhile_cons, hmatch, Bool.not_false, if_pos] at hcap ⊢
      rw [show gmailProcessMsgs seen fetch maxE acc ("" :: ms) =
          gmailProcessMsgs seen fetch maxE acc ms by
        rw [gmailProcessMsgs, if_pos rfl]]
      have hfilter : ("" :: ms.takeWhile fun m => !gmailMatches seen m).filter
          (fun m => !(m == "")) = (ms.takeWhile fun m => !gmailMatches seen m).filter
          (fun m => !(m == "")) := by simp
      rw [hfilter] at hcap
      rw [ih acc hany hcap, hfilter]
    · by_cases hseen : m ∈ seen
      · have hmatch : gmailMatches seen m = true := by
          simp [gmailMatches, hm, hseen]
        rw [show gmailProcessMsgs seen fetch maxE acc (m :: ms) =
            (acc, some StoppedReason.reached_previous) by
          rw [gmailProcessMsgs, if_neg hm, if_pos hseen]]
        simp [List.takeWhile_cons, hmatch]
      · have hmatch : gmailMatches seen m = false := by
          simp [gmailMatches, hm, hseen]
        simp only [List.any_cons, hmatch, Bool.false_or] at hany
        simp only [List.takeWhile_cons, hmatch, Bool.not_false, if_pos,
          List.filter_cons, show (!(m == "")) = true by simpa using hm,
          List.length_cons] at hcap ⊢
        have hcap2 : ¬ (maxE ≤ (acc ++ [fetch m]).length) := by
          simp only [List.length_append, List.length_cons, List.length_nil]
          omega
        rw [show gmailProcessMsgs seen fetch maxE acc (m :: ms) =
            gmailProcessMsgs seen fetch maxE (acc ++ [fetch m]) ms by
          rw [gmailProcessMsgs, if_neg hm, if_neg hseen, if_neg hcap2]]
        have hcap3 : (acc ++ [fetch m]).length +
            ((ms.takeWhile (fun m => !(gmailMatches seen m))).filter
              (fun m => !(m == ""))).length < maxE := by
          simp only [List.length_append, List.length_cons, List.length_nil]
          omega
        rw [ih (acc ++ [fetch m]) hany hcap3]
        simp

private lemma gmailProcessMsgs_noMatchCase (seen : List String) (fetch : String → GmailEmail)
    (maxE : Nat) (msgs : List String) :
    ∀ acc : List GmailEmail,
    msgs.any (gmailMatches seen) = false →
    acc.length + ((msgs.filter (fun m => !(m == ""))).length) < maxE →
    gmailProcessMsgs seen fetch maxE acc msgs =
      (acc ++ (msgs.filter (fun m => !(m == ""))).map fetch, none) := by
  induction msgs with
  | nil => intro acc _ _; simp [gmailProcessMsgs]
  | cons m ms ih =>
    intro acc hany hcap
    by_cases hm : m = ""
    · subst hm
      have hmatch : gmailMatches seen "" = false := by simp [gmailMatches]
      simp only [List.any_cons, hmatch, Bool.false_or] at hany
      simp only [List.filter_cons, show (!("" == "")) = false by simp,
        if_false] at hcap ⊢
      rw [show gmailProcessMsgs seen fetch maxE acc ("" :: ms) =
          gmailProcessMsgs seen fetch maxE acc ms by
        rw [gmailProcessMsgs, if_pos rfl]]
      simpa using ih acc hany hcap
    · have hseen : m ∉ seen := by
        intro hmem
        have : gmailMatches seen m = true := by simp [gmailMatches, hm, hmem]
        simp [List.any_cons, this] at hany
      have hmatch : gmailMatches seen m = false := by simp [gmailMatches, hm, hseen]
      simp only [List.any_cons, hmatch, Bool.false_or] at hany
      simp only [List.filter_cons, show (!(m == "")) = true by simpa using hm,
        if_pos, List.length_cons] at hcap ⊢
      have hcap2 : ¬ (maxE ≤ (acc ++ [fetch m]).length) := by
        simp only [List.length_append, List.length_cons, List.length_nil]
        omega
      rw [show gmailProcessMsgs seen fetch maxE acc (m :: ms) =
          gmailProcessMsgs seen fetch maxE (acc ++ [fetch m]) ms by
        rw [gmailProcessMsgs, if_neg hm, if_neg hseen, if_neg hcap2]]
      have hcap3 : (acc ++ [fetch m]).length +
          ((ms.filter (fun m => !(m == ""))).length) < maxE := by
        simp only [List.length_append, List.length_cons, List.length_nil]
        omega
      rw [ih (acc ++ [fetch m]) hany hcap3]
      simp

private lemma gmailCrawlLoop_reached (seen : List String) (fetch : String → GmailEmail)
    (maxE : Nat) (pages : List GmailPage) :
    ∀ acc : List GmailEmail,
    (gmailCrawlLoop seen fetch maxE acc pages).2.2.flatten.any (gmailMatches seen) = true →
    acc.length + (((gmailCrawlLoop seen fetch maxE acc pages).2.2.flatten.takeWhile
      (fun m => !(gmailMatches seen m))).filter (fun m => !(m == ""))).length < maxE →
    (gmailCrawlLoop seen fetch maxE acc pages).2.1 = StoppedReason.reached_previous ∧
    (gmailCrawlLoop seen fetch maxE acc pages).1 =
      acc ++ (((gmailCrawlLoop seen fetch maxE acc pages).2.2.flatten.takeWhile
        (fun m => !(gmailMatches seen m))).filter (fun m => !(m == ""))).map fetch := by
  induction pages with
  | nil =>
    intro acc hany _
    by_cases hlt : acc.length < maxE
    · rw [show gmailCrawlLoop seen fetch maxE acc [] = (acc, .query_exhausted, [[]]) by
        rw [gmailCrawlLoop, if_pos hlt]] at hany
      simp at hany
    · rw [show gmailCrawlLoop seen fetch maxE acc [] = (acc, .query_exhausted, []) by
        rw [gmailCrawlLoop, if_neg hlt]] at hany
      simp at hany
  | cons p ps ih =>
    intro acc hany hcap
    by_cases hlt : acc.length < maxE
    · by_cases hempty : p.messages.isEmpty
      · rw [show gmailCrawlLoop seen fetch maxE acc (p :: ps) =
            (acc, .query_exhausted, [p.messages]) by
          rw [gmailCrawlLoop, if_pos hlt, if_pos hempty]] at hany
        rw [List.isEmpty_iff.mp hempty] at hany
        simp at hany
      · rcases hproc : gmailProcessMsgs seen fetch maxE acc p.messages with ⟨acc2, res⟩
        cases res with
        | some r =>
          rw [show gmailCrawlLoop seen fetch maxE acc (p :: ps) =
              (acc2, r, [p.messages]) by
            rw [gmailCrawlLoop, if_pos hlt, if_neg hempty, hproc]] at hany hcap ⊢
          simp only [List.flatten_cons, List.flatten_nil, List.append_nil] at hany hcap ⊢
          have hinner := gmailProcessMsgs_matchCase seen fetch maxE p.messages acc hany hcap
          rw [hproc] at hinner
          injection hinner with h1 h2
          injection h2 with h3
          exact ⟨h3, h1⟩
        | none =>
          by_cases hnext : gmailHasNextToken p = true
          · rw [show gmailCrawlLoop seen fetch maxE acc (p :: ps) =
                ((gmailCrawlLoop seen fetch maxE acc2 ps).1,
                 (gmailCrawlLoop seen fetch maxE acc2 ps).2.1,
                 p.messages :: (gmailCrawlLoop seen fetch maxE acc2 ps).2.2) by
              rw [gmailCrawlLoop, if_pos hlt, if_neg hempty, hproc]
              simp [hnext]] at hany hcap ⊢
            simp only [List.flatten_cons] at hany hcap ⊢
            by_cases hm : p.messages.any (gmailMatches seen) = true
            · exfalso
              rw [takeWhile_left_of_any _ _ _ hm] at hcap
              have := gmailProcessMsgs_matchCase seen fetch maxE p.messages acc hm hcap
              rw [hproc] at this
              injection this with _ h2
              cases h2
            · have hm2 : p.messages.any (gmailMatches seen) = false := by
                simpa using hm
              have hallpass : ∀ m ∈ p.messages, (!(gmailMatches seen m)) = true := by
                intro m hmem
                simpa using List.any_eq_false.mp hm2 m hmem
              simp only [List.any_append, hm2, Bool.false_or] at hany
              rw [takeWhile_append_of_all _ _ _ hallpass, List.filter_append,
                List.length_append] at hcap
              have hcapmsgs : acc.length +
                  ((p.messages.filter (fun m => !(m == ""))).length) < maxE := by
                omega
              have hinner := gmailProcessMsgs_noMatchCase seen fetch maxE p.messages acc
                hm2 hcapmsgs
              rw [hproc] at hinner
              injection hinner with h1 _
              have hacc2 : acc2 = acc ++ (p.messages.filter (fun m => !(m == ""))).map fetch :=
                h1
              have hlen2 : acc2.length = acc.length +
                  ((p.messages.filter (fun m => !(m == ""))).length) := by
                rw [hacc2]; simp
              have hcap2 : acc2.length +
                  ((((gmailCrawlLoop seen fetch maxE acc2 ps).2.2.flatten.takeWhile
                    (fun m => !(gmailMatches seen m))).filter
                      (fun m => !(m == ""))).length) < maxE := by
                omega
              have ihr := ih acc2 hany hcap2
              refine ⟨ihr.1, ?_⟩
              rw [ihr.2, hacc2, takeWhile_append_of_all _ _ _ hallpass,
                List.filter_append, List.map_append, List.append_assoc]
          · rw [show gmailCrawlLoop seen fetch maxE acc (p :: ps) =
                (acc2, .query_exhausted, [p.messages]) by
              rw [gmailCrawlLoop, if_pos hlt, if_neg hempty, hproc]
              simp [hnext]] at hany hcap ⊢
            simp only [List.flatten_cons, List.flatten_nil, List.append_nil] at hany hcap
            exfalso
            have := gmailProcessMsgs_matchCase seen fetch maxE p.messages acc hany hcap
            rw [hproc] at this
            injection this with _ h2
            cases h2
    · rw [show gmailCrawlLoop seen fetch maxE acc (p :: ps) =
          (acc, .query_exhausted, []) by rw [gmailCrawlLoop, if_neg hlt]] at hany
      simp at hany

private lemma fbProcessBatch_spec (seen : List SeenPost) (batch : List FbItem) :
    ∀ (sc : List String) (acc : List FacebookPost),
    (∀ it ∈ batch, cleanFbContent it.content ≠ "") →
    (batch.map fbItemKey).Nodup →
    (∀ it ∈ batch, fbItemKey it ∉ sc) →
    (fbProcessBatch seen sc acc batch).2.2 = batch.any (fbMatch seen) ∧
    (fbProcessBatch seen sc acc batch).2.1 =
      acc ++ (batch.takeWhile (fun it => !(fbMatch seen it))).map
        (fun it => fbToPost it (cleanFbContent it.content)) ∧
    ((fbProcessBatch seen sc acc batch).2.2 = false →
      (fbProcessBatch seen sc acc batch).1 = sc ++ batch.map fbItemKey) := by
  induction batch with
  | nil => intro sc acc _ _ _; simp [fbProcessBatch]
  | cons it its ih =>
    intro sc acc hne hnodup hdisj
    have hcl : ¬ (cleanFbContent it.content = "") := hne it (by simp)
    have hkey : ¬ (fbKey (cleanFbContent it.content) ∈ sc) := hdisj it (by simp)
    by_cases hmatch : fbMatch seen it = true
    · rw [show fbProcessBatch seen sc acc (it :: its) =
          (sc ++ [fbKey (cleanFbContent it.content)], acc, true) by
        rw [fbProcessBatch, if_neg hcl, if_neg hkey, if_pos hmatch]]
      refine ⟨by simp [hmatch], by simp [List.takeWhile_cons, hmatch], fun hx => by cases hx⟩
    · have hmatch2 : fbMatch seen it = false := by simpa using hmatch
      rw [show fbProcessBatch seen sc acc (it :: its) =
          fbProcessBatch seen (sc ++ [fbKey (cleanFbContent it.content)])
            (acc ++ [fbToPost it (cleanFbContent it.content)]) its by
        rw [fbProcessBatch, if_neg hcl, if_neg hkey, if_neg (by simp [hmatch2])]]
      simp only [List.map_cons, List.nodup_cons] at hnodup
      have hdisj2 : ∀ x ∈ its, fbItemKey x ∉ sc ++ [fbKey (cleanFbContent it.content)] := by
        intro x hx
        simp only [List.mem_append, List.mem_singleton, not_or]
        refine ⟨hdisj x (by simp [hx]), ?_⟩
        intro hcontra
        have hcontra2 : fbItemKey x = fbItemKey it := hcontra
        exact hnodup.1 (hcontra2 ▸ List.mem_map_of_mem fbItemKey hx)
      have ihr := ih (sc ++ [fbKey (cleanFbContent it.content)])
        (acc ++ [fbToPost it (cleanFbContent it.content)])
        (fun x hx => hne x (by simp [hx])) hnodup.2 hdisj2
      refine ⟨by simp [List.any_cons, hmatch2, ihr.1], ?_, ?_⟩
      · rw [ihr.2.1]
        simp [List.takeWhile_cons, hmatch2]
      · intro hfalse
        rw [ihr.2.2 hfalse]
        simp [fbItemKey]

private lemma fbCrawlLoop_reached (seen : List SeenPost) (fuel : Nat) :
    ∀ (script : List (List FbItem)) (sc : List String) (acc : List FacebookPost),
    (∀ it ∈ script.flatten, cleanFbContent it.content ≠ "") →
    (script.flatten.map fbItemKey).Nodup →
    (∀ it ∈ script.flatten, fbItemKey it ∉ sc) →
    (fbCrawlLoop seen fuel sc acc script).2.2.flatten.any (fbMatch seen) = true →
    (fbCrawlLoop seen fuel sc acc script).2.1 = StoppedReason.reached_previous ∧
    (fbCrawlLoop seen fuel sc acc script).1 =
      acc ++ ((fbCrawlLoop seen fuel sc acc script).2.2.flatten.takeWhile
        (fun it => !(fbMatch seen it))).map
          (fun it => fbToPost it (cleanFbContent it.content)) := by
  induction fuel with
  | zero => intro script sc acc _ _ _ hany; simp [fbCrawlLoop] at hany
  | succ fuel ih =>
    intro script sc acc hne hnodup hdisj hany
    cases script with
    | nil => simp [fbCrawlLoop] at hany
    | cons batch rest =>
      simp only [List.flatten_cons] at hne hnodup hdisj
      have hneb : ∀ it ∈ batch, cleanFbContent it.content ≠ "" :=
        fun it hx => hne it (List.mem_append.mpr (Or.inl hx))
      have hner : ∀ it ∈ rest.flatten, cleanFbContent it.content ≠ "" :=
        fun it hx => hne it (List.mem_append.mpr (Or.inr hx))
      rw [List.map_append, List.nodup_append] at hnodup
      have hbatch := fbProcessBatch_spec seen batch sc acc hneb hnodup.1
        (fun it hx => hdisj it (List.mem_append.mpr (Or.inl hx)))
      rcases hproc : fbProcessBatch seen sc acc batch with ⟨sc2, acc2, flag⟩
      rw [hproc] at hbatch
      cases flag with
      | true =>
        rw [show fbCrawlLoop seen (fuel + 1) sc acc (batch :: rest) =
            (acc2, .reached_previous, [batch]) by
          rw [fbCrawlLoop, hproc]] at hany ⊢
        refine ⟨rfl, ?_⟩
        simp only [List.flatten_cons, List.flatten_nil, List.append_nil]
        simpa using hbatch.2.1
      | false =>
        have hanyb : batch.any (fbMatch seen) = false := by simpa using hbatch.1.symm
        have hallpass : ∀ it ∈ batch, (!(fbMatch seen it)) = true := by
          intro x hx
          simpa using List.any_eq_false.mp hanyb x hx
        have hsc2 : sc2 = sc ++ batch.map fbItemKey := by simpa using hbatch.2.2 rfl
        have hacc2 : acc2 = acc ++ batch.map
            (fun it => fbToPost it (cleanFbContent it.content)) := by
          have h := hbatch.2.1
          rw [takeWhile_eq_self_of_all _ _ hallpass] at h
          simpa using h
        rw [show fbCrawlLoop seen (fuel + 1) sc acc (batch :: rest) =
            ((fbCrawlLoop seen fuel sc2 acc2 rest).1,
             (fbCrawlLoop seen fuel sc2 acc2 rest).2.1,
             batch :: (fbCrawlLoop seen fuel sc2 acc2 rest).2.2) by
          rw [fbCrawlLoop, hproc]] at hany ⊢
        simp only [List.flatten_cons, List.any_append, hanyb, Bool.false_or] at hany
        have hdisj2 : ∀ it ∈ rest.flatten, fbItemKey it ∉ sc2 := by
          intro x hx
          rw [hsc2]
          simp only [List.mem_append, not_or]
          refine ⟨hdisj x (List.mem_append.mpr (Or.inr hx)), ?_⟩
          intro hcontra
          exact (List.disjoint_right.mp hnodup.2.2)
            (List.mem_map_of_mem fbItemKey hx) hcontra
        have ihr := ih rest sc2 acc2 hner hnodup.2.1 hdisj2 hany
        refine ⟨ihr.1, ?_⟩
        simp only [List.flatten_cons]
        rw [ihr.2, hacc2, takeWhile_append_of_all _ _ _ hallpass,
          List.map_append, List.append_assoc]

/-- Claim C1 (counterexample): a Gmail sub-run with per-sender cap
`maxEmails = 1`, seen set `["b"]` and one fetched page `["a", "b"]`.  The
fetched batch contains the seen id "b", but the run stops with
`scroll_limit` — the cap check fires right after capturing "a", before
the seen id is ever examined — so the claimed "stops with
reached_previous" fails. -/
theorem c1_reached_previous_cex :
    ((crawlSender ["b"] (fun i => ⟨i, "", "", "", "", "", []⟩) 1
        [⟨["a", "b"], none⟩]).2.2.flatten.any (gmailMatches ["b"]) = true) ∧
    (crawlSender ["b"] (fun i => ⟨i, "", "", "", "", "", []⟩) 1
        [⟨["a", "b"], none⟩]).2.1 = StoppedReason.scroll_limit ∧
    StoppedReason.scroll_limit ≠ StoppedReason.reached_previous := by
  refine ⟨rfl, rfl, by decide⟩

/-- Claim C1 (amended): for every pagination run whose fetched batches
contain an item matching the seen-set, the run stops with
`reached_previous` at the first matching item and the result contains
exactly the items preceding it — unconditionally for the list API
(Twitter) source; for the mailbox (Gmail) source provided the per-sender
email cap is not reached before the matching item (the counterexample
shows `scroll_limit` preempting `reached_previous` otherwise); and for
the feed (Facebook) source provided no fetched item is skipped by the
run's own item-level filters (empty cleaned content, or a 100-character
dedup key already captured this run). -/
theorem c1_reached_previous_spec :
    (∀ (lastSeen : Option String) (toIso : String → String) (pages : List TweetPage),
      (tweetCrawl lastSeen toIso pages).2.2.flatten.any (tweetMatch lastSeen) = true →
        (tweetCrawl lastSeen toIso pages).2.1 = StoppedReason.reached_previous ∧
        (tweetCrawl lastSeen toIso pages).1 =
          ((tweetCrawl lastSeen toIso pages).2.2.flatten.takeWhile
            (fun t => !(tweetMatch lastSeen t))).map (tweetToPost toIso)) ∧
    (∀ (seen : List String) (fetch : String → GmailEmail) (maxE : Nat)
        (pages : List GmailPage),
      (crawlSender seen fetch maxE pages).2.2.flatten.any (gmailMatches seen) = true →
      (((crawlSender seen fetch maxE pages).2.2.flatten.takeWhile
        (fun m => !(gmailMatches seen m))).filter (fun m => !(m == ""))).length < maxE →
        (crawlSender seen fetch maxE pages).2.1 = StoppedReason.reached_previous ∧
        (crawlSender seen fetch maxE pages).1 =
          (((crawlSender seen fetch maxE pages).2.2.flatten.takeWhile
            (fun m => !(gmailMatches seen m))).filter (fun m => !(m == ""))).map fetch) ∧
    (∀ (seenPosts : List SeenPost) (script : List (List FbItem)),
      (∀ it ∈ script.flatten, cleanFbContent it.content ≠ "") →
      (script.flatten.map fbItemKey).Nodup →
      (extractPosts seenPosts script).2.2.flatten.any (fbMatch seenPosts) = true →
        (extractPosts seenPosts script).2.1 = StoppedReason.reached_previous ∧
        (extractPosts seenPosts script).1 =
          ((extractPosts seenPosts script).2.2.flatten.takeWhile
            (fun it => !(fbMatch seenPosts it))).map
              (fun it => fbToPost it (cleanFbContent it.content))) := by
  refine ⟨?_, ?_, ?_⟩
  · intro lastSeen toIso pages hany
    exact (tweetCrawlLoop_spec lastSeen toIso MAX_PAGES pages).1 hany
  · intro seen fetch maxE pages hany hcap
    have := gmailCrawlLoop_reached seen fetch maxE pages [] hany (by simpa using hcap)
    simpa [crawlSender] using this
  · intro seenPosts script hne hnodup hany
    have := fbCrawlLoop_reached seenPosts MAX_SCROLL script [] [] hne hnodup
      (by simp) hany
    simpa [extractPosts] using this

/-- Claim C1 (witness): concrete runs of all three sources in which the
fetched batches contain a watermark hit and the engine stops at it.
Twitter: watermark "2", one page ["1", "2", "3"] — stops with one
captured tweet.  Gmail: seen ["b"], cap 5, one page ["a", "b"] — stops
with one captured email.  Facebook: a seen content hash matching the
only scripted story — stops with nothing captured. -/
theorem c1_reached_previous_witness :
    ((tweetCrawl (some "2") (fun s => s)
        [⟨[⟨"1", "", "", "", "", "", none, none⟩, ⟨"2", "", "", "", "", "", none, none⟩,
           ⟨"3", "", "", "", "", "", none, none⟩], none⟩]).2.2.flatten.any
          (tweetMatch (some "2")) = true) ∧
    (tweetCrawl (some "2") (fun s => s)
        [⟨[⟨"1", "", "", "", "", "", none, none⟩, ⟨"2", "", "", "", "", "", none, none⟩,
           ⟨"3", "", "", "", "", "", none, none⟩], none⟩]).2.1 =
      StoppedReason.reached_previous ∧
    ((crawlSender ["b"] (fun i => ⟨i, "", "", "", "", "", []⟩) 5
        [⟨["a", "b"], none⟩]).2.2.flatten.any (gmailMatches ["b"]) = true) ∧
    ((((crawlSender ["b"] (fun i => ⟨i, "", "", "", "", "", []⟩) 5
        [⟨["a", "b"], none⟩]).2.2.flatten.takeWhile
          (fun m => !(gmailMatches ["b"] m))).filter (fun m => !(m == ""))).length < 5) ∧
    (crawlSender ["b"] (fun i => ⟨i, "", "", "", "", "", []⟩) 5
        [⟨["a", "b"], none⟩]).2.1 = StoppedReason.reached_previous ∧
    (∀ it ∈ ([[⟨"x", "A", ""⟩]] : List (List FbItem)).flatten,
      cleanFbContent it.content ≠ "") ∧
    ((extractPosts [⟨none, createContentHash "x"⟩] [[⟨"x", "A", ""⟩]]).2.2.flatten.any
      (fbMatch [⟨none, createContentHash "x"⟩]) = true) ∧
    (extractPosts [⟨none, createContentHash "x"⟩] [[⟨"x", "A", ""⟩]]).2.1 =
      StoppedReason.reached_previous := by
  refine ⟨rfl, ?_, rfl, by decide, ?_, by decide, rfl, ?_⟩
  · exact (c1_reached_previous_spec.1 (some "2") (fun s => s)
      [⟨[⟨"1", "", "", "", "", "", none, none⟩, ⟨"2", "", "", "", "", "", none, none⟩,
         ⟨"3", "", "", "", "", "", none, none⟩], none⟩] rfl).1
  · exact (c1_reached_previous_spec.2.1 ["b"] (fun i => ⟨i, "", "", "", "", "", []⟩) 5
      [⟨["a", "b"], none⟩] rfl (by decide)).1
  · exact (c1_reached_previous_spec.2.2 [⟨none, createContentHash "x"⟩]
      [[⟨"x", "A", ""⟩]] (by decide) (by decide) rfl).1

/-! ## The lean-compaction parsed post shape and dedup (src/lean.ts) -/

/-- src/lean.ts:15-24 `Post` — the parsed item of the compaction
pipeline.  Optional fields absent in the artifact are the empty string
(that is what the parser produces); `from` is named `fromAddr` because
`from` is a Lean keyword. -/
structure ParsedPost where
  heading : String
  author : String
  url : String
  date : String
  subject : String
  fromAddr : String
  content : String
  extra : String
deriving DecidableEq, Repr

/-- src/lean.ts:181 `post.content.replace(/\s+/g, '').substring(0, 100)`
— removing every whitespace run is removing every whitespace character. -/
def dedupKey (p : ParsedPost) : String :=
  ⟨(p.content.data.filter (fun c => !(jsIsWhitespace c))).take 100⟩

/-- `seen.set(key, post)` on a JavaScript `Map`: replace the value in
place if the key exists (keeping its position), else append. -/
def dedupUpsert (key : String) (p : ParsedPost) :
    List (String × ParsedPost) → List (String × ParsedPost)
  | [] => [(key, p)]
  | (k, q) :: rest =>
    if k = key then
      if p.content.length > q.content.length then (k, p) :: rest else (k, q) :: rest
    else (k, q) :: dedupUpsert key p rest

/-- One iteration of the dedup loop (src/lean.ts:180-187): skip posts
whose key is empty, otherwise keep the longer content on collision. -/
def dedupStep (acc : List (String × ParsedPost)) (p : ParsedPost) :
    List (String × ParsedPost) :=
  if dedupKey p = "" then acc else dedupUpsert (dedupKey p) p acc

/-- src/lean.ts:178-189 `dedupPosts`. -/
def dedupPosts (posts : List ParsedPost) : List ParsedPost :=
  (posts.foldl dedupStep []).map Prod.snd

/-! ## Claim C8: dedup of parsed posts -/

private lemma dedupUpsert_mem (key : String) (p : ParsedPost)
    (acc : List (String × ParsedPost)) :
    ∀ kq ∈ dedupUpsert key p acc, kq ∈ acc ∨ (kq.1 = key ∧ kq.2 = p) := by
  induction acc with
  | nil => intro kq hkq; simp only [dedupUpsert, List.mem_singleton] at hkq; simp [hkq]
  | cons kv rest ih =>
    rcases kv with ⟨k, q⟩
    intro kq hkq
    by_cases hk : k = key
    · rw [dedupUpsert, if_pos hk] at hkq
      by_cases hlong : p.content.length > q.content.length
      · rw [if_pos hlong] at hkq
        rcases List.mem_cons.mp hkq with rfl | hmem
        · exact Or.inr ⟨hk, rfl⟩
        · exact Or.inl (List.mem_cons.mpr (Or.inr hmem))
      · rw [if_neg hlong] at hkq
        exact Or.inl hkq
    · rw [dedupUpsert, if_neg hk] at hkq
      rcases List.mem_cons.mp hkq with rfl | hmem
      · exact Or.inl (List.mem_cons.mpr (Or.inl rfl))
      · rcases ih kq hmem with h | h
        · exact Or.inl (List.mem_cons.mpr (Or.inr h))
        · exact Or.inr h

private lemma dedupUpsert_keys (key : String) (p : ParsedPost)
    (acc : List (String × ParsedPost)) :
    (dedupUpsert key p acc).map Prod.fst =
      if key ∈ acc.map Prod.fst then acc.map Prod.fst else acc.map Prod.fst ++ [key] := by
  induction acc with
  | nil => simp [dedupUpsert]
  | cons kv rest ih =>
    rcases kv with ⟨k, q⟩
    by_cases hk : k = key
    · subst hk
      rw [dedupUpsert, if_pos rfl]
      by_cases hlong : p.content.length > q.content.length <;> simp [hlong]
    · rw [dedupUpsert, if_neg hk]
      simp only [List.map_cons, List.mem_cons]
      rw [ih]
      by_cases hmem : key ∈ rest.map Prod.fst
      · simp [hmem, hk, Ne.symm hk]
      · simp [hmem, hk, Ne.symm hk]

private lemma dedupUpsert_self (key : String) (p : ParsedPost)
    (acc : List (String × ParsedPost)) :
    ∃ q, (key, q) ∈ dedupUpsert key p acc ∧ p.content.length ≤ q.content.length := by
  induction acc with
  | nil => exact ⟨p, by simp [dedupUpsert], le_refl _⟩
  | cons kv rest ih =>
    rcases kv with ⟨k, q0⟩
    by_cases hk : k = key
    · subst hk
      rw [dedupUpsert, if_pos rfl]
      by_cases hlong : p.content.length > q0.content.length
      · exact ⟨p, by simp [hlong], le_refl _⟩
      · exact ⟨q0, by simp [hlong], by omega⟩
    · rw [dedupUpsert, if_neg hk]
      rcases ih with ⟨q, hq, hlen⟩
      exact ⟨q, List.mem_cons.mpr (Or.inr hq), hlen⟩

private lemma dedupUpsert_preserve (key : String) (p : ParsedPost)
    (acc : List (String × ParsedPost)) :
    ∀ kq ∈ acc, ∃ q2, (kq.1, q2) ∈ dedupUpsert key p acc ∧
      kq.2.content.length ≤ q2.content.length := by
  induction acc with
  | nil => intro kq hkq; cases hkq
  | cons kv rest ih =>
    rcases kv with ⟨k, q0⟩
    intro kq hkq
    by_cases hk : k = key
    · subst hk
      rw [dedupUpsert, if_pos rfl]
      rcases List.mem_cons.mp hkq with rfl | hmem
      · by_cases hlong : p.content.length > q0.content.length
        · exact ⟨p, by simp [hlong], by simp only; omega⟩
        · exact ⟨q0, by simp [hlong], le_refl _⟩
      · by_cases hlong : p.content.length > q0.content.length
        · exact ⟨kq.2, by simp [hlong, hmem], le_refl _⟩
        · exact ⟨kq.2, by simp [hlong, hmem], le_refl _⟩
    · rw [dedupUpsert, if_neg hk]
      rcases List.mem_cons.mp hkq with rfl | hmem
      · exact ⟨q0, List.mem_cons.mpr (Or.inl rfl), le_refl _⟩
      · rcases ih kq hmem with ⟨q2, hq2, hlen⟩
        exact ⟨q2, List.mem_cons.mpr (Or.inr hq2), hlen⟩

private lemma dedupFold_spec (posts : List ParsedPost) :
    ∀ acc : List (String × ParsedPost),
    (∀ kq ∈ acc, kq.1 = dedupKey kq.2 ∧ kq.1 ≠ "") →
    (∀ kq ∈ posts.foldl dedupStep acc,
      (kq.1 = dedupKey kq.2 ∧ kq.1 ≠ "") ∧ (kq.2 ∈ posts ∨ kq ∈ acc)) ∧
    ((acc.map Prod.fst).Nodup → ((posts.foldl dedupStep acc).map Prod.fst).Nodup) ∧
    (∀ kq ∈ acc, ∃ kq2 ∈ posts.foldl dedupStep acc,
      kq2.1 = kq.1 ∧ kq.2.content.length ≤ kq2.2.content.length) ∧
    (∀ p ∈ posts, dedupKey p ≠ "" → ∃ kq ∈ posts.foldl dedupStep acc,
      kq.1 = dedupKey p ∧ p.content.length ≤ kq.2.content.length) := by
  induction posts with
  | nil =>
    intro acc hacc
    refine ⟨fun kq hkq => ⟨hacc kq hkq, Or.inr hkq⟩, fun h => h,
      fun kq hkq => ⟨kq, hkq, rfl, le_refl _⟩, fun p hp => absurd hp (by simp)⟩
  | cons p rest ih =>
    intro acc hacc
    by_cases hkey : dedupKey p = ""
    · have hstep : dedupStep acc p = acc := by rw [dedupStep, if_pos hkey]
      rw [List.foldl_cons, hstep]
      rcases ih acc hacc with ⟨ha, hb, hc, hd⟩
      refine ⟨fun kq hkq => ⟨(ha kq hkq).1, ?_⟩, hb, hc, ?_⟩
      · rcases (ha kq hkq).2 with h | h
        · exact Or.inl (by simp [h])
        · exact Or.inr h
      · intro x hx hxkey
        rcases List.mem_cons.mp hx with rfl | hmem
        · exact absurd hkey hxkey
        · exact hd x hmem hxkey
    · have hstep : dedupStep acc p = dedupUpsert (dedupKey p) p acc := by
        rw [dedupStep, if_neg hkey]
      have hacc2 : ∀ kq ∈ dedupUpsert (dedupKey p) p acc,
          kq.1 = dedupKey kq.2 ∧ kq.1 ≠ "" := by
        intro kq hkq
        rcases dedupUpsert_mem (dedupKey p) p acc kq hkq with h | h
        · exact hacc kq h
        · rw [h.1, h.2]
          exact ⟨rfl, hkey⟩
      rw [List.foldl_cons, hstep]
      rcases ih (dedupUpsert (dedupKey p) p acc) hacc2 with ⟨ha, hb, hc, hd⟩
      refine ⟨?_, ?_, ?_, ?_⟩
      · intro kq hkq
        refine ⟨(ha kq hkq).1, ?_⟩
        rcases (ha kq hkq).2 with h | h
        · exact Or.inl (by simp [h])
        · rcases dedupUpsert_mem (dedupKey p) p acc kq h with h2 | h2
          · exact Or.inr h2
          · exact Or.inl (by simp [h2.2])
      · intro hnd
        apply hb
        rw [dedupUpsert_keys]
        by_cases hmem : dedupKey p ∈ acc.map Prod.fst
        · simpa [hmem] using hnd
        · simp only [if_neg hmem]
          exact List.Nodup.append hnd (by simp) (by simpa [List.disjoint_left] using hmem)
      · intro kq hkq
        rcases dedupUpsert_preserve (dedupKey p) p acc kq hkq with ⟨q2, hq2, hlen⟩
        rcases hc (kq.1, q2) hq2 with ⟨kq3, hkq3, hk3, hlen3⟩
        exact ⟨kq3, hkq3, hk3, by simp only at hlen3; omega⟩
      · intro x hx hxkey
        rcases List.mem_cons.mp hx with rfl | hmem
        · rcases dedupUpsert_self (dedupKey x) x acc with ⟨q, hq, hlen⟩
          rcases hc (dedupKey x, q) hq with ⟨kq3, hkq3, hk3, hlen3⟩
          exact ⟨kq3, hkq3, hk3, by simp only at hlen3; omega⟩
        · exact hd x hmem hxkey

/-- Claim C8 (counterexample): two posts whose contents are
whitespace-only have identical (empty) 100-character whitespace-stripped
prefixes, so the claim demands that they collapse into one retained post
(the longer); but `dedupPosts` skips empty keys entirely and retains
NEITHER. -/
theorem c8_dedup_cex :
    dedupKey ⟨"## Post 1", "A", "", "", "", "", "", ""⟩ =
      dedupKey ⟨"## Post 2", "B", "", "", "", "", " ", ""⟩ ∧
    dedupPosts [⟨"## Post 1", "A", "", "", "", "", "", ""⟩,
      ⟨"## Post 2", "B", "", "", "", "", " ", ""⟩] = [] := by
  refine ⟨rfl, rfl⟩

/-- Claim C8 (amended): `dedupPosts` drops every post whose
whitespace-stripped content is empty; among the remaining posts, any two
whose first 100 whitespace-stripped characters coincide collapse to a
single retained post, which is one of the input posts with that prefix
and has content at least as long as every input post sharing the prefix;
posts with distinct prefixes are all represented. -/
theorem c8_dedup_spec (posts : List ParsedPost) :
    (∀ p ∈ dedupPosts posts, p ∈ posts ∧ dedupKey p ≠ "") ∧
    ((dedupPosts posts).map dedupKey).Nodup ∧
    (∀ p ∈ posts, dedupKey p ≠ "" →
      ∃ q ∈ dedupPosts posts, dedupKey q = dedupKey p ∧
        p.content.length ≤ q.content.length) := by
  rcases dedupFold_spec posts [] (by simp) with ⟨ha, hb, _, hd⟩
  refine ⟨?_, ?_, ?_⟩
  · intro p hp
    rw [dedupPosts, List.mem_map] at hp
    rcases hp with ⟨kq, hkq, rfl⟩
    rcases ha kq hkq with ⟨⟨hk1, hk2⟩, hmem | hmem⟩
    · exact ⟨hmem, hk1 ▸ hk2⟩
    · cases hmem
  · have hkeys : (dedupPosts posts).map dedupKey =
        ((posts.foldl dedupStep []).map Prod.fst) := by
      rw [dedupPosts, List.map_map]
      apply List.map_congr_left
      intro kq hkq
      exact ((ha kq hkq).1.1).symm
    rw [hkeys]
    exact hb (by simp)
  · intro p hp hpkey
    rcases hd p hp hpkey with ⟨kq, hkq, hk1, hlen⟩
    refine ⟨kq.2, ?_, ?_, hlen⟩
    · rw [dedupPosts, List.mem_map]
      exact ⟨kq, hkq, rfl⟩
    · rw [← (ha kq hkq).1.1, hk1]

/-- Claim C8 (witness): the two-post dedup from the tests — equal keys,
the longer survives; and on distinct contents both survive. -/
theorem c8_dedup_witness :
    (⟨"## Post 2", "A", "", "", "", "", "abc def", ""⟩ : ParsedPost) ∈
      ([⟨"## Post 1", "A", "", "", "", "", "ab cdef", ""⟩,
        ⟨"## Post 2", "A", "", "", "", "", "abc def", ""⟩] : List ParsedPost) ∧
    dedupKey (⟨"## Post 2", "A", "", "", "", "", "abc def", ""⟩ : ParsedPost) ≠ "" ∧
    ∃ q ∈ dedupPosts [⟨"## Post 1", "A", "", "", "", "", "ab cdef", ""⟩,
        ⟨"## Post 2", "A", "", "", "", "", "abc def", ""⟩],
      dedupKey q = dedupKey (⟨"## Post 2", "A", "", "", "", "", "abc def", ""⟩ : ParsedPost) ∧
      (⟨"## Post 2", "A", "", "", "", "", "abc def", ""⟩ : ParsedPost).content.length ≤
        q.content.length := by
  refine ⟨by simp, by decide, ?_⟩
  exact (c8_dedup_spec [⟨"## Post 1", "A", "", "", "", "", "ab cdef", ""⟩,
    ⟨"## Post 2", "A", "", "", "", "", "abc def", ""⟩]).2.2
    ⟨"## Post 2", "A", "", "", "", "", "abc def", ""⟩ (by simp) (by decide)

/-! ## Claim C10: readCrawlState (src/utils.ts:70-80) -/

/-- A JSON value, as produced by `JSON.parse`. -/
inductive Json where
  | null
  | bool (b : Bool)
  | num (n : Int)
  | str (s : String)
  | arr (elems : List Json)
  | obj (fields : List (String × Json))

/-- Index keys `"0"`, `"1"`, ... for spreading an array. -/
def indexFields (i : Nat) : List Json → List (String × Json)
  | [] => []
  | e :: es => (toString i, e) :: indexFields (i + 1) es

/-- Index keys for spreading a string (each own enumerable index maps to
a one-character string). -/
def indexCharFields (i : Nat) : List Char → List (String × Json)
  | [] => []
  | c :: cs => (toString i, Json.str ⟨[c]⟩) :: indexCharFields (i + 1) cs

/-- The own enumerable properties contributed by `...j` in an object
spread: an object's fields, an array's or string's indexed elements,
nothing for primitives. -/
def jsSpreadFields : Json → List (String × Json)
  | .obj fields => fields
  | .arr elems => indexFields 0 elems
  | .str s => indexCharFields 0 s.data
  | _ => []

/-- Assign one key in an object under construction: overwrite the first
existing occurrence, else append. -/
def upsertField (fields : List (String × Json)) (kv : String × Json) :
    List (String × Json) :=
  match fields with
  | [] => [kv]
  | (k, v) :: rest => if k = kv.1 then (k, kv.2) :: rest else (k, v) :: upsertField rest kv

/-- `{ ...DEFAULT_STATE, ...parsed }`. -/
def spreadMerge (base : List (String × Json)) (j : Json) : List (String × Json) :=
  (jsSpreadFields j).foldl upsertField base

/-- src/utils.ts:64-68 `DEFAULT_STATE`, as the JSON object it serialises
to. -/
def defaultStateFields : List (String × Json) :=
  [("facebook", .obj [("lastSeenPosts", .arr []), ("lastCrawlTime", .null)]),
   ("twitter", .obj [("lastSeenId", .null), ("lastCrawlTime", .null)]),
   ("gmail", .obj [("seenIdsBySender", .obj []), ("lastCrawlTime", .null)])]

/-- src/utils.ts:70-80 `readCrawlState`: `none` models a missing state
file, `some none` a file whose contents fail to parse (the `catch`
path), `some (some j)` a successfully parsed file. -/
def readCrawlState (file : Option (Option Json)) : List (String × Json) :=
  match file with
  | none => defaultStateFields
  | some none => defaultStateFields
  | some (some j) => spreadMerge defaultStateFields j

/-- Property lookup on an object (first matching key). -/
def lookupField (fields : List (String × Json)) (k : String) : Option Json :=
  (fields.find? (fun kv => kv.1 == k)).map Prod.snd

/-- The last value assigned to `k` by a field list (later spread entries
overwrite earlier ones). -/
def lastLookup (l : List (String × Json)) (k : String) : Option Json :=
  (l.reverse.find? (fun kv => kv.1 == k)).map Prod.snd

private lemma lookupField_upsert (fields : List (String × Json)) (kv : String × Json)
    (k : String) :
    lookupField (upsertField fields kv) k =
      if k = kv.1 then some kv.2 else lookupField fields k := by
  induction fields with
  | nil =>
    by_cases h : k = kv.1
    · subst h
      simp [upsertField, lookupField, List.find?]
    · have hbeq : (kv.1 == k) = false := beq_eq_false_iff_ne.mpr (fun hx => h hx.symm)
      simp [upsertField, lookupField, List.find?, h, hbeq]
  | cons kv0 rest ih =>
    rcases kv0 with ⟨k0, v0⟩
    by_cases h0 : k0 = kv.1
    · rw [upsertField, if_pos h0]
      by_cases h : k = kv.1
      · have hbeq : (k0 == k) = true := by simp [h0, h]
        simp [lookupField, List.find?_cons, hbeq, h, h0]
      · have hbeq : (k0 == k) = false :=
          beq_eq_false_iff_ne.mpr (fun hx => h (hx ▸ h0))
        simp [lookupField, List.find?_cons, hbeq, h]
    · rw [upsertField, if_neg h0]
      by_cases hbeq : (k0 == k) = true
      · have hk : ¬ k = kv.1 := by
          intro hx
          exact h0 (by rw [eq_of_beq hbeq, hx])
        simp [lookupField, List.find?_cons, hbeq, hk]
      · have hbeq2 : (k0 == k) = false := by simpa using hbeq
        simp only [lookupField, List.find?_cons, hbeq2]
        simpa [lookupField] using ih

private lemma lookupField_foldl_upsert (l : List (String × Json)) :
    ∀ base k, lookupField (l.foldl upsertField base) k =
      match lastLookup l k with
      | some v => some v
      | none => lookupField base k := by
  induction l using List.reverseRecOn with
  | nil => intro base k; simp [lastLookup]
  | append_singleton l x ih =>
    intro base k
    rw [List.foldl_append, List.foldl_cons, List.foldl_nil, lookupField_upsert]
    have hrev : (l ++ [x]).reverse = x :: l.reverse := by simp
    by_cases h : k = x.1
    · subst h
      have hbeq : (x.1 == x.1) = true := by simp
      simp [lastLookup, hrev, List.find?_cons, hbeq]
    · have hbeq : (x.1 == k) = false := beq_eq_false_iff_ne.mpr (fun hx => h hx.symm)
      rw [if_neg h, ih base k]
      have heq : lastLookup (l ++ [x]) k = lastLookup l k := by
        simp [lastLookup, hrev, List.find?_cons, hbeq]
      rw [heq]

/-- Claim C10: `readCrawlState` never fails — a missing or unparseable
state file yields the default state; and on a successfully parsed file
the shallow spread `{ ...DEFAULT_STATE, ...parsed }` keeps the parsed
value of each of the three top-level source keys when the file has one,
and fills it from the default otherwise, so all three top-level source
keys are always present. -/
theorem c10_readCrawlState_spec :
    (readCrawlState none = defaultStateFields) ∧
    (readCrawlState (some none) = defaultStateFields) ∧
    (∀ j : Json, ∀ k : String, (k = "facebook" ∨ k = "twitter" ∨ k = "gmail") →
      ((lookupField (readCrawlState (some (some j))) k).isSome = true ∧
       (lastLookup (jsSpreadFields j) k = none →
         lookupField (readCrawlState (some (some j))) k = lookupField defaultStateFields k) ∧
       (∀ v, lastLookup (jsSpreadFields j) k = some v →
         lookupField (readCrawlState (some (some j))) k = some v))) := by
  refine ⟨rfl, rfl, ?_⟩
  intro j k hk
  have hfold := lookupField_foldl_upsert (jsSpreadFields j) defaultStateFields k
  have hdefault : (lookupField defaultStateFields k).isSome = true := by
    rcases hk with rfl | rfl | rfl <;> rfl
  refine ⟨?_, ?_, ?_⟩
  · rw [show readCrawlState (some (some j)) = spreadMerge defaultStateFields j from rfl,
      spreadMerge, hfold]
    cases hlast : lastLookup (jsSpreadFields j) k with
    | none => simpa using hdefault
    | some v => simp
  · intro hnone
    rw [show readCrawlState (some (some j)) = spreadMerge defaultStateFields j from rfl,
      spreadMerge, hfold, hnone]
  · intro v hsome
    rw [show readCrawlState (some (some j)) = spreadMerge defaultStateFields j from rfl,
      spreadMerge, hfold, hsome]

/-- Claim C10 (witness): a parsed file `{"twitter": "x"}` keeps its
`twitter` value and fills `facebook` from the default. -/
theorem c10_readCrawlState_witness :
    (("twitter" : String) = "facebook" ∨ ("twitter" : String) = "twitter" ∨
      ("twitter" : String) = "gmail") ∧
    lookupField (readCrawlState (some (some (.obj [("twitter", .str "x")])))) "twitter" =
      some (.str "x") ∧
    lookupField (readCrawlState (some (some (.obj [("twitter", .str "x")])))) "facebook" =
      lookupField defaultStateFields "facebook" := by
  refine ⟨Or.inr (Or.inl rfl), ?_, ?_⟩
  · exact (c10_readCrawlState_spec.2.2 (.obj [("twitter", .str "x")]) "twitter"
      (Or.inr (Or.inl rfl))).2.2 (.str "x") rfl
  · exact (c10_readCrawlState_spec.2.2 (.obj [("twitter", .str "x")]) "facebook"
      (Or.inl rfl)).2.1 rfl

/-! ## The markdown emitters (src/utils.ts:197-224, 231-277, 318-346) -/

/-- An ASCII decimal digit. -/
def digitChar10 (n : Nat) : Char := Char.ofNat (48 + n)

/-- Decimal rendering, fuelled to stay structurally recursive
(`natDecimal` supplies enough fuel). -/
def natDecAux : Nat → Nat → List Char
  | 0, _ => []
  | f + 1, n => if n < 10 then [digitChar10 n] else natDecAux f (n / 10) ++ [digitChar10 (n % 10)]

/-- Decimal rendering of a natural number (`${count}`). -/
def natDecimal (n : Nat) : String := ⟨natDecAux (n + 1) n⟩

/-- The frontmatter block shared by the three generators.  `platform`
varies; `crawlTime` and `stoppedReason` are rendered in double quotes,
`postCount` bare. -/
def fmBlock (platform : String) (crawlTime : String) (postCount : Nat)
    (reason : StoppedReason) : String :=
  "---\nplatform: " ++ platform ++ "\ncrawlTime: \"" ++ crawlTime ++
    "\"\npostCount: " ++ natDecimal postCount ++ "\nstoppedReason: \"" ++
    reason.render ++ "\"\n---"

/-- One Facebook post section (src/utils.ts:207-214): an empty URL is
falsy and renders as `N/A`. -/
def fbSection (n : Nat) (p : FacebookPost) : String :=
  "## Post " ++ natDecimal n ++ "\n\n**Author:** " ++ p.author ++ "\n**URL:** " ++
    (if p.url = "" then "N/A" else p.url) ++ "\n\n### Content\n\n" ++ p.content

/-- src/utils.ts:251-257: the quoted-tweet block, appended only when
`post.quotedContent` is truthy (present and non-empty). -/
def twQChunk (p : TwitterPost) : String :=
  match p.quotedContent with
  | some q => if q = "" then "" else "\n\n### Quoted Tweet\n\n" ++ q
  | none => ""

/-- src/utils.ts:259-265: the retweeted-tweet block, appended only when
`post.retweetedContent` is truthy. -/
def twRChunk (p : TwitterPost) : String :=
  match p.retweetedContent with
  | some r => if r = "" then "" else "\n\n### Retweeted Tweet\n\n" ++ r
  | none => ""

/-- One Twitter post section (src/utils.ts:241-267). -/
def twSection (n : Nat) (p : TwitterPost) : String :=
  "## Post " ++ natDecimal n ++ "\n\n**Author:** " ++ p.author ++ " (@" ++ p.username ++
    ")\n**Date:** " ++ p.createdAt ++ "\n**URL:** " ++ p.url ++ "\n\n### Content\n\n" ++
    p.content ++ twQChunk p ++ twRChunk p

/-- One Gmail email section (src/utils.ts:328-336). -/
def gmSection (n : Nat) (e : GmailEmail) : String :=
  "## Email " ++ natDecimal n ++ "\n\n**From:** " ++ e.fromAddr ++ "\n**Subject:** " ++
    e.subject ++ "\n**Date:** " ++ e.date ++ "\n\n### Content\n\n" ++ e.content

/-- `posts.map((post, index) => ...)` with 1-based printed numbers. -/
def sectionsFrom {α : Type} (f : Nat → α → String) : Nat → List α → List String
  | _, [] => []
  | n, x :: xs => f n x :: sectionsFrom f (n + 1) xs

/-- `Array.prototype.join(sep)`. -/
def joinSep (sep : String) : List String → String
  | [] => ""
  | [x] => x
  | x :: y :: xs => x ++ sep ++ joinSep sep (y :: xs)

/-- src/utils.ts:197-224 `generateFacebookMD`. -/
def generateFacebookMD (posts : List FacebookPost) (crawlTime : String)
    (reason : StoppedReason) : String :=
  fmBlock "facebook" crawlTime posts.length reason ++ "\n\n# Facebook Favorites Crawl\n\n" ++
    joinSep "\n\n---\n\n" (sectionsFrom fbSection 1 posts) ++ "\n"

/-- src/utils.ts:231-277 `generateTwitterMD`. -/
def generateTwitterMD (posts : List TwitterPost) (crawlTime : String)
    (reason : StoppedReason) : String :=
  fmBlock "twitter" crawlTime posts.length reason ++ "\n\n# Twitter List Crawl\n\n" ++
    joinSep "\n\n---\n\n" (sectionsFrom twSection 1 posts) ++ "\n"

/-- src/utils.ts:318-346 `generateGmailMD`. -/
def generateGmailMD (emails : List GmailEmail) (crawlTime : String)
    (reason : StoppedReason) : String :=
  fmBlock "gmail" crawlTime emails.length reason ++ "\n\n# Gmail Newsletter Crawl\n\n" ++
    joinSep "\n\n---\n\n" (sectionsFrom gmSection 1 emails) ++ "\n"

/-! ## The artifact parser (src/lean.ts:74-174) -/

/-- A parsed frontmatter value: a string, or a number when the (quote-
stripped, trimmed) value is all digits (src/lean.ts:88-91). -/
inductive FmVal where
  | s (v : String)
  | n (v : Nat)
deriving DecidableEq, Repr

/-- `parseInt(value, 10)` on an all-digit string. -/
def parseNatDigits (l : List Char) : Nat :=
  l.foldl (fun acc c => acc * 10 + (c.toNat - 48)) 0

/-- `body.split('\n')` — splitting keeps empty pieces; the empty string
splits to one empty piece. -/
def splitLinesC : List Char → List (List Char)
  | [] => [[]]
  | c :: rest =>
    if c = '\n' then [] :: splitLinesC rest
    else
      match splitLinesC rest with
      | [] => [[c]]
      | l :: ls => (c :: l) :: ls

/-- `lines.join('\n')`. -/
def joinNl : List (List Char) → List Char
  | [] => []
  | [l] => l
  | l :: ls => l ++ '\n' :: joinNl ls

/-- First occurrence of the literal `sep`: the text before it and the
text after it. -/
def findInfix (sep : List Char) : List Char → Option (List Char × List Char)
  | [] => if sep.isEmpty then some ([], []) else none
  | c :: rest =>
    if sep.isPrefixOf (c :: rest) then some ([], (c :: rest).drop sep.length)
    else (findInfix sep rest).map (fun pr => (c :: pr.1, pr.2))

/-- `upsert` for the frontmatter object: later assignments to the same
key overwrite. -/
def upsertFm (fields : List (String × FmVal)) (kv : String × FmVal) :
    List (String × FmVal) :=
  match fields with
  | [] => [kv]
  | (k, v) :: rest => if k = kv.1 then (k, kv.2) :: rest else (k, v) :: upsertFm rest kv

/-- src/lean.ts:84-87: strip one pair of surrounding double quotes. -/
def stripQuotes (v : List Char) : List Char :=
  if v.head? = some '"' ∧ v.getLast? = some '"' then (v.drop 1).dropLast else v

/-- src/lean.ts:88-91: an all-digit value becomes a number. -/
def fmValOf (v : List Char) : FmVal :=
  if v ≠ [] ∧ v.all Char.isDigit then .n (parseNatDigits v) else .s ⟨v⟩

/-- src/lean.ts:79-93: parse one frontmatter line — find the first
colon, trim key and value, strip one pair of surrounding double quotes,
convert an all-digit value to a number. -/
def parseFmLine (l : List Char) : Option (String × FmVal) :=
  match findInfix [':'] l with
  | none => none
  | some (before, after) =>
    some (⟨jsTrimC before⟩, fmValOf (stripQuotes (jsTrimC after)))

/-- src/lean.ts:78-93: fold the frontmatter lines into the record. -/
def parseFmLines (ls : List (List Char)) : List (String × FmVal) :=
  ls.foldl
    (fun acc l =>
      match parseFmLine l with
      | none => acc
      | some kv => upsertFm acc kv)
    []

/-- src/lean.ts:74-96 `parseFrontmatter`: the regex
`^---\n([\s\S]*?)\n---\n([\s\S]*)$` — the document must start with
`---\n` and the lazy group ends at the first later `\n---\n`; `none`
models the thrown `'No frontmatter found'`. -/
def parseFrontmatter (raw : String) : Option (List (String × FmVal) × String) :=
  if "---\n".data.isPrefixOf raw.data then
    match findInfix "\n---\n".data (raw.data.drop 4) with
    | none => none
    | some (inner, body) => some (parseFmLines (splitLinesC inner), ⟨body⟩)
  else none

/-- `l.head?.isSome` and the head is a digit. -/
def headIsDigit : List Char → Bool
  | c :: _ => c.isDigit
  | [] => false

/-- The test `/^## (?:Post|Email) \d+/` at the start of a fragment, also
used (under the `m` flag) at each line start of the body to place the
lookahead split points (src/lean.ts:108). -/
def isSectionHeadAt (l : List Char) : Bool :=
  ("## Post ".data.isPrefixOf l && headIsDigit (l.drop 8)) ||
  ("## Email ".data.isPrefixOf l && headIsDigit (l.drop 9))

/-- `body.split(/(?=^## (?:Post|Email) \d+)/m)`: cut the text before
every line start that matches the head pattern (a zero-width match at
position 0 does not split). -/
def splitHeadsAux (cur : List Char) : List Char → List (List Char)
  | [] => [cur.reverse]
  | c :: rest =>
    if c = '\n' ∧ isSectionHeadAt rest then
      (cur.reverse ++ ['\n']) :: splitHeadsAux [] rest
    else splitHeadsAux (c :: cur) rest

/-- The lookahead split of the body. -/
def splitHeads (l : List Char) : List (List Char) := splitHeadsAux [] l

/-- The metadata fields accumulated by the per-section scan. -/
structure MetaAcc where
  author : List Char
  url : List Char
  date : List Char
  subject : List Char
  fromAddr : List Char

/-- src/lean.ts:121-137: scan the section's lines for metadata until the
`### Content` marker; returns the fields and, when the marker was found,
the lines after it (`none` leaves `contentStartIdx = 0`, making the whole
section the content). -/
def scanMeta (m : MetaAcc) : List (List Char) → MetaAcc × Option (List (List Char))
  | [] => (m, none)
  | line :: rest =>
    if "**Author:**".data.isPrefixOf line then
      scanMeta { m with author := jsTrimC (line.drop 11) } rest
    else if "**URL:**".data.isPrefixOf line then
      scanMeta { m with url := jsTrimC (line.drop 8) } rest
    else if "**Date:**".data.isPrefixOf line then
      scanMeta { m with date := jsTrimC (line.drop 9) } rest
    else if "**From:**".data.isPrefixOf line then
      scanMeta { m with fromAddr := jsTrimC (line.drop 9) } rest
    else if "**Subject:**".data.isPrefixOf line then
      scanMeta { m with subject := jsTrimC (line.drop 12) } rest
    else if line = "### Content".data then (m, some rest)
    else scanMeta m rest

/-- src/lean.ts:146-159: route each content line into the main content
or, from the first `### Quoted Tweet`/`### Retweeted Tweet` line on,
into the `extra` text (each extra line gets a trailing newline). -/
def splitExtra (main : List (List Char)) (extra : List Char) (inExtra : Bool) :
    List (List Char) → List (List Char) × List Char
  | [] => (main, extra)
  | cl :: rest =>
    if inExtra || "### Quoted Tweet".data.isPrefixOf cl ||
        "### Retweeted Tweet".data.isPrefixOf cl then
      splitExtra main (extra ++ cl ++ ['\n']) true rest
    else splitExtra (main ++ [cl]) extra false rest

/-- src/lean.ts:162 `.replace(/\n---\s*$/, '')`: drop a trailing
separator — a final `\n---` followed only by whitespace. -/
def stripTrailingSep (l : List Char) : List Char :=
  if "\n---".data.isSuffixOf (trimRightWs l) then
    (trimRightWs l).take ((trimRightWs l).length - 4)
  else l

/-- The metadata accumulated for one section (src/lean.ts:113-137). -/
def sectionMeta (sLines : List (List Char)) : MetaAcc :=
  (scanMeta ⟨[], [], [], [], []⟩ (sLines.drop 1)).1

/-- The content region of one section: the lines after `### Content`,
or the whole fragment when the marker is missing (`contentStartIdx = 0`,
src/lean.ts:118,133-140). -/
def sectionContentLines (sLines : List (List Char)) : List (List Char) :=
  match (scanMeta ⟨[], [], [], [], []⟩ (sLines.drop 1)).2 with
  | some rest => rest
  | none => sLines

/-- src/lean.ts:141-159: drop leading blank lines, then route lines into
main content and the quoted/retweeted `extra` text. -/
def contentSplit (ls : List (List Char)) : List (List Char) × List Char :=
  splitExtra [] [] false (ls.dropWhile (fun l => jsTrimC l = []))

/-- src/lean.ts:110-164: parse one section fragment. -/
def parseSection (frag : List Char) : ParsedPost :=
  { heading := ⟨((splitLinesC frag).head?).getD []⟩,
    author := ⟨(sectionMeta (splitLinesC frag)).author⟩,
    url := ⟨(sectionMeta (splitLinesC frag)).url⟩,
    date := ⟨(sectionMeta (splitLinesC frag)).date⟩,
    subject := ⟨(sectionMeta (splitLinesC frag)).subject⟩,
    fromAddr := ⟨(sectionMeta (splitLinesC frag)).fromAddr⟩,
    content := ⟨jsTrimC (stripTrailingSep
      (joinNl (contentSplit (sectionContentLines (splitLinesC frag))).1))⟩,
    extra := ⟨jsTrimC (contentSplit (sectionContentLines (splitLinesC frag))).2⟩ }

/-- The `# ` title line of the body (src/lean.ts:103-105). -/
def mdTitle (body : String) : String :=
  match (splitLinesC body.data).find? (fun l => "# ".data.isPrefixOf l) with
  | some l => (⟨l⟩ : String)
  | none => ""

/-- src/lean.ts:98-168 `parsePosts` (the `platform` argument of the
source is unused in its body and omitted here). -/
def parsePosts (body : String) : String × List ParsedPost :=
  (mdTitle body,
    ((splitHeads body.data).filter (fun f => isSectionHeadAt f)).map parseSection)

/-- src/lean.ts:26-31 / 170-174 `ParsedFile` and `parseMdFile`; `none`
models the exception on missing frontmatter. -/
structure ParsedFile where
  frontmatter : List (String × FmVal)
  title : String
  posts : List ParsedPost
  raw : String

/-- src/lean.ts:170-174 `parseMdFile`. -/
def parseMdFile (raw : String) : Option ParsedFile :=
  match parseFrontmatter raw with
  | none => none
  | some (fm, body) =>
    some { frontmatter := fm, title := (parsePosts body).1,
           posts := (parsePosts body).2, raw := raw }

/-! ## Round-trip helper lemmas: trimming -/

private lemma trimRightWs_all_ws (w : List Char) (hw : ∀ c ∈ w, jsIsWhitespace c = true) :
    trimRightWs w = [] := by
  induction w with
  | nil => rfl
  | cons c cs ih =>
    have hcs : trimRightWs cs = [] := ih (fun x hx => hw x (List.mem_cons_of_mem _ hx))
    simp only [trimRightWs, hcs, hw c (List.mem_cons_self _ _), if_true]

private lemma trimRightWs_cons_of_ne (c : Char) (l : List Char) (h : trimRightWs l ≠ []) :
    trimRightWs (c :: l) = c :: trimRightWs l := by
  cases hr : trimRightWs l with
  | nil => exact absurd hr h
  | cons r rs => simp only [trimRightWs, hr]

private lemma trimRightWs_append_ws (a w : List Char)
    (hw : ∀ c ∈ w, jsIsWhitespace c = true) :
    trimRightWs (a ++ w) = trimRightWs a := by
  induction a with
  | nil => simpa using trimRightWs_all_ws w hw
  | cons c a ih => simp only [List.cons_append, trimRightWs, List.append_eq, ih]

private lemma trimRightWs_concat_notWs (a : List Char) (x : Char)
    (hx : jsIsWhitespace x = false) :
    trimRightWs (a ++ [x]) = a ++ [x] := by
  induction a with
  | nil => simp [trimRightWs, hx]
  | cons c a ih =>
    have hne : trimRightWs (a ++ [x]) ≠ [] := by
      rw [ih]; exact fun h => by cases a <;> simp_all
    rw [List.cons_append, trimRightWs_cons_of_ne c _ hne, ih]

private lemma dropWhileWs_cons_notWs (c : Char) (l : List Char)
    (h : jsIsWhitespace c = false) :
    (c :: l).dropWhile jsIsWhitespace = c :: l := by
  simp [List.dropWhile, h]

private lemma jsTrimC_cons_ws (c : Char) (l : List Char) (h : jsIsWhitespace c = true) :
    jsTrimC (c :: l) = jsTrimC l := by
  simp [jsTrimC, List.dropWhile, h]

private lemma length_dropWhile_le (p : Char → Bool) (l : List Char) :
    (l.dropWhile p).length ≤ l.length := by
  induction l with
  | nil => simp
  | cons c cs ih =>
    by_cases h : p c
    · simp only [List.dropWhile, h]
      exact Nat.le_succ_of_le ih
    · simp [List.dropWhile, h]

private lemma head_notWs_of_dropWhile_stable (c : Char) (l : List Char)
    (h : (c :: l).dropWhile jsIsWhitespace = c :: l) : jsIsWhitespace c = false := by
  by_contra hc
  rw [Bool.not_eq_false] at hc
  have hl : l.dropWhile jsIsWhitespace = c :: l := by
    simpa [List.dropWhile, hc] using h
  have hlen := length_dropWhile_le jsIsWhitespace l
  rw [hl] at hlen
  simp at hlen

private lemma trimRightWs_ne_nil_of_head (c : Char) (l : List Char)
    (h : jsIsWhitespace c = false) : trimRightWs (c :: l) ≠ [] := by
  cases hr : trimRightWs l with
  | nil => simp [trimRightWs, hr, h]
  | cons r rs => simp [trimRightWs, hr]

/-! ## Round-trip helper lemmas: line splitting and joining -/

private lemma splitLinesC_ne_nil (l : List Char) : splitLinesC l ≠ [] := by
  cases l with
  | nil => simp [splitLinesC]
  | cons c rest =>
    by_cases h : c = '\n'
    · simp [splitLinesC, h]
    · cases hr : splitLinesC rest <;> simp [splitLinesC, h, hr]

private lemma splitLinesC_append (a b : List Char) :
    splitLinesC (a ++ '\n' :: b) = splitLinesC a ++ splitLinesC b := by
  induction a with
  | nil => simp [splitLinesC]
  | cons c a ih =>
    by_cases h : c = '\n'
    · subst h
      simp only [List.cons_append, splitLinesC, if_true, List.append_eq, ih]
    · obtain ⟨l, ls, hl⟩ := List.exists_cons_of_ne_nil (splitLinesC_ne_nil a)
      simp only [List.cons_append, splitLinesC, if_neg h, List.append_eq, ih, hl,
        List.cons_append]

private lemma splitLinesC_noNl (l : List Char) (h : '\n' ∉ l) : splitLinesC l = [l] := by
  induction l with
  | nil => rfl
  | cons c cs ih =>
    have hc : ¬ c = '\n' := fun hc => h (hc ▸ List.mem_cons_self _ _)
    have ihr := ih (fun hm => h (List.mem_cons_of_mem _ hm))
    simp [splitLinesC, hc, ihr]

private lemma splitLinesC_mem_noNl (l : List Char) :
    ∀ x ∈ splitLinesC l, '\n' ∉ x := by
  induction l with
  | nil =>
    intro x hx
    rw [show splitLinesC [] = [[]] from rfl] at hx
    simp at hx
    simp [hx]
  | cons c cs ih =>
    intro x hx
    by_cases h : c = '\n'
    · rw [show splitLinesC (c :: cs) = [] :: splitLinesC cs by simp [splitLinesC, h]] at hx
      rcases List.mem_cons.mp hx with h1 | h1
      · simp [h1]
      · exact ih x h1
    · obtain ⟨l0, ls, hl⟩ := List.exists_cons_of_ne_nil (splitLinesC_ne_nil cs)
      rw [show splitLinesC (c :: cs) = (c :: l0) :: ls by simp [splitLinesC, h, hl]] at hx
      rcases List.mem_cons.mp hx with h1 | h1
      · subst h1
        intro hm
        rcases List.mem_cons.mp hm with h2 | h2
        · exact h h2.symm
        · exact ih l0 (by rw [hl]; exact List.mem_cons_self _ _) h2
      · exact ih x (by rw [hl]; exact List.mem_cons_of_mem _ h1)

private lemma joinNl_cons (l : List Char) (ls : List (List Char)) (h : ls ≠ []) :
    joinNl (l :: ls) = l ++ '\n' :: joinNl ls := by
  cases ls with
  | nil => exact absurd rfl h
  | cons y ys => rfl

private lemma joinNl_splitLinesC (l : List Char) : joinNl (splitLinesC l) = l := by
  induction l with
  | nil => rfl
  | cons c cs ih =>
    by_cases h : c = '\n'
    · subst h
      rw [show splitLinesC ('\n' :: cs) = [] :: splitLinesC cs by simp [splitLinesC],
        joinNl_cons _ _ (splitLinesC_ne_nil cs), ih]
      rfl
    · obtain ⟨l0, ls, hl⟩ := List.exists_cons_of_ne_nil (splitLinesC_ne_nil cs)
      rw [show splitLinesC (c :: cs) = (c :: l0) :: ls by simp [splitLinesC, h, hl]]
      cases ls with
      | nil =>
        have : joinNl (splitLinesC cs) = cs := ih
        rw [hl] at this
        simpa [joinNl] using this
      | cons y ys =>
        have : joinNl (splitLinesC cs) = cs := ih
        rw [hl, joinNl_cons _ _ (by simp)] at this
        rw [joinNl_cons _ _ (by simp), ← this]
        simp

private lemma joinNl_append (A B : List (List Char)) (hA : A ≠ []) (hB : B ≠ []) :
    joinNl (A ++ B) = joinNl A ++ '\n' :: joinNl B := by
  induction A with
  | nil => exact absurd rfl hA
  | cons l A ih =>
    cases A with
    | nil => simpa using joinNl_cons l B hB
    | cons y ys =>
      rw [List.cons_append, joinNl_cons _ _ (by simp),
        joinNl_cons _ _ (by simp), ih (by simp)]
      simp

private lemma splitLinesC_joinNl (ls : List (List Char)) (hne : ls ≠ [])
    (hnn : ∀ l ∈ ls, '\n' ∉ l) :
    splitLinesC (joinNl ls) = ls := by
  induction ls with
  | nil => exact absurd rfl hne
  | cons l A ih =>
    cases A with
    | nil => simpa [joinNl] using splitLinesC_noNl l (hnn l (by simp))
    | cons y ys =>
      rw [joinNl_cons _ _ (by simp), splitLinesC_append,
        splitLinesC_noNl l (hnn l (by simp)),
        ih (by simp) (fun x hx => hnn x (List.mem_cons_of_mem _ hx))]
      rfl

/-! ## Round-trip helper lemmas: decimal rendering -/

private lemma digitChar10_isDigit (m : Nat) (h : m < 10) :
    (digitChar10 m).isDigit = true := by
  interval_cases m <;> decide

private lemma digitChar10_toNat (m : Nat) (h : m < 10) :
    (digitChar10 m).toNat = 48 + m := toNat_charOfNat (48 + m) (by omega)

private lemma natDecAux_digits (f : Nat) : ∀ n, ∀ c ∈ natDecAux f n, c.isDigit = true := by
  induction f with
  | zero => intro n c hc; simp [natDecAux] at hc
  | succ f ih =>
    intro n c hc
    by_cases h : n < 10
    · simp only [natDecAux, if_pos h, List.mem_singleton] at hc
      exact hc ▸ digitChar10_isDigit n h
    · simp only [natDecAux, if_neg h, List.mem_append, List.mem_singleton] at hc
      rcases hc with hc | hc
      · exact ih _ c hc
      · exact hc ▸ digitChar10_isDigit _ (Nat.mod_lt _ (by omega))

private lemma natDecAux_ne_nil (f n : Nat) (h : 0 < f) : natDecAux f n ≠ [] := by
  cases f with
  | zero => omega
  | succ f =>
    by_cases hn : n < 10
    · simp [natDecAux, hn]
    · simp only [natDecAux, if_neg hn]
      intro hcontra
      exact absurd (List.append_eq_nil.mp hcontra).2 (by simp)

private lemma parseNatDigits_concat (l : List Char) (c : Char) :
    parseNatDigits (l ++ [c]) = parseNatDigits l * 10 + (c.toNat - 48) := by
  simp [parseNatDigits, List.foldl_append]

private lemma parseNatDigits_natDecAux (f : Nat) : ∀ n, n < f →
    parseNatDigits (natDecAux f n) = n := by
  induction f with
  | zero => intro n h; omega
  | succ f ih =>
    intro n h
    by_cases hn : n < 10
    · simp only [natDecAux, if_pos hn]
      show parseNatDigits ([] ++ [digitChar10 n]) = n
      rw [parseNatDigits_concat, digitChar10_toNat n hn]
      simp only [parseNatDigits, List.foldl_nil]
      omega
    · have hdiv : n / 10 < f := by
        have h1 : n / 10 < n := Nat.div_lt_self (by omega) (by omega)
        omega
      simp only [natDecAux, if_neg hn]
      rw [parseNatDigits_concat, ih _ hdiv, digitChar10_toNat _ (Nat.mod_lt _ (by omega))]
      omega

private lemma natDecimal_digits (n : Nat) :
    (natDecimal n).data ≠ [] ∧ (natDecimal n).data.all Char.isDigit = true := by
  refine ⟨natDecAux_ne_nil _ _ (by omega), ?_⟩
  rw [List.all_eq_true]
  exact natDecAux_digits (n + 1) n

private lemma parseNatDigits_natDecimal (n : Nat) :
    parseNatDigits (natDecimal n).data = n :=
  parseNatDigits_natDecAux (n + 1) n (by omega)

private lemma digit_not_ws (c : Char) (h : c.isDigit = true) :
    jsIsWhitespace c = false := by
  simp only [Char.isDigit, ge_iff_le, Bool.and_eq_true, decide_eq_true_eq] at h
  obtain ⟨h1, h2⟩ := h
  have h1n : 48 ≤ c.toNat := h1
  have h2n : c.toNat ≤ 57 := h2
  simp only [jsIsWhitespace, decide_eq_false_iff_not]
  intro hcontra
  rcases hcontra with h | h | h | h | h | h | h | h | ⟨ha, hb⟩ | h | h | h | h | h | h <;>
    omega

private lemma digit_ne_quote (c : Char) (h : c.isDigit = true) : c ≠ '"' := by
  intro hc
  subst hc
  exact absurd h (by decide)

private lemma trimRightWs_all_notWs (l : List Char)
    (h : ∀ c ∈ l, jsIsWhitespace c = false) : trimRightWs l = l := by
  induction l with
  | nil => rfl
  | cons c cs ih =>
    cases cs with
    | nil => simp [trimRightWs, h c (by simp)]
    | cons y ys =>
      have hcs : trimRightWs (y :: ys) = y :: ys :=
        ih (fun x hx => h x (List.mem_cons_of_mem _ hx))
      rw [trimRightWs_cons_of_ne c _ (by rw [hcs]; simp), hcs]

private lemma jsTrimC_all_notWs (l : List Char) (h : ∀ c ∈ l, jsIsWhitespace c = false) :
    jsTrimC l = l := by
  cases l with
  | nil => rfl
  | cons c cs =>
    unfold jsTrimC
    rw [dropWhileWs_cons_notWs c cs (h c (by simp)), trimRightWs_all_notWs _ h]

/-! ## Round-trip helper lemmas: prefixes and the section-head test -/

private lemma isPrefixOf_self_append (p t : List Char) : p.isPrefixOf (p ++ t) = true := by
  induction p with
  | nil => exact List.isPrefixOf_nil_left
  | cons c p ih => simp [List.isPrefixOf, ih]

private lemma isPrefixOf_append_nl (p : List Char) (hp : '\n' ∉ p) :
    ∀ l M, p.isPrefixOf (l ++ '\n' :: M) = p.isPrefixOf l := by
  induction p with
  | nil => intro l M; simp [List.isPrefixOf_nil_left]
  | cons c p ih =>
    intro l M
    cases l with
    | nil =>
      have hc : ¬ (c == '\n') = true := by
        simp only [beq_iff_eq]
        exact fun h => hp (h ▸ List.mem_cons_self _ _)
      simp [List.isPrefixOf, hc]
    | cons x l =>
      simp only [List.cons_append, List.isPrefixOf, List.append_eq,
        ih (fun h => hp (List.mem_cons_of_mem _ h)) l M]

private lemma headIsDigit_append_nl (xs M : List Char) :
    headIsDigit (xs ++ '\n' :: M) = headIsDigit xs := by
  cases xs with
  | nil => simp [headIsDigit]
  | cons c l => rfl

private lemma headChunk_append_nl (p : List Char) (hp : '\n' ∉ p) (l M : List Char) :
    (p.isPrefixOf (l ++ '\n' :: M) && headIsDigit ((l ++ '\n' :: M).drop p.length)) =
      (p.isPrefixOf l && headIsDigit (l.drop p.length)) := by
  rw [isPrefixOf_append_nl p hp]
  cases hpre : p.isPrefixOf l with
  | false => simp
  | true =>
    obtain ⟨t, ht⟩ := (List.isPrefixOf_iff_prefix.mp hpre)
    subst ht
    simp only [Bool.true_and]
    rw [List.append_assoc, List.drop_left, List.drop_left, headIsDigit_append_nl]

private lemma isSectionHeadAt_append_nl (l M : List Char) :
    isSectionHeadAt (l ++ '\n' :: M) = isSectionHeadAt l := by
  unfold isSectionHeadAt
  rw [show (8 : Nat) = "## Post ".data.length from rfl,
    show (9 : Nat) = "## Email ".data.length from rfl,
    headChunk_append_nl "## Post ".data (by decide) l M,
    headChunk_append_nl "## Email ".data (by decide) l M]

private lemma isSectionHeadAt_joinNl (l : List Char) (ls : List (List Char)) (h : ls ≠ []) :
    isSectionHeadAt (joinNl (l :: ls)) = isSectionHeadAt l := by
  rw [joinNl_cons _ _ h, isSectionHeadAt_append_nl]

private lemma isSectionHeadAt_post (d X : List Char) (hd : headIsDigit d = true) :
    isSectionHeadAt ("## Post ".data ++ (d ++ X)) = true := by
  unfold isSectionHeadAt
  rw [isPrefixOf_self_append,
    show (8 : Nat) = "## Post ".data.length from rfl, List.drop_left]
  cases d with
  | nil => simp [headIsDigit] at hd
  | cons c t =>
    simp only [Bool.true_and, List.cons_append]
    rw [show headIsDigit (c :: (t ++ X)) = c.isDigit from rfl]
    simp only [headIsDigit] at hd
    rw [hd]
    rfl

private lemma isSectionHeadAt_email (d X : List Char) (hd : headIsDigit d = true) :
    isSectionHeadAt ("## Email ".data ++ (d ++ X)) = true := by
  unfold isSectionHeadAt
  rw [isPrefixOf_self_append,
    show (9 : Nat) = "## Email ".data.length from rfl, List.drop_left]
  cases d with
  | nil => simp [headIsDigit] at hd
  | cons c t =>
    simp only [List.cons_append]
    rw [show headIsDigit (c :: (t ++ X)) = c.isDigit from rfl]
    simp only [headIsDigit] at hd
    rw [hd]
    simp

private lemma headIsDigit_natDecimal (n : Nat) : headIsDigit (natDecimal n).data = true := by
  obtain ⟨c, t, hct⟩ := List.exists_cons_of_ne_nil (natDecimal_digits n).1
  rw [hct]
  show c.isDigit = true
  have := natDecAux_digits (n + 1) n c
  rw [show natDecAux (n + 1) n = (natDecimal n).data from rfl, hct] at this
  exact this (by simp)

/-! ## Round-trip helper lemmas: finding the separators -/

private lemma findInfix_cons_not (sep : List Char) (c : Char) (rest : List Char)
    (h : sep.isPrefixOf (c :: rest) = false) :
    findInfix sep (c :: rest) =
      (findInfix sep rest).map (fun pr => (c :: pr.1, pr.2)) := by
  simp [findInfix, h]

private lemma findInfix_cons_hit (sep : List Char) (c : Char) (rest : List Char)
    (h : sep.isPrefixOf (c :: rest) = true) :
    findInfix sep (c :: rest) = some ([], (c :: rest).drop sep.length) := by
  simp [findInfix, h]

private lemma findInfix_skip (s0 : Char) (sep a rest : List Char) (ha : s0 ∉ a) :
    findInfix (s0 :: sep) (a ++ rest) =
      (findInfix (s0 :: sep) rest).map (fun pr => (a ++ pr.1, pr.2)) := by
  induction a with
  | nil => cases h : findInfix (s0 :: sep) rest <;> simp [h]
  | cons c a ih =>
    have hc : ((s0 :: sep).isPrefixOf (c :: (a ++ rest))) = false := by
      have hne : (s0 == c) = false := by
        simp only [beq_eq_false_iff_ne, ne_eq]
        exact fun h => ha (h ▸ List.mem_cons_self _ _)
      simp [List.isPrefixOf, hne]
    rw [List.cons_append, findInfix_cons_not _ _ _ hc,
      ih (fun h => ha (List.mem_cons_of_mem _ h))]
    cases h : findInfix (s0 :: sep) rest <;> simp [h]

private lemma findInfix_nl_hit (sep M : List Char) (h : sep.isPrefixOf M = true) :
    findInfix ('\n' :: sep) ('\n' :: M) = some ([], M.drop sep.length) := by
  have hp : (('\n' :: sep).isPrefixOf ('\n' :: M)) = true := by
    simp [List.isPrefixOf, h]
  rw [findInfix_cons_hit _ _ _ hp]
  simp

private lemma findInfix_nl_miss (sep M : List Char) (h : sep.isPrefixOf M = false) :
    findInfix ('\n' :: sep) ('\n' :: M) =
      (findInfix ('\n' :: sep) M).map (fun pr => ('\n' :: pr.1, pr.2)) := by
  have hp : (('\n' :: sep).isPrefixOf ('\n' :: M)) = false := by
    simp [List.isPrefixOf, h]
  rw [findInfix_cons_not _ _ _ hp]

private lemma findInfix_fmline (sep L M : List Char)
    (hL : '\n' ∉ L) (hM : sep.isPrefixOf M = false) :
    findInfix ('\n' :: sep) (L ++ '\n' :: M) =
      (findInfix ('\n' :: sep) M).map (fun pr => (L ++ '\n' :: pr.1, pr.2)) := by
  rw [findInfix_skip '\n' sep L _ hL, findInfix_nl_miss sep M hM]
  cases findInfix ('\n' :: sep) M <;> simp

private lemma findInfix_fmlast (sep L M : List Char)
    (hL : '\n' ∉ L) (h : sep.isPrefixOf M = true) :
    findInfix ('\n' :: sep) (L ++ '\n' :: M) = some (L, M.drop sep.length) := by
  rw [findInfix_skip '\n' sep L _ hL, findInfix_nl_hit sep M h]
  simp

/-! ## Round-trip helper lemmas: frontmatter lines -/

/-- The frontmatter object recovered from a generated artifact. -/
def mdFrontmatter (pf ct : String) (cnt : Nat) (r : StoppedReason) :
    List (String × FmVal) :=
  [("platform", .s pf), ("crawlTime", .s ct), ("postCount", .n cnt),
    ("stoppedReason", .s r.render)]

private lemma stripQuotes_wrapped (v : List Char) :
    stripQuotes ('"' :: (v ++ ['"'])) = v := by
  unfold stripQuotes
  rw [if_pos ⟨rfl, by rw [show ('"' :: (v ++ ['"'])) = ('"' :: v) ++ ['"'] by simp,
        List.getLast?_concat]⟩]
  simp only [List.drop_succ_cons, List.drop_zero, List.dropLast_concat]

private lemma stripQuotes_notQuote (v : List Char)
    (h : v.head? ≠ some '"') : stripQuotes v = v := by
  unfold stripQuotes
  rw [if_neg (fun hc => h hc.1)]

private lemma fmValOf_string (v : List Char)
    (hq : ¬(v ≠ [] ∧ v.all Char.isDigit = true)) : fmValOf v = .s ⟨v⟩ := by
  unfold fmValOf
  rw [if_neg hq]

private lemma fmValOf_natDecimal (n : Nat) :
    fmValOf (natDecimal n).data = .n n := by
  unfold fmValOf
  rw [if_pos ⟨(natDecimal_digits n).1, (natDecimal_digits n).2⟩,
    parseNatDigits_natDecimal]

private lemma parseFmLine_crawlTime (ct : List Char)
    (hq : ¬(ct ≠ [] ∧ ct.all Char.isDigit = true)) :
    parseFmLine ("crawlTime: \"".data ++ (ct ++ ['"'])) =
      some ("crawlTime", .s ⟨ct⟩) := by
  have hline : "crawlTime: \"".data ++ (ct ++ ['"']) =
      "crawlTime".data ++ (':' :: (' ' :: '"' :: (ct ++ ['"']))) := by
    simp
  have hfi : findInfix [':'] ("crawlTime".data ++ (':' :: (' ' :: '"' :: (ct ++ ['"'])))) =
      some ("crawlTime".data, ' ' :: '"' :: (ct ++ ['"'])) := by
    rw [findInfix_skip ':' [] _ _ (by decide),
      findInfix_cons_hit _ _ _ (by simp [List.isPrefixOf])]
    simp
  have hv0 : jsTrimC (' ' :: '"' :: (ct ++ ['"'])) = '"' :: (ct ++ ['"']) := by
    rw [jsTrimC_cons_ws _ _ (by decide)]
    unfold jsTrimC
    rw [dropWhileWs_cons_notWs _ _ (by decide),
      show ('"' :: (ct ++ ['"'])) = ('"' :: ct) ++ ['"'] by simp,
      trimRightWs_concat_notWs _ _ (by decide)]
  rw [hline]
  unfold parseFmLine
  rw [hfi]
  show some ((⟨jsTrimC "crawlTime".data⟩ : String),
      fmValOf (stripQuotes (jsTrimC (' ' :: '"' :: (ct ++ ['"']))))) = _
  rw [show jsTrimC "crawlTime".data = "crawlTime".data by decide, hv0,
    stripQuotes_wrapped, fmValOf_string ct hq]

private lemma parseFmLine_postCount (n : Nat) :
    parseFmLine ("postCount: ".data ++ (natDecimal n).data) =
      some ("postCount", .n n) := by
  obtain ⟨hne, hall⟩ := natDecimal_digits n
  have hdig : ∀ c ∈ (natDecimal n).data, c.isDigit = true := List.all_eq_true.mp hall
  have hline : "postCount: ".data ++ (natDecimal n).data =
      "postCount".data ++ (':' :: (' ' :: (natDecimal n).data)) := by
    simp
  have hfi : findInfix [':'] ("postCount".data ++ (':' :: (' ' :: (natDecimal n).data))) =
      some ("postCount".data, ' ' :: (natDecimal n).data) := by
    rw [findInfix_skip ':' [] _ _ (by decide),
      findInfix_cons_hit _ _ _ (by simp [List.isPrefixOf])]
    simp
  have hv0 : jsTrimC (' ' :: (natDecimal n).data) = (natDecimal n).data := by
    rw [jsTrimC_cons_ws _ _ (by decide)]
    exact jsTrimC_all_notWs _ (fun c hc => digit_not_ws c (hdig c hc))
  have hnq : (natDecimal n).data.head? ≠ some '"' := by
    obtain ⟨c, t, hct⟩ := List.exists_cons_of_ne_nil hne
    rw [hct]
    simp only [List.head?_cons, ne_eq, Option.some.injEq]
    exact digit_ne_quote c (hdig c (by rw [hct]; simp))
  rw [hline]
  unfold parseFmLine
  rw [hfi]
  show some ((⟨jsTrimC "postCount".data⟩ : String),
      fmValOf (stripQuotes (jsTrimC (' ' :: (natDecimal n).data)))) = _
  rw [show jsTrimC "postCount".data = "postCount".data by decide, hv0,
    stripQuotes_notQuote _ hnq, fmValOf_natDecimal]

private lemma parseFmLine_stoppedReason (r : StoppedReason) :
    parseFmLine ("stoppedReason: \"".data ++ ((r.render).data ++ ['"'])) =
      some ("stoppedReason", .s r.render) := by
  cases r <;> rfl

private lemma data_append (a b : String) : (a ++ b).data = a.data ++ b.data := rfl

private lemma noNl_append (a b : List Char) (ha : '\n' ∉ a) (hb : '\n' ∉ b) :
    '\n' ∉ a ++ b := fun h => (List.mem_append.mp h).elim ha hb

private lemma noNl_natDecimal (n : Nat) : '\n' ∉ (natDecimal n).data := fun h =>
  absurd (natDecAux_digits (n + 1) n '\n' h) (by decide)

private lemma noNl_render (r : StoppedReason) : '\n' ∉ (r.render).data := by
  cases r <;> decide

private lemma parseFmLines_doc (L1 : List Char) (pf : String)
    (h1 : parseFmLine L1 = some ("platform", .s pf))
    (ct : String) (hq : ¬(ct.data ≠ [] ∧ ct.data.all Char.isDigit = true))
    (n : Nat) (r : StoppedReason) :
    parseFmLines [L1, "crawlTime: \"".data ++ (ct.data ++ ['"']),
      "postCount: ".data ++ (natDecimal n).data,
      "stoppedReason: \"".data ++ ((r.render).data ++ ['"'])] =
      mdFrontmatter pf ct n r := by
  unfold parseFmLines
  simp only [List.foldl_cons, List.foldl_nil, h1, parseFmLine_crawlTime ct.data hq,
    parseFmLine_postCount n, parseFmLine_stoppedReason r]
  simp [upsertFm, mdFrontmatter]

private lemma findInfix_fmdoc (L1 : List Char) (hL1 : '\n' ∉ L1)
    (ct : String) (hct : '\n' ∉ ct.data) (n : Nat) (r : StoppedReason) (B : List Char) :
    findInfix "\n---\n".data
      (L1 ++ '\n' :: (("crawlTime: \"".data ++ (ct.data ++ ['"'])) ++ '\n' ::
        (("postCount: ".data ++ (natDecimal n).data) ++ '\n' ::
          (("stoppedReason: \"".data ++ ((r.render).data ++ ['"'])) ++ '\n' ::
            ("---\n".data ++ B))))) =
      some (L1 ++ '\n' :: (("crawlTime: \"".data ++ (ct.data ++ ['"'])) ++ '\n' ::
        (("postCount: ".data ++ (natDecimal n).data) ++ '\n' ::
          ("stoppedReason: \"".data ++ ((r.render).data ++ ['"'])))), B) := by
  have hL2 : '\n' ∉ "crawlTime: \"".data ++ (ct.data ++ ['"']) :=
    noNl_append _ _ (by decide) (noNl_append _ _ hct (by decide))
  have hL3 : '\n' ∉ "postCount: ".data ++ (natDecimal n).data :=
    noNl_append _ _ (by decide) (noNl_natDecimal n)
  have hL4 : '\n' ∉ "stoppedReason: \"".data ++ ((r.render).data ++ ['"']) :=
    noNl_append _ _ (by decide) (noNl_append _ _ (noNl_render r) (by decide))
  rw [show "\n---\n".data = '\n' :: "---\n".data from rfl]
  rw [findInfix_fmline _ _ _ hL1 (by rfl), findInfix_fmline _ _ _ hL2 (by rfl),
    findInfix_fmline _ _ _ hL3 (by rfl),
    findInfix_fmlast _ _ _ hL4 (isPrefixOf_self_append _ _),
    show ("---\n".data ++ B).drop "---\n".data.length = B from List.drop_left _ _]
  simp

private lemma parseFrontmatter_doc (raw : String) (L1 : List Char) (pf : String)
    (h1nl : '\n' ∉ L1) (h1 : parseFmLine L1 = some ("platform", .s pf))
    (ct : String) (hct : '\n' ∉ ct.data)
    (hq : ¬(ct.data ≠ [] ∧ ct.data.all Char.isDigit = true))
    (n : Nat) (r : StoppedReason) (B : List Char)
    (hdoc : raw.data = "---\n".data ++ (L1 ++ '\n' ::
      (("crawlTime: \"".data ++ (ct.data ++ ['"'])) ++ '\n' ::
        (("postCount: ".data ++ (natDecimal n).data) ++ '\n' ::
          (("stoppedReason: \"".data ++ ((r.render).data ++ ['"'])) ++ '\n' ::
            ("---\n".data ++ B)))))) :
    parseFrontmatter raw = some (mdFrontmatter pf ct n r, ⟨B⟩) := by
  have hL2 : '\n' ∉ "crawlTime: \"".data ++ (ct.data ++ ['"']) :=
    noNl_append _ _ (by decide) (noNl_append _ _ hct (by decide))
  have hL3 : '\n' ∉ "postCount: ".data ++ (natDecimal n).data :=
    noNl_append _ _ (by decide) (noNl_natDecimal n)
  have hL4 : '\n' ∉ "stoppedReason: \"".data ++ ((r.render).data ++ ['"']) :=
    noNl_append _ _ (by decide) (noNl_append _ _ (noNl_render r) (by decide))
  unfold parseFrontmatter
  rw [hdoc, if_pos (isPrefixOf_self_append _ _),
    show ∀ Y : List Char, ("---\n".data ++ Y).drop 4 = Y from fun Y => rfl,
    findInfix_fmdoc L1 h1nl ct hct n r B]
  show some (parseFmLines (splitLinesC _), (⟨B⟩ : String)) = _
  rw [splitLinesC_append, splitLinesC_append, splitLinesC_append,
    splitLinesC_noNl _ h1nl, splitLinesC_noNl _ hL2, splitLinesC_noNl _ hL3,
    splitLinesC_noNl _ hL4]
  rw [show [L1] ++ ([("crawlTime: \"".data ++ (ct.data ++ ['"']))] ++
      ([("postCount: ".data ++ (natDecimal n).data)] ++
        [("stoppedReason: \"".data ++ ((r.render).data ++ ['"']))])) =
      [L1, "crawlTime: \"".data ++ (ct.data ++ ['"']),
        "postCount: ".data ++ (natDecimal n).data,
        "stoppedReason: \"".data ++ ((r.render).data ++ ['"'])] by simp]
  rw [parseFmLines_doc L1 pf h1 ct hq n r]

/-! ## Round-trip helper lemmas: the lookahead section split -/

private lemma splitHeadsAux_nil (cur : List Char) : splitHeadsAux cur [] = [cur.reverse] :=
  rfl

private lemma splitHeadsAux_noNl (l : List Char) (hl : '\n' ∉ l) :
    ∀ cur rest, splitHeadsAux cur (l ++ rest) = splitHeadsAux (l.reverse ++ cur) rest := by
  induction l with
  | nil => intro cur rest; simp
  | cons c t ih =>
    intro cur rest
    have hc : ¬(c = '\n' ∧ isSectionHeadAt (t ++ rest) = true) :=
      fun hcc => hl (hcc.1 ▸ List.mem_cons_self _ _)
    simp only [List.cons_append, splitHeadsAux, List.append_eq]
    rw [if_neg hc, ih (fun h => hl (List.mem_cons_of_mem _ h)) (c :: cur) rest]
    simp

private lemma splitHeadsAux_cut (cur rest : List Char) (h : isSectionHeadAt rest = true) :
    splitHeadsAux cur ('\n' :: rest) = (cur.reverse ++ ['\n']) :: splitHeadsAux [] rest := by
  simp only [splitHeadsAux]
  rw [if_pos ⟨trivial, h⟩]

private lemma splitHeadsAux_nocut (cur rest : List Char) (h : isSectionHeadAt rest = false) :
    splitHeadsAux cur ('\n' :: rest) = splitHeadsAux ('\n' :: cur) rest := by
  simp only [splitHeadsAux]
  rw [if_neg (fun hc => by rw [hc.2] at h; exact Bool.true_eq_false.mp h)]

private lemma splitHeadsAux_chunk_end (ls : List (List Char)) (hne : ls ≠ [])
    (hnn : ∀ l ∈ ls, '\n' ∉ l) (hnh : ∀ l ∈ ls.tail, isSectionHeadAt l = false) :
    ∀ cur, splitHeadsAux cur (joinNl ls) = [cur.reverse ++ joinNl ls] := by
  induction ls with
  | nil => exact absurd rfl hne
  | cons l A ih =>
    intro cur
    cases A with
    | nil =>
      have h2 := splitHeadsAux_noNl l (hnn l (by simp)) cur []
      simp only [List.append_nil] at h2
      rw [show joinNl [l] = l from rfl, h2, splitHeadsAux_nil]
      simp
    | cons y ys =>
      rw [joinNl_cons _ _ (by simp),
        splitHeadsAux_noNl l (hnn l (by simp)) cur ('\n' :: joinNl (y :: ys))]
      have hhead : isSectionHeadAt (joinNl (y :: ys)) = false := by
        cases ys with
        | nil => exact hnh y (by simp)
        | cons z zs =>
          rw [isSectionHeadAt_joinNl y (z :: zs) (by simp)]
          exact hnh y (by simp)
      rw [splitHeadsAux_nocut _ _ hhead,
        ih (by simp) (fun x hx => hnn x (List.mem_cons_of_mem _ hx))
          (fun x hx => hnh x (List.mem_cons_of_mem _ hx)) ('\n' :: (l.reverse ++ cur))]
      simp

private lemma splitHeadsAux_chunk_cut (ls : List (List Char)) (hne : ls ≠ [])
    (hnn : ∀ l ∈ ls, '\n' ∉ l) (hnh : ∀ l ∈ ls.tail, isSectionHeadAt l = false)
    (rest : List Char) (hrest : isSectionHeadAt rest = true) :
    ∀ cur, splitHeadsAux cur (joinNl ls ++ '\n' :: rest) =
      ((cur.reverse ++ joinNl ls) ++ ['\n']) :: splitHeadsAux [] rest := by
  induction ls with
  | nil => exact absurd rfl hne
  | cons l A ih =>
    intro cur
    cases A with
    | nil =>
      rw [show joinNl [l] = l from rfl,
        splitHeadsAux_noNl l (hnn l (by simp)) cur ('\n' :: rest),
        splitHeadsAux_cut _ _ hrest]
      simp
    | cons y ys =>
      rw [joinNl_cons _ _ (by simp), List.append_assoc, List.cons_append,
        splitHeadsAux_noNl l (hnn l (by simp)) cur
          ('\n' :: (joinNl (y :: ys) ++ '\n' :: rest))]
      have hhead : isSectionHeadAt (joinNl (y :: ys) ++ '\n' :: rest) = false := by
        rw [isSectionHeadAt_append_nl]
        cases ys with
        | nil => exact hnh y (by simp)
        | cons z zs =>
          rw [isSectionHeadAt_joinNl y (z :: zs) (by simp)]
          exact hnh y (by simp)
      rw [splitHeadsAux_nocut _ _ hhead,
        ih (by simp) (fun x hx => hnn x (List.mem_cons_of_mem _ hx))
          (fun x hx => hnh x (List.mem_cons_of_mem _ hx)) ('\n' :: (l.reverse ++ cur))]
      simp

/-! ## Round-trip helper lemmas: the per-section metadata scan -/

private lemma scanMeta_empty (m : MetaAcc) (rest : List (List Char)) :
    scanMeta m ([] :: rest) = scanMeta m rest := rfl

private lemma scanMeta_author (m : MetaAcc) (a : List Char) (rest : List (List Char)) :
    scanMeta m (("**Author:** ".data ++ a) :: rest) =
      scanMeta { m with author := jsTrimC (' ' :: a) } rest := rfl

private lemma scanMeta_url (m : MetaAcc) (u : List Char) (rest : List (List Char)) :
    scanMeta m (("**URL:** ".data ++ u) :: rest) =
      scanMeta { m with url := jsTrimC (' ' :: u) } rest := rfl

private lemma scanMeta_date (m : MetaAcc) (d : List Char) (rest : List (List Char)) :
    scanMeta m (("**Date:** ".data ++ d) :: rest) =
      scanMeta { m with date := jsTrimC (' ' :: d) } rest := rfl

private lemma scanMeta_from (m : MetaAcc) (f : List Char) (rest : List (List Char)) :
    scanMeta m (("**From:** ".data ++ f) :: rest) =
      scanMeta { m with fromAddr := jsTrimC (' ' :: f) } rest := rfl

private lemma scanMeta_subject (m : MetaAcc) (s : List Char) (rest : List (List Char)) :
    scanMeta m (("**Subject:** ".data ++ s) :: rest) =
      scanMeta { m with subject := jsTrimC (' ' :: s) } rest := rfl

private lemma scanMeta_content (m : MetaAcc) (rest : List (List Char)) :
    scanMeta m ("### Content".data :: rest) = (m, some rest) := rfl

/-! ## Round-trip helper lemmas: the quoted/retweeted split -/

private lemma trailJoin_eq (ls : List (List Char)) (h : ls ≠ []) :
    ls.foldr (fun l acc => l ++ '\n' :: acc) [] = joinNl ls ++ ['\n'] := by
  induction ls with
  | nil => exact absurd rfl h
  | cons l A ih =>
    cases A with
    | nil => rfl
    | cons y ys =>
      simp only [List.foldr_cons, ih (by simp), joinNl_cons l (y :: ys) (by simp)]
      simp

private lemma splitExtra_main_cons (main : List (List Char)) (ex cl : List Char)
    (rest : List (List Char))
    (h1 : ("### Quoted Tweet".data.isPrefixOf cl) = false)
    (h2 : ("### Retweeted Tweet".data.isPrefixOf cl) = false) :
    splitExtra main ex false (cl :: rest) = splitExtra (main ++ [cl]) ex false rest := by
  simp [splitExtra, h1, h2]

private lemma splitExtra_all_extra (ls : List (List Char)) :
    ∀ main ex, splitExtra main ex true ls =
      (main, ex ++ ls.foldr (fun l acc => l ++ '\n' :: acc) []) := by
  induction ls with
  | nil => intro main ex; simp [splitExtra]
  | cons l A ih =>
    intro main ex
    rw [show splitExtra main ex true (l :: A) =
        splitExtra main (ex ++ l ++ ['\n']) true A by simp [splitExtra], ih]
    simp

private lemma splitExtra_all_main (ls : List (List Char))
    (h : ∀ l ∈ ls, ("### Quoted Tweet".data.isPrefixOf l) = false ∧
      ("### Retweeted Tweet".data.isPrefixOf l) = false) :
    ∀ main ex, splitExtra main ex false ls = (main ++ ls, ex) := by
  induction ls with
  | nil => intro main ex; simp [splitExtra]
  | cons l A ih =>
    intro main ex
    rw [splitExtra_main_cons main ex l A (h l (by simp)).1 (h l (by simp)).2,
      ih (fun x hx => h x (List.mem_cons_of_mem _ hx))]
    simp

private lemma splitExtra_trigger (main : List (List Char)) (ex cl : List Char)
    (rest : List (List Char))
    (h : ("### Quoted Tweet".data.isPrefixOf cl) = true ∨
      ("### Retweeted Tweet".data.isPrefixOf cl) = true) :
    splitExtra main ex false (cl :: rest) =
      (main, ex ++ (cl :: rest).foldr (fun l acc => l ++ '\n' :: acc) []) := by
  have hstep : splitExtra main ex false (cl :: rest) =
      splitExtra main (ex ++ cl ++ ['\n']) true rest := by
    rcases h with h | h <;> simp [splitExtra, h]
  rw [hstep, splitExtra_all_extra]
  simp

/-! ## Round-trip helper lemmas: the trailing separator strip -/

private lemma isSuffixOf_append_self (s a : List Char) : s.isSuffixOf (a ++ s) = true := by
  show (s.reverse.isPrefixOf (a ++ s).reverse) = true
  rw [List.reverse_append]
  exact isPrefixOf_self_append _ _

private lemma stripTrailingSep_mid (c : List Char) :
    stripTrailingSep (c ++ "\n\n---\n\n".data) = c ++ ['\n'] := by
  have h1 : trimRightWs (c ++ "\n\n---\n\n".data) = c ++ "\n\n---".data := by
    rw [show c ++ "\n\n---\n\n".data = (c ++ "\n\n---".data) ++ ['\n', '\n'] by
        rw [List.append_assoc]; rfl,
      trimRightWs_append_ws _ _ (by decide),
      show c ++ "\n\n---".data = (c ++ "\n\n--".data) ++ ['-'] by
        rw [List.append_assoc]; rfl,
      trimRightWs_concat_notWs _ _ (by decide), List.append_assoc]
  have h2 : ("\n---".data.isSuffixOf (c ++ "\n\n---".data)) = true := by
    rw [show c ++ "\n\n---".data = (c ++ ['\n']) ++ "\n---".data by
        rw [List.append_assoc]; rfl]
    exact isSuffixOf_append_self _ _
  unfold stripTrailingSep
  rw [h1, h2, if_pos rfl,
    show (c ++ "\n\n---".data).length - 4 = c.length + 1 by simp,
    List.take_append_eq_append_take, List.take_of_length_le (by omega),
    show c.length + 1 - c.length = 1 by omega]
  rfl

private lemma stripTrailingSep_last (c : List Char) (htr : trimRightWs c = c)
    (hsuf : ("\n---".data.isSuffixOf c) = false) :
    stripTrailingSep (c ++ ['\n']) = c ++ ['\n'] := by
  unfold stripTrailingSep
  rw [trimRightWs_append_ws c ['\n'] (by decide), htr, hsuf]
  simp

/-! ## Round-trip statement: niceness of emitted fields, expected posts -/

/-- A metadata field survives the parser's `trim` and stays on one line:
no leading/trailing JS whitespace and no newline. -/
def NiceField (s : String) : Prop :=
  s.data.dropWhile jsIsWhitespace = s.data ∧ trimRightWs s.data = s.data ∧ '\n' ∉ s.data

/-- A content text survives the parser's content pipeline: trimmed shape,
non-empty, not ending in a `\n---` separator of its own, and no line of it
collides with the section-head pattern or the quoted/retweeted markers. -/
def NiceText (s : String) : Prop :=
  s.data.dropWhile jsIsWhitespace = s.data ∧ trimRightWs s.data = s.data ∧ s ≠ "" ∧
  ("\n---".data.isSuffixOf s.data) = false ∧
  ∀ l ∈ splitLinesC s.data, isSectionHeadAt l = false ∧
    ("### Quoted Tweet".data.isPrefixOf l) = false ∧
    ("### Retweeted Tweet".data.isPrefixOf l) = false

/-- An optional quoted/retweeted text: trailing-trim stable and no line
collides with the section-head pattern (absent or empty is always fine). -/
def NiceExtra : Option String → Prop
  | none => True
  | some q => q = "" ∨ (trimRightWs q.data = q.data ∧
      ∀ l ∈ splitLinesC q.data, isSectionHeadAt l = false)

/-- The emitted Facebook fields the parser can reproduce. -/
def NiceFbPost (p : FacebookPost) : Prop :=
  NiceField p.author ∧ NiceField p.url ∧ p.url ≠ "" ∧ NiceText p.content

/-- The emitted Twitter fields the parser can reproduce. -/
def NiceTwPost (p : TwitterPost) : Prop :=
  NiceField p.author ∧ p.author ≠ "" ∧ '\n' ∉ p.username.data ∧
  NiceField p.createdAt ∧ NiceField p.url ∧ NiceText p.content ∧
  NiceExtra p.quotedContent ∧ NiceExtra p.retweetedContent

/-- The emitted Gmail fields the parser can reproduce. -/
def NiceGmPost (e : GmailEmail) : Prop :=
  NiceField e.fromAddr ∧ NiceField e.subject ∧ NiceField e.date ∧ NiceText e.content

/-- What the parser recovers from an emitted Facebook section. -/
def fbParsedPost (n : Nat) (p : FacebookPost) : ParsedPost :=
  { heading := "## Post " ++ natDecimal n, author := p.author, url := p.url,
    date := "", subject := "", fromAddr := "", content := p.content, extra := "" }

/-- What the parser recovers from an emitted Gmail section. -/
def gmParsedPost (n : Nat) (e : GmailEmail) : ParsedPost :=
  { heading := "## Email " ++ natDecimal n, author := "", url := "",
    date := e.date, subject := e.subject, fromAddr := e.fromAddr,
    content := e.content, extra := "" }

/-- The quoted/retweeted text of an emitted Twitter section, as the
parser recovers it: the `###` marker lines survive inside `extra`, and on
a non-final section the following `\n\n---` separator leaks into `extra`
(the `\n---\s*$` strip of src/lean.ts:162 is applied to the main content
only, and `trim` cannot remove the non-whitespace `---`). -/
def twParsedExtra (p : TwitterPost) (last : Bool) : String :=
  match p.quotedContent, p.retweetedContent with
  | some q, some r =>
    if q = "" then
      (if r = "" then "" else
        "### Retweeted Tweet\n\n" ++ r ++ (if last then "" else "\n\n---"))
    else if r = "" then "### Quoted Tweet\n\n" ++ q ++ (if last then "" else "\n\n---")
    else "### Quoted Tweet\n\n" ++ q ++ "\n\n### Retweeted Tweet\n\n" ++ r ++
      (if last then "" else "\n\n---")
  | some q, none =>
    if q = "" then "" else "### Quoted Tweet\n\n" ++ q ++ (if last then "" else "\n\n---")
  | none, some r =>
    if r = "" then "" else "### Retweeted Tweet\n\n" ++ r ++ (if last then "" else "\n\n---")
  | none, none => ""

/-- What the parser recovers from an emitted Twitter section (the author
and handle merge into one field; `last` tells whether the section is the
final one of the artifact). -/
def twParsedPost (n : Nat) (p : TwitterPost) (last : Bool) : ParsedPost :=
  { heading := "## Post " ++ natDecimal n,
    author := p.author ++ " (@" ++ p.username ++ ")", url := p.url,
    date := p.createdAt, subject := "", fromAddr := "",
    content := p.content, extra := twParsedExtra p last }

/-- Index-aware map for the expected posts of the simple platforms. -/
def parsedFrom {α : Type} (f : Nat → α → ParsedPost) : Nat → List α → List ParsedPost
  | _, [] => []
  | n, x :: xs => f n x :: parsedFrom f (n + 1) xs

/-- Index-aware map for the expected Twitter posts (the final section
parses differently). -/
def twParsedFrom : Nat → List TwitterPost → List ParsedPost
  | _, [] => []
  | n, [p] => [twParsedPost n p true]
  | n, p :: q :: xs => twParsedPost n p false :: twParsedFrom (n + 1) (q :: xs)

/-! ## Round-trip helper lemmas: the content pipeline -/

private lemma jsTrimC_nice (s : String) (hdw : s.data.dropWhile jsIsWhitespace = s.data)
    (htr : trimRightWs s.data = s.data) : jsTrimC s.data = s.data := by
  unfold jsTrimC
  rw [hdw, htr]

private lemma nonblank_head (ch : Char) (l : List Char) (hch : jsIsWhitespace ch = false) :
    ¬ (jsTrimC (ch :: l) = []) := by
  unfold jsTrimC
  rw [dropWhileWs_cons_notWs _ _ hch]
  exact trimRightWs_ne_nil_of_head ch l hch

private lemma splitLinesC_head_cons (ch : Char) (crest : List Char) (hch : ch ≠ '\n') :
    ∃ l1 ls, splitLinesC (ch :: crest) = (ch :: l1) :: ls := by
  obtain ⟨l0, ls0, h0⟩ := List.exists_cons_of_ne_nil (splitLinesC_ne_nil crest)
  exact ⟨l0, ls0, by simp [splitLinesC, hch, h0]⟩

private lemma dropWhile_blank_content (c : List Char) (T : List (List Char))
    (hc : c ≠ []) (hdw : c.dropWhile jsIsWhitespace = c) :
    (([] :: (splitLinesC c ++ T)).dropWhile (fun l => jsTrimC l = [])) =
      splitLinesC c ++ T := by
  obtain ⟨ch, crest, rfl⟩ := List.exists_cons_of_ne_nil hc
  have hch : jsIsWhitespace ch = false := head_notWs_of_dropWhile_stable ch crest hdw
  have hchn : ch ≠ '\n' := fun h => by rw [h] at hch; exact absurd hch (by decide)
  obtain ⟨l1, ls, hsl⟩ := splitLinesC_head_cons ch crest hchn
  rw [hsl, List.cons_append, List.dropWhile_cons, List.dropWhile_cons]
  rw [if_pos (by decide), if_neg (by simp [nonblank_head ch l1 hch])]

private lemma content_mid (c : String)
    (hdw : c.data.dropWhile jsIsWhitespace = c.data)
    (htr : trimRightWs c.data = c.data) (hc : c ≠ "") :
    jsTrimC (stripTrailingSep (joinNl (splitLinesC c.data ++ [[], "---".data, [], []]))) =
      c.data := by
  rw [joinNl_append _ _ (splitLinesC_ne_nil _) (by simp), joinNl_splitLinesC,
    show joinNl [[], "---".data, [], []] = "\n---\n\n".data from rfl,
    show c.data ++ '\n' :: "\n---\n\n".data = c.data ++ "\n\n---\n\n".data from rfl,
    stripTrailingSep_mid]
  have hcd : c.data ≠ [] := fun h => hc (by cases c; simp_all)
  obtain ⟨ch, crest, hcc⟩ := List.exists_cons_of_ne_nil hcd
  have hch : jsIsWhitespace ch = false := by
    rw [hcc] at hdw
    exact head_notWs_of_dropWhile_stable ch crest hdw
  unfold jsTrimC
  rw [hcc, List.cons_append, dropWhileWs_cons_notWs _ _ hch, ← List.cons_append, ← hcc,
    trimRightWs_append_ws _ _ (by decide), htr]

private lemma content_last (c : String)
    (hdw : c.data.dropWhile jsIsWhitespace = c.data)
    (htr : trimRightWs c.data = c.data) (hc : c ≠ "")
    (hsuf : ("\n---".data.isSuffixOf c.data) = false) :
    jsTrimC (stripTrailingSep (joinNl (splitLinesC c.data ++ [[]]))) = c.data := by
  rw [joinNl_append _ _ (splitLinesC_ne_nil _) (by simp), joinNl_splitLinesC,
    show joinNl [([] : List Char)] = [] from rfl,
    stripTrailingSep_last c.data htr hsuf]
  have hcd : c.data ≠ [] := fun h => hc (by cases c; simp_all)
  obtain ⟨ch, crest, hcc⟩ := List.exists_cons_of_ne_nil hcd
  have hch : jsIsWhitespace ch = false := by
    rw [hcc] at hdw
    exact head_notWs_of_dropWhile_stable ch crest hdw
  unfold jsTrimC
  rw [hcc, List.cons_append, dropWhileWs_cons_notWs _ _ hch, ← List.cons_append, ← hcc,
    trimRightWs_append_ws _ _ (by decide), htr]

/-! ## Round-trip, Facebook: section shape and per-section parse -/

private lemma data_ne_nil (s : String) (h : s ≠ "") : s.data ≠ [] := by
  intro hd
  exact h (congrArg String.mk hd)

private def fbSecLines (n : Nat) (p : FacebookPost) : List (List Char) :=
  ("## Post ".data ++ (natDecimal n).data) :: [] ::
    ("**Author:** ".data ++ p.author.data) ::
    ("**URL:** ".data ++ p.url.data) :: [] :: "### Content".data :: [] ::
    splitLinesC p.content.data

private lemma fbSection_data (n : Nat) (p : FacebookPost) (hurl : ¬ p.url = "") :
    (fbSection n p).data = joinNl (fbSecLines n p) := by
  have hA : joinNl (fbSecLines n p) =
      ("## Post ".data ++ (natDecimal n).data) ++ '\n' :: ([] ++ '\n' ::
        (("**Author:** ".data ++ p.author.data) ++ '\n' ::
          (("**URL:** ".data ++ p.url.data) ++ '\n' :: ([] ++ '\n' ::
            ("### Content".data ++ '\n' :: ([] ++ '\n' :: p.content.data)))))) := by
    rw [show fbSecLines n p = ["## Post ".data ++ (natDecimal n).data, [],
        "**Author:** ".data ++ p.author.data, "**URL:** ".data ++ p.url.data, [],
        "### Content".data, []] ++ splitLinesC p.content.data from rfl,
      joinNl_append _ _ (by simp) (splitLinesC_ne_nil _), joinNl_splitLinesC]
    simp [joinNl, List.append_assoc]
  rw [hA]
  unfold fbSection
  rw [if_neg hurl]
  simp only [data_append, List.append_assoc, List.cons_append, List.nil_append]

private lemma fb_scan (n : Nat) (p : FacebookPost)
    (ha : jsTrimC p.author.data = p.author.data)
    (hu : jsTrimC p.url.data = p.url.data) (T : List (List Char)) :
    scanMeta ⟨[], [], [], [], []⟩ ((fbSecLines n p ++ T).drop 1) =
      (⟨p.author.data, p.url.data, [], [], []⟩,
        some ([] :: (splitLinesC p.content.data ++ T))) := by
  have hdrop : (fbSecLines n p ++ T).drop 1 =
      [] :: (("**Author:** ".data ++ p.author.data) ::
        (("**URL:** ".data ++ p.url.data) :: ([] :: ("### Content".data ::
          ([] :: (splitLinesC p.content.data ++ T)))))) := by
    simp [fbSecLines]
  rw [hdrop, scanMeta_empty, scanMeta_author, scanMeta_url, scanMeta_empty,
    scanMeta_content, jsTrimC_cons_ws ' ' p.author.data (by decide), ha,
    jsTrimC_cons_ws ' ' p.url.data (by decide), hu]

private lemma fb_noNl (n : Nat) (p : FacebookPost)
    (hanl : '\n' ∉ p.author.data) (hunl : '\n' ∉ p.url.data) (T : List (List Char))
    (hTn : ∀ l ∈ T, '\n' ∉ l) :
    ∀ l ∈ fbSecLines n p ++ T, '\n' ∉ l := by
  intro x hx
  rcases List.mem_append.mp hx with hx | hx
  · simp only [fbSecLines, List.mem_cons] at hx
    rcases hx with rfl | rfl | rfl | rfl | rfl | rfl | rfl | hx
    · exact noNl_append _ _ (by decide) (noNl_natDecimal n)
    · simp
    · exact noNl_append _ _ (by decide) hanl
    · exact noNl_append _ _ (by decide) hunl
    · simp
    · decide
    · simp
    · exact splitLinesC_mem_noNl _ x hx
  · exact hTn x hx

private lemma fb_tail_noHead (n : Nat) (p : FacebookPost)
    (hcl : ∀ l ∈ splitLinesC p.content.data, isSectionHeadAt l = false)
    (T : List (List Char)) (hTh : ∀ l ∈ T, isSectionHeadAt l = false) :
    ∀ l ∈ (fbSecLines n p ++ T).tail, isSectionHeadAt l = false := by
  intro x hx
  simp only [fbSecLines, List.cons_append, List.tail_cons, List.mem_cons] at hx
  rcases hx with rfl | rfl | rfl | rfl | rfl | rfl | hx
  · rfl
  · rfl
  · rfl
  · rfl
  · rfl
  · rfl
  · rcases List.mem_append.mp hx with hx | hx
    · exact hcl x hx
    · exact hTh x hx

private lemma fb_parseSection (n : Nat) (p : FacebookPost) (hp : NiceFbPost p)
    (T : List (List Char)) (hT : T = [[]] ∨ T = [[], "---".data, [], []]) :
    parseSection (joinNl (fbSecLines n p ++ T)) = fbParsedPost n p := by
  obtain ⟨⟨hadw, hatr, hanl⟩, ⟨hudw, hutr, hunl⟩, hune, hcdw, hctr, hcne, hcsuf, hcl⟩ := hp
  have hcd : p.content.data ≠ [] := data_ne_nil _ hcne
  have hsl : splitLinesC (joinNl (fbSecLines n p ++ T)) = fbSecLines n p ++ T :=
    splitLinesC_joinNl _ (by simp [fbSecLines])
      (fb_noNl n p hanl hunl T (by rcases hT with rfl | rfl <;> decide))
  have hscan := fb_scan n p (jsTrimC_nice p.author hadw hatr)
    (jsTrimC_nice p.url hudw hutr) T
  have hsm : sectionMeta (fbSecLines n p ++ T) =
      ⟨p.author.data, p.url.data, [], [], []⟩ := by
    unfold sectionMeta
    rw [hscan]
  have hscl : sectionContentLines (fbSecLines n p ++ T) =
      [] :: (splitLinesC p.content.data ++ T) := by
    unfold sectionContentLines
    rw [hscan]
  have hmains : ∀ l ∈ splitLinesC p.content.data ++ T,
      ("### Quoted Tweet".data.isPrefixOf l) = false ∧
      ("### Retweeted Tweet".data.isPrefixOf l) = false := by
    intro x hx
    rcases List.mem_append.mp hx with hx | hx
    · exact ⟨(hcl x hx).2.1, (hcl x hx).2.2⟩
    · rcases hT with rfl | rfl <;> simp only [List.mem_cons] at hx
      · rcases hx with rfl | hx
        · exact ⟨rfl, rfl⟩
        · simp at hx
      · rcases hx with rfl | rfl | rfl | rfl | hx
        · exact ⟨rfl, rfl⟩
        · exact ⟨rfl, rfl⟩
        · exact ⟨rfl, rfl⟩
        · exact ⟨rfl, rfl⟩
        · simp at hx
  have hcsplit : contentSplit ([] :: (splitLinesC p.content.data ++ T)) =
      (splitLinesC p.content.data ++ T, []) := by
    unfold contentSplit
    rw [dropWhile_blank_content _ _ hcd hcdw, splitExtra_all_main _ hmains [] []]
    simp
  have hhead : (fbSecLines n p ++ T).head? =
      some ("## Post ".data ++ (natDecimal n).data) := by
    simp [fbSecLines]
  have hcontent : jsTrimC (stripTrailingSep
      (joinNl (contentSplit (sectionContentLines (fbSecLines n p ++ T))).1)) =
      p.content.data := by
    rw [hscl, hcsplit]
    rcases hT with rfl | rfl
    · exact content_last p.content hcdw hctr hcne hcsuf
    · exact content_mid p.content hcdw hctr hcne
  have hextra : (contentSplit (sectionContentLines (fbSecLines n p ++ T))).2 = [] := by
    rw [hscl, hcsplit]
  unfold parseSection
  rw [hsl, hsm, hhead, hcontent, hextra]
  rfl

private def fbFrags : Nat → List FacebookPost → List (List Char)
  | _, [] => []
  | n, [p] => [joinNl (fbSecLines n p ++ [[]])]
  | n, p :: q :: rest =>
      joinNl (fbSecLines n p ++ [[], "---".data, [], []]) :: fbFrags (n + 1) (q :: rest)

private lemma fbSection_head_text (m : Nat) (q : FacebookPost) (t : List Char) :
    isSectionHeadAt ((fbSection m q).data ++ t) = true := by
  unfold fbSection
  by_cases hu : q.url = ""
  · rw [if_pos hu]
    simp only [data_append, List.append_assoc]
    exact isSectionHeadAt_post _ _ (headIsDigit_natDecimal m)
  · rw [if_neg hu]
    simp only [data_append, List.append_assoc]
    exact isSectionHeadAt_post _ _ (headIsDigit_natDecimal m)

private lemma fb_tail_head (m : Nat) (q : FacebookPost) (qs : List FacebookPost)
    (t : List Char) :
    isSectionHeadAt
      ((joinSep "\n\n---\n\n" (sectionsFrom fbSection m (q :: qs))).data ++ t) = true := by
  cases qs with
  | nil => exact fbSection_head_text m q t
  | cons y ys =>
    rw [show joinSep "\n\n---\n\n" (sectionsFrom fbSection m (q :: y :: ys)) =
        fbSection m q ++ "\n\n---\n\n" ++
          joinSep "\n\n---\n\n" (sectionsFrom fbSection (m + 1) (y :: ys)) from rfl,
      data_append, data_append, List.append_assoc, List.append_assoc]
    exact fbSection_head_text m q _

private lemma fb_splitHeads_frags (ps : List FacebookPost) :
    ∀ n, ps ≠ [] → (∀ p ∈ ps, NiceFbPost p) →
    splitHeadsAux [] ((joinSep "\n\n---\n\n" (sectionsFrom fbSection n ps)).data ++ ['\n']) =
      fbFrags n ps := by
  induction ps with
  | nil => intro n h _; exact absurd rfl h
  | cons p qs ih =>
    intro n _ hnice
    obtain ⟨⟨hadw, hatr, hanl⟩, ⟨hudw, hutr, hunl⟩, hune, hcdw, hctr, hcne, hcsuf, hcl⟩ :=
      hnice p (by simp)
    cases qs with
    | nil =>
      have htext : (joinSep "\n\n---\n\n" (sectionsFrom fbSection n [p])).data ++ ['\n'] =
          joinNl (fbSecLines n p ++ [[]]) := by
        rw [show joinSep "\n\n---\n\n" (sectionsFrom fbSection n [p]) = fbSection n p
            from rfl, fbSection_data n p hune,
          joinNl_append _ _ (by simp [fbSecLines]) (by simp)]
        rfl
      rw [htext,
        splitHeadsAux_chunk_end _ (by simp [fbSecLines])
          (fb_noNl n p hanl hunl [[]] (by decide))
          (fb_tail_noHead n p (fun l hl => (hcl l hl).1) [[]] (by decide)) []]
      simp [fbFrags]
    | cons q qs2 =>
      have htext : (joinSep "\n\n---\n\n"
            (sectionsFrom fbSection n (p :: q :: qs2))).data ++ ['\n'] =
          joinNl (fbSecLines n p ++ [[], "---".data, []]) ++ '\n' ::
            ((joinSep "\n\n---\n\n" (sectionsFrom fbSection (n + 1) (q :: qs2))).data ++
              ['\n']) := by
        rw [show joinSep "\n\n---\n\n" (sectionsFrom fbSection n (p :: q :: qs2)) =
            fbSection n p ++ "\n\n---\n\n" ++
              joinSep "\n\n---\n\n" (sectionsFrom fbSection (n + 1) (q :: qs2)) from rfl,
          data_append, data_append, fbSection_data n p hune,
          joinNl_append _ _ (by simp [fbSecLines]) (by simp)]
        simp only [List.append_assoc, List.cons_append]
        rfl
      rw [htext,
        splitHeadsAux_chunk_cut _ (by simp [fbSecLines])
          (fb_noNl n p hanl hunl [[], "---".data, []] (by decide))
          (fb_tail_noHead n p (fun l hl => (hcl l hl).1) [[], "---".data, []] (by decide))
          _ (fb_tail_head (n + 1) q qs2 ['\n']) [],
        ih (n + 1) (by simp) (fun x hx => hnice x (List.mem_cons_of_mem _ hx))]
      rw [show fbFrags n (p :: q :: qs2) =
          joinNl (fbSecLines n p ++ [[], "---".data, [], []]) :: fbFrags (n + 1) (q :: qs2)
          from rfl]
      rw [joinNl_append _ _ (by simp [fbSecLines]) (by simp),
        joinNl_append _ _ (by simp [fbSecLines]) (by simp)]
      simp
      rfl

private lemma isSectionHeadAt_postLine (n : Nat) :
    isSectionHeadAt ("## Post ".data ++ (natDecimal n).data) = true := by
  rw [show ("## Post ".data ++ (natDecimal n).data) =
      "## Post ".data ++ ((natDecimal n).data ++ []) by simp]
  exact isSectionHeadAt_post _ _ (headIsDigit_natDecimal n)

private lemma isSectionHeadAt_emailLine (n : Nat) :
    isSectionHeadAt ("## Email ".data ++ (natDecimal n).data) = true := by
  rw [show ("## Email ".data ++ (natDecimal n).data) =
      "## Email ".data ++ ((natDecimal n).data ++ []) by simp]
  exact isSectionHeadAt_email _ _ (headIsDigit_natDecimal n)

private lemma fbFrag_isHead (n : Nat) (p : FacebookPost) (T : List (List Char)) :
    isSectionHeadAt (joinNl (fbSecLines n p ++ T)) = true := by
  rw [show fbSecLines n p ++ T = ("## Post ".data ++ (natDecimal n).data) ::
      ([] :: ("**Author:** ".data ++ p.author.data) ::
        ("**URL:** ".data ++ p.url.data) :: [] :: "### Content".data :: [] ::
        (splitLinesC p.content.data ++ T)) from by simp [fbSecLines],
    isSectionHeadAt_joinNl _ _ (by simp)]
  exact isSectionHeadAt_postLine n

private lemma fbFrags_parse (ps : List FacebookPost) :
    ∀ n, (∀ p ∈ ps, NiceFbPost p) →
      ((fbFrags n ps).filter (fun f => isSectionHeadAt f)).map parseSection =
        parsedFrom fbParsedPost n ps := by
  induction ps with
  | nil => intro n _; rfl
  | cons p qs ih =>
    intro n hnice
    cases qs with
    | nil =>
      rw [show fbFrags n [p] = [joinNl (fbSecLines n p ++ [[]])] from rfl,
        List.filter_cons_of_pos (by rw [fbFrag_isHead]),
        show parsedFrom fbParsedPost n [p] = [fbParsedPost n p] from rfl]
      simp only [List.filter_nil, List.map_cons, List.map_nil]
      rw [fb_parseSection n p (hnice p (by simp)) [[]] (Or.inl rfl)]
    | cons q qs2 =>
      rw [show fbFrags n (p :: q :: qs2) =
          joinNl (fbSecLines n p ++ [[], "---".data, [], []]) :: fbFrags (n + 1) (q :: qs2)
          from rfl,
        List.filter_cons_of_pos (by rw [fbFrag_isHead]),
        show parsedFrom fbParsedPost n (p :: q :: qs2) =
          fbParsedPost n p :: parsedFrom fbParsedPost (n + 1) (q :: qs2) from rfl,
        List.map_cons,
        fb_parseSection n p (hnice p (by simp)) [[], "---".data, [], []] (Or.inr rfl),
        ih (n + 1) (fun x hx => hnice x (List.mem_cons_of_mem _ hx))]

private lemma fb_parsePosts (ps : List FacebookPost) (p0 : FacebookPost)
    (ps' : List FacebookPost) (hps : ps = p0 :: ps')
    (hnice : ∀ p ∈ ps, NiceFbPost p) :
    parsePosts ⟨'\n' :: ("# Facebook Favorites Crawl".data ++ '\n' :: ('\n' ::
        ((joinSep "\n\n---\n\n" (sectionsFrom fbSection 1 ps)).data ++ ['\n'])))⟩ =
      ("# Facebook Favorites Crawl", parsedFrom fbParsedPost 1 ps) := by
  subst hps
  unfold parsePosts
  have htitle : mdTitle ⟨'\n' :: ("# Facebook Favorites Crawl".data ++ '\n' :: ('\n' ::
      ((joinSep "\n\n---\n\n" (sectionsFrom fbSection 1 (p0 :: ps'))).data ++ ['\n'])))⟩ =
      "# Facebook Favorites Crawl" := by
    unfold mdTitle
    rw [show ((⟨'\n' :: ("# Facebook Favorites Crawl".data ++ '\n' :: ('\n' ::
        ((joinSep "\n\n---\n\n" (sectionsFrom fbSection 1 (p0 :: ps'))).data ++
          ['\n'])))⟩ : String)).data = '\n' :: ("# Facebook Favorites Crawl".data ++
        '\n' :: ('\n' :: ((joinSep "\n\n---\n\n"
          (sectionsFrom fbSection 1 (p0 :: ps'))).data ++ ['\n']))) from rfl,
      show splitLinesC ('\n' :: ("# Facebook Favorites Crawl".data ++ '\n' :: ('\n' ::
        ((joinSep "\n\n---\n\n" (sectionsFrom fbSection 1 (p0 :: ps'))).data ++
          ['\n'])))) = [] :: splitLinesC ("# Facebook Favorites Crawl".data ++ '\n' ::
            ('\n' :: ((joinSep "\n\n---\n\n"
              (sectionsFrom fbSection 1 (p0 :: ps'))).data ++ ['\n'])))
        from by simp [splitLinesC],
      splitLinesC_append, splitLinesC_noNl _ (by decide)]
    rfl
  rw [htitle]
  have hsplit : splitHeads ('\n' :: ("# Facebook Favorites Crawl".data ++ '\n' :: ('\n' ::
      ((joinSep "\n\n---\n\n" (sectionsFrom fbSection 1 (p0 :: ps'))).data ++ ['\n'])))) =
      ('\n' :: ("# Facebook Favorites Crawl".data ++ ['\n', '\n'])) ::
        fbFrags 1 (p0 :: ps') := by
    unfold splitHeads
    rw [splitHeadsAux_nocut _ _ (by rw [isSectionHeadAt_append_nl]; rfl),
      splitHeadsAux_noNl _ (by decide),
      splitHeadsAux_nocut _ _ (by rfl),
      splitHeadsAux_cut _ _ (fb_tail_head 1 p0 ps' ['\n']),
      fb_splitHeads_frags (p0 :: ps') 1 (by simp) hnice]
    simp
  rw [hsplit, List.filter_cons_of_neg (by decide), fbFrags_parse (p0 :: ps') 1 hnice]

private lemma fb_roundtrip (ps : List FacebookPost) (ct : String) (r : StoppedReason)
    (hct : '\n' ∉ ct.data) (hq : ¬(ct.data ≠ [] ∧ ct.data.all Char.isDigit = true))
    (hps : ∀ p ∈ ps, NiceFbPost p) :
    parseMdFile (generateFacebookMD ps ct r) =
      some { frontmatter := mdFrontmatter "facebook" ct ps.length r,
             title := "# Facebook Favorites Crawl",
             posts := parsedFrom fbParsedPost 1 ps,
             raw := generateFacebookMD ps ct r } := by
  have hdoc : (generateFacebookMD ps ct r).data =
      "---\n".data ++ ("platform: facebook".data ++ '\n' ::
        (("crawlTime: \"".data ++ (ct.data ++ ['"'])) ++ '\n' ::
          (("postCount: ".data ++ (natDecimal ps.length).data) ++ '\n' ::
            (("stoppedReason: \"".data ++ ((r.render).data ++ ['"'])) ++ '\n' ::
              ("---\n".data ++ ('\n' :: ("# Facebook Favorites Crawl".data ++ '\n' ::
                ('\n' :: ((joinSep "\n\n---\n\n"
                  (sectionsFrom fbSection 1 ps)).data ++ ['\n']))))))))) := by
    unfold generateFacebookMD fmBlock
    simp only [data_append, List.append_assoc, List.cons_append, List.nil_append]
  have hfm := parseFrontmatter_doc (generateFacebookMD ps ct r)
    "platform: facebook".data "facebook" (by decide) (by rfl) ct hct hq ps.length r
    ('\n' :: ("# Facebook Favorites Crawl".data ++ '\n' :: ('\n' ::
      ((joinSep "\n\n---\n\n" (sectionsFrom fbSection 1 ps)).data ++ ['\n'])))) hdoc
  unfold parseMdFile
  rw [hfm]
  show some ({
      frontmatter := mdFrontmatter "facebook" ct ps.length r,
      title := (parsePosts ⟨'\n' :: ("# Facebook Favorites Crawl".data ++ '\n' :: ('\n' ::
        ((joinSep "\n\n---\n\n" (sectionsFrom fbSection 1 ps)).data ++ ['\n'])))⟩).1,
      posts := (parsePosts ⟨'\n' :: ("# Facebook Favorites Crawl".data ++ '\n' :: ('\n' ::
        ((joinSep "\n\n---\n\n" (sectionsFrom fbSection 1 ps)).data ++ ['\n'])))⟩).2,
      raw := generateFacebookMD ps ct r } : ParsedFile) = _
  cases ps with
  | nil => rfl
  | cons p0 ps' =>
    rw [fb_parsePosts (p0 :: ps') p0 ps' rfl hps]

/-! ## Round-trip, Gmail -/

private def gmSecLines (n : Nat) (e : GmailEmail) : List (List Char) :=
  ("## Email ".data ++ (natDecimal n).data) :: [] ::
    ("**From:** ".data ++ e.fromAddr.data) ::
    ("**Subject:** ".data ++ e.subject.data) ::
    ("**Date:** ".data ++ e.date.data) :: [] :: "### Content".data :: [] ::
    splitLinesC e.content.data

private lemma gmSection_data (n : Nat) (e : GmailEmail) :
    (gmSection n e).data = joinNl (gmSecLines n e) := by
  have hA : joinNl (gmSecLines n e) =
      ("## Email ".data ++ (natDecimal n).data) ++ '\n' :: ([] ++ '\n' ::
        (("**From:** ".data ++ e.fromAddr.data) ++ '\n' ::
          (("**Subject:** ".data ++ e.subject.data) ++ '\n' ::
            (("**Date:** ".data ++ e.date.data) ++ '\n' :: ([] ++ '\n' ::
              ("### Content".data ++ '\n' :: ([] ++ '\n' :: e.content.data))))))) := by
    rw [show gmSecLines n e = ["## Email ".data ++ (natDecimal n).data, [],
        "**From:** ".data ++ e.fromAddr.data, "**Subject:** ".data ++ e.subject.data,
        "**Date:** ".data ++ e.date.data, [],
        "### Content".data, []] ++ splitLinesC e.content.data from rfl,
      joinNl_append _ _ (by simp) (splitLinesC_ne_nil _), joinNl_splitLinesC]
    simp [joinNl, List.append_assoc]
  rw [hA]
  unfold gmSection
  simp only [data_append, List.append_assoc, List.cons_append, List.nil_append]

private lemma gm_scan (n : Nat) (e : GmailEmail)
    (hf : jsTrimC e.fromAddr.data = e.fromAddr.data)
    (hs : jsTrimC e.subject.data = e.subject.data)
    (hd : jsTrimC e.date.data = e.date.data) (T : List (List Char)) :
    scanMeta ⟨[], [], [], [], []⟩ ((gmSecLines n e ++ T).drop 1) =
      (⟨[], [], e.date.data, e.subject.data, e.fromAddr.data⟩,
        some ([] :: (splitLinesC e.content.data ++ T))) := by
  have hdrop : (gmSecLines n e ++ T).drop 1 =
      [] :: (("**From:** ".data ++ e.fromAddr.data) ::
        (("**Subject:** ".data ++ e.subject.data) ::
          (("**Date:** ".data ++ e.date.data) :: ([] :: ("### Content".data ::
            ([] :: (splitLinesC e.content.data ++ T))))))) := by
    simp [gmSecLines]
  rw [hdrop, scanMeta_empty, scanMeta_from, scanMeta_subject, scanMeta_date,
    scanMeta_empty, scanMeta_content, jsTrimC_cons_ws ' ' e.fromAddr.data (by decide), hf,
    jsTrimC_cons_ws ' ' e.subject.data (by decide), hs,
    jsTrimC_cons_ws ' ' e.date.data (by decide), hd]

private lemma gm_noNl (n : Nat) (e : GmailEmail)
    (hfnl : '\n' ∉ e.fromAddr.data) (hsnl : '\n' ∉ e.subject.data)
    (hdnl : '\n' ∉ e.date.data) (T : List (List Char))
    (hTn : ∀ l ∈ T, '\n' ∉ l) :
    ∀ l ∈ gmSecLines n e ++ T, '\n' ∉ l := by
  intro x hx
  rcases List.mem_append.mp hx with hx | hx
  · simp only [gmSecLines, List.mem_cons] at hx
    rcases hx with rfl | rfl | rfl | rfl | rfl | rfl | rfl | rfl | hx
    · exact noNl_append _ _ (by decide) (noNl_natDecimal n)
    · simp
    · exact noNl_append _ _ (by decide) hfnl
    · exact noNl_append _ _ (by decide) hsnl
    · exact noNl_append _ _ (by decide) hdnl
    · simp
    · decide
    · simp
    · exact splitLinesC_mem_noNl _ x hx
  · exact hTn x hx

private lemma gm_tail_noHead (n : Nat) (e : GmailEmail)
    (hcl : ∀ l ∈ splitLinesC e.content.data, isSectionHeadAt l = false)
    (T : List (List Char)) (hTh : ∀ l ∈ T, isSectionHeadAt l = false) :
    ∀ l ∈ (gmSecLines n e ++ T).tail, isSectionHeadAt l = false := by
  intro x hx
  simp only [gmSecLines, List.cons_append, List.tail_cons, List.mem_cons] at hx
  rcases hx with rfl | rfl | rfl | rfl | rfl | rfl | rfl | hx
  · rfl
  · rfl
  · rfl
  · rfl
  · rfl
  · rfl
  · rfl
  · rcases List.mem_append.mp hx with hx | hx
    · exact hcl x hx
    · exact hTh x hx

private lemma gm_parseSection (n : Nat) (e : GmailEmail) (he : NiceGmPost e)
    (T : List (List Char)) (hT : T = [[]] ∨ T = [[], "---".data, [], []]) :
    parseSection (joinNl (gmSecLines n e ++ T)) = gmParsedPost n e := by
  obtain ⟨⟨hfdw, hftr, hfnl⟩, ⟨hsdw, hstr, hsnl⟩, ⟨hddw, hdtr, hdnl⟩,
    hcdw, hctr, hcne, hcsuf, hcl⟩ := he
  have hcd : e.content.data ≠ [] := data_ne_nil _ hcne
  have hsl : splitLinesC (joinNl (gmSecLines n e ++ T)) = gmSecLines n e ++ T :=
    splitLinesC_joinNl _ (by simp [gmSecLines])
      (gm_noNl n e hfnl hsnl hdnl T (by rcases hT with rfl | rfl <;> decide))
  have hscan := gm_scan n e (jsTrimC_nice e.fromAddr hfdw hftr)
    (jsTrimC_nice e.subject hsdw hstr) (jsTrimC_nice e.date hddw hdtr) T
  have hsm : sectionMeta (gmSecLines n e ++ T) =
      ⟨[], [], e.date.data, e.subject.data, e.fromAddr.data⟩ := by
    unfold sectionMeta
    rw [hscan]
  have hscl : sectionContentLines (gmSecLines n e ++ T) =
      [] :: (splitLinesC e.content.data ++ T) := by
    unfold sectionContentLines
    rw [hscan]
  have hmains : ∀ l ∈ splitLinesC e.content.data ++ T,
      ("### Quoted Tweet".data.isPrefixOf l) = false ∧
      ("### Retweeted Tweet".data.isPrefixOf l) = false := by
    intro x hx
    rcases List.mem_append.mp hx with hx | hx
    · exact ⟨(hcl x hx).2.1, (hcl x hx).2.2⟩
    · rcases hT with rfl | rfl <;> simp only [List.mem_cons] at hx
      · rcases hx with rfl | hx
        · exact ⟨rfl, rfl⟩
        · simp at hx
      · rcases hx with rfl | rfl | rfl | rfl | hx
        · exact ⟨rfl, rfl⟩
        · exact ⟨rfl, rfl⟩
        · exact ⟨rfl, rfl⟩
        · exact ⟨rfl, rfl⟩
        · simp at hx
  have hcsplit : contentSplit ([] :: (splitLinesC e.content.data ++ T)) =
      (splitLinesC e.content.data ++ T, []) := by
    unfold contentSplit
    rw [dropWhile_blank_content _ _ hcd hcdw, splitExtra_all_main _ hmains [] []]
    simp
  have hhead : (gmSecLines n e ++ T).head? =
      some ("## Email ".data ++ (natDecimal n).data) := by
    simp [gmSecLines]
  have hcontent : jsTrimC (stripTrailingSep
      (joinNl (contentSplit (sectionContentLines (gmSecLines n e ++ T))).1)) =
      e.content.data := by
    rw [hscl, hcsplit]
    rcases hT with rfl | rfl
    · exact content_last e.content hcdw hctr hcne hcsuf
    · exact content_mid e.content hcdw hctr hcne
  have hextra : (contentSplit (sectionContentLines (gmSecLines n e ++ T))).2 = [] := by
    rw [hscl, hcsplit]
  unfold parseSection
  rw [hsl, hsm, hhead, hcontent, hextra]
  rfl

private def gmFrags : Nat → List GmailEmail → List (List Char)
  | _, [] => []
  | n, [e] => [joinNl (gmSecLines n e ++ [[]])]
  | n, e :: q :: rest =>
      joinNl (gmSecLines n e ++ [[], "---".data, [], []]) :: gmFrags (n + 1) (q :: rest)

private lemma gmSection_head_text (m : Nat) (q : GmailEmail) (t : List Char) :
    isSectionHeadAt ((gmSection m q).data ++ t) = true := by
  unfold gmSection
  simp only [data_append, List.append_assoc]
  exact isSectionHeadAt_email _ _ (headIsDigit_natDecimal m)

private lemma gm_tail_head (m : Nat) (q : GmailEmail) (qs : List GmailEmail)
    (t : List Char) :
    isSectionHeadAt
      ((joinSep "\n\n---\n\n" (sectionsFrom gmSection m (q :: qs))).data ++ t) = true := by
  cases qs with
  | nil => exact gmSection_head_text m q t
  | cons y ys =>
    rw [show joinSep "\n\n---\n\n" (sectionsFrom gmSection m (q :: y :: ys)) =
        gmSection m q ++ "\n\n---\n\n" ++
          joinSep "\n\n---\n\n" (sectionsFrom gmSection (m + 1) (y :: ys)) from rfl,
      data_append, data_append, List.append_assoc, List.append_assoc]
    exact gmSection_head_text m q _

private lemma gm_splitHeads_frags (ps : List GmailEmail) :
    ∀ n, ps ≠ [] → (∀ e ∈ ps, NiceGmPost e) →
    splitHeadsAux [] ((joinSep "\n\n---\n\n" (sectionsFrom gmSection n ps)).data ++ ['\n']) =
      gmFrags n ps := by
  induction ps with
  | nil => intro n h _; exact absurd rfl h
  | cons p qs ih =>
    intro n _ hnice
    obtain ⟨⟨hfdw, hftr, hfnl⟩, ⟨hsdw, hstr, hsnl⟩, ⟨hddw, hdtr, hdnl⟩,
      hcdw, hctr, hcne, hcsuf, hcl⟩ := hnice p (by simp)
    cases qs with
    | nil =>
      have htext : (joinSep "\n\n---\n\n" (sectionsFrom gmSection n [p])).data ++ ['\n'] =
          joinNl (gmSecLines n p ++ [[]]) := by
        rw [show joinSep "\n\n---\n\n" (sectionsFrom gmSection n [p]) = gmSection n p
            from rfl, gmSection_data n p,
          joinNl_append _ _ (by simp [gmSecLines]) (by simp)]
        rfl
      rw [htext,
        splitHeadsAux_chunk_end _ (by simp [gmSecLines])
          (gm_noNl n p hfnl hsnl hdnl [[]] (by decide))
          (gm_tail_noHead n p (fun l hl => (hcl l hl).1) [[]] (by decide)) []]
      simp [gmFrags]
    | cons q qs2 =>
      have htext : (joinSep "\n\n---\n\n"
            (sectionsFrom gmSection n (p :: q :: qs2))).data ++ ['\n'] =
          joinNl (gmSecLines n p ++ [[], "---".data, []]) ++ '\n' ::
            ((joinSep "\n\n---\n\n" (sectionsFrom gmSection (n + 1) (q :: qs2))).data ++
              ['\n']) := by
        rw [show joinSep "\n\n---\n\n" (sectionsFrom gmSection n (p :: q :: qs2)) =
            gmSection n p ++ "\n\n---\n\n" ++
              joinSep "\n\n---\n\n" (sectionsFrom gmSection (n + 1) (q :: qs2)) from rfl,
          data_append, data_append, gmSection_data n p,
          joinNl_append _ _ (by simp [gmSecLines]) (by simp)]
        simp only [List.append_assoc, List.cons_append]
        rfl
      rw [htext,
        splitHeadsAux_chunk_cut _ (by simp [gmSecLines])
          (gm_noNl n p hfnl hsnl hdnl [[], "---".data, []] (by decide))
          (gm_tail_noHead n p (fun l hl => (hcl l hl).1) [[], "---".data, []] (by decide))
          _ (gm_tail_head (n + 1) q qs2 ['\n']) [],
        ih (n + 1) (by simp) (fun x hx => hnice x (List.mem_cons_of_mem _ hx))]
      rw [show gmFrags n (p :: q :: qs2) =
          joinNl (gmSecLines n p ++ [[], "---".data, [], []]) :: gmFrags (n + 1) (q :: qs2)
          from rfl]
      rw [joinNl_append _ _ (by simp [gmSecLines]) (by simp),
        joinNl_append _ _ (by simp [gmSecLines]) (by simp)]
      simp
      rfl

private lemma gmFrag_isHead (n : Nat) (e : GmailEmail) (T : List (List Char)) :
    isSectionHeadAt (joinNl (gmSecLines n e ++ T)) = true := by
  rw [show gmSecLines n e ++ T = ("## Email ".data ++ (natDecimal n).data) ::
      ([] :: ("**From:** ".data ++ e.fromAddr.data) ::
        ("**Subject:** ".data ++ e.subject.data) ::
        ("**Date:** ".data ++ e.date.data) :: [] :: "### Content".data :: [] ::
        (splitLinesC e.content.data ++ T)) from by simp [gmSecLines],
    isSectionHeadAt_joinNl _ _ (by simp)]
  exact isSectionHeadAt_emailLine n

private lemma gmFrags_parse (ps : List GmailEmail) :
    ∀ n, (∀ e ∈ ps, NiceGmPost e) →
      ((gmFrags n ps).filter (fun f => isSectionHeadAt f)).map parseSection =
        parsedFrom gmParsedPost n ps := by
  induction ps with
  | nil => intro n _; rfl
  | cons p qs ih =>
    intro n hnice
    cases qs with
    | nil =>
      rw [show gmFrags n [p] = [joinNl (gmSecLines n p ++ [[]])] from rfl,
        List.filter_cons_of_pos (by rw [gmFrag_isHead]),
        show parsedFrom gmParsedPost n [p] = [gmParsedPost n p] from rfl]
      simp only [List.filter_nil, List.map_cons, List.map_nil]
      rw [gm_parseSection n p (hnice p (by simp)) [[]] (Or.inl rfl)]
    | cons q qs2 =>
      rw [show gmFrags n (p :: q :: qs2) =
          joinNl (gmSecLines n p ++ [[], "---".data, [], []]) :: gmFrags (n + 1) (q :: qs2)
          from rfl,
        List.filter_cons_of_pos (by rw [gmFrag_isHead]),
        show parsedFrom gmParsedPost n (p :: q :: qs2) =
          gmParsedPost n p :: parsedFrom gmParsedPost (n + 1) (q :: qs2) from rfl,
        List.map_cons,
        gm_parseSection n p (hnice p (by simp)) [[], "---".data, [], []] (Or.inr rfl),
        ih (n + 1) (fun x hx => hnice x (List.mem_cons_of_mem _ hx))]

private lemma gm_parsePosts (ps : List GmailEmail) (p0 : GmailEmail)
    (ps' : List GmailEmail) (hps : ps = p0 :: ps')
    (hnice : ∀ e ∈ ps, NiceGmPost e) :
    parsePosts ⟨'\n' :: ("# Gmail Newsletter Crawl".data ++ '\n' :: ('\n' ::
        ((joinSep "\n\n---\n\n" (sectionsFrom gmSection 1 ps)).data ++ ['\n'])))⟩ =
      ("# Gmail Newsletter Crawl", parsedFrom gmParsedPost 1 ps) := by
  subst hps
  unfold parsePosts
  have htitle : mdTitle ⟨'\n' :: ("# Gmail Newsletter Crawl".data ++ '\n' :: ('\n' ::
      ((joinSep "\n\n---\n\n" (sectionsFrom gmSection 1 (p0 :: ps'))).data ++ ['\n'])))⟩ =
      "# Gmail Newsletter Crawl" := by
    unfold mdTitle
    rw [show ((⟨'\n' :: ("# Gmail Newsletter Crawl".data ++ '\n' :: ('\n' ::
        ((joinSep "\n\n---\n\n" (sectionsFrom gmSection 1 (p0 :: ps'))).data ++
          ['\n'])))⟩ : String)).data = '\n' :: ("# Gmail Newsletter Crawl".data ++
        '\n' :: ('\n' :: ((joinSep "\n\n---\n\n"
          (sectionsFrom gmSection 1 (p0 :: ps'))).data ++ ['\n']))) from rfl,
      show splitLinesC ('\n' :: ("# Gmail Newsletter Crawl".data ++ '\n' :: ('\n' ::
        ((joinSep "\n\n---\n\n" (sectionsFrom gmSection 1 (p0 :: ps'))).data ++
          ['\n'])))) = [] :: splitLinesC ("# Gmail Newsletter Crawl".data ++ '\n' ::
            ('\n' :: ((joinSep "\n\n---\n\n"
              (sectionsFrom gmSection 1 (p0 :: ps'))).data ++ ['\n'])))
        from by simp [splitLinesC],
      splitLinesC_append, splitLinesC_noNl _ (by decide)]
    rfl
  rw [htitle]
  have hsplit : splitHeads ('\n' :: ("# Gmail Newsletter Crawl".data ++ '\n' :: ('\n' ::
      ((joinSep "\n\n---\n\n" (sectionsFrom gmSection 1 (p0 :: ps'))).data ++ ['\n'])))) =
      ('\n' :: ("# Gmail Newsletter Crawl".data ++ ['\n', '\n'])) ::
        gmFrags 1 (p0 :: ps') := by
    unfold splitHeads
    rw [splitHeadsAux_nocut _ _ (by rw [isSectionHeadAt_append_nl]; rfl),
      splitHeadsAux_noNl _ (by decide),
      splitHeadsAux_nocut _ _ (by rfl),
      splitHeadsAux_cut _ _ (gm_tail_head 1 p0 ps' ['\n']),
      gm_splitHeads_frags (p0 :: ps') 1 (by simp) hnice]
    simp
  rw [hsplit, List.filter_cons_of_neg (by decide), gmFrags_parse (p0 :: ps') 1 hnice]

private lemma gm_roundtrip (es : List GmailEmail) (ct : String) (r : StoppedReason)
    (hct : '\n' ∉ ct.data) (hq : ¬(ct.data ≠ [] ∧ ct.data.all Char.isDigit = true))
    (hes : ∀ e ∈ es, NiceGmPost e) :
    parseMdFile (generateGmailMD es ct r) =
      some { frontmatter := mdFrontmatter "gmail" ct es.length r,
             title := "# Gmail Newsletter Crawl",
             posts := parsedFrom gmParsedPost 1 es,
             raw := generateGmailMD es ct r } := by
  have hdoc : (generateGmailMD es ct r).data =
      "---\n".data ++ ("platform: gmail".data ++ '\n' ::
        (("crawlTime: \"".data ++ (ct.data ++ ['"'])) ++ '\n' ::
          (("postCount: ".data ++ (natDecimal es.length).data) ++ '\n' ::
            (("stoppedReason: \"".data ++ ((r.render).data ++ ['"'])) ++ '\n' ::
              ("---\n".data ++ ('\n' :: ("# Gmail Newsletter Crawl".data ++ '\n' ::
                ('\n' :: ((joinSep "\n\n---\n\n"
                  (sectionsFrom gmSection 1 es)).data ++ ['\n']))))))))) := by
    unfold generateGmailMD fmBlock
    simp only [data_append, List.append_assoc, List.cons_append, List.nil_append]
  have hfm := parseFrontmatter_doc (generateGmailMD es ct r)
    "platform: gmail".data "gmail" (by decide) (by rfl) ct hct hq es.length r
    ('\n' :: ("# Gmail Newsletter Crawl".data ++ '\n' :: ('\n' ::
      ((joinSep "\n\n---\n\n" (sectionsFrom gmSection 1 es)).data ++ ['\n'])))) hdoc
  unfold parseMdFile
  rw [hfm]
  show some ({
      frontmatter := mdFrontmatter "gmail" ct es.length r,
      title := (parsePosts ⟨'\n' :: ("# Gmail Newsletter Crawl".data ++ '\n' :: ('\n' ::
        ((joinSep "\n\n---\n\n" (sectionsFrom gmSection 1 es)).data ++ ['\n'])))⟩).1,
      posts := (parsePosts ⟨'\n' :: ("# Gmail Newsletter Crawl".data ++ '\n' :: ('\n' ::
        ((joinSep "\n\n---\n\n" (sectionsFrom gmSection 1 es)).data ++ ['\n'])))⟩).2,
      raw := generateGmailMD es ct r } : ParsedFile) = _
  cases es with
  | nil => rfl
  | cons p0 ps' =>
    rw [gm_parsePosts (p0 :: ps') p0 ps' rfl hes]

/-! ## Round-trip, Twitter -/

private def twQLines (p : TwitterPost) : List (List Char) :=
  match p.quotedContent with
  | some q =>
    if q = "" then [] else [[], "### Quoted Tweet".data, []] ++ splitLinesC q.data
  | none => []

private def twRLines (p : TwitterPost) : List (List Char) :=
  match p.retweetedContent with
  | some r =>
    if r = "" then [] else [[], "### Retweeted Tweet".data, []] ++ splitLinesC r.data
  | none => []

private def twSecLines (n : Nat) (p : TwitterPost) : List (List Char) :=
  ("## Post ".data ++ (natDecimal n).data) :: [] ::
    ("**Author:** ".data ++ (p.author.data ++ (" (@".data ++ (p.username.data ++ [')'])))) ::
    ("**Date:** ".data ++ p.createdAt.data) ::
    ("**URL:** ".data ++ p.url.data) :: [] :: "### Content".data :: [] ::
    (splitLinesC p.content.data ++ (twQLines p ++ twRLines p))

private lemma joinNl_marker (M : List Char) (B : List (List Char)) (hB : B ≠ []) :
    joinNl (([[], M, []] ++ B : List (List Char))) =
      '\n' :: (M ++ '\n' :: '\n' :: joinNl B) := by
  rw [joinNl_append [[], M, []] B (by simp) hB]
  simp [joinNl, List.append_assoc]

private lemma twQ_cases (p : TwitterPost) :
    (twQLines p = [] ∧ (twQChunk p).data = [] ∧
      (p.quotedContent = none ∨ p.quotedContent = some "")) ∨
    (∃ q : String, q ≠ "" ∧ p.quotedContent = some q ∧
      twQLines p = [[], "### Quoted Tweet".data, []] ++ splitLinesC q.data ∧
      (twQChunk p).data = "\n\n### Quoted Tweet\n\n".data ++ q.data) := by
  unfold twQLines twQChunk
  cases hq : p.quotedContent with
  | none => exact Or.inl ⟨rfl, rfl, Or.inl rfl⟩
  | some q =>
    by_cases hqe : q = ""
    · exact Or.inl ⟨by simp [hqe], by simp [hqe], Or.inr (by rw [hqe])⟩
    · exact Or.inr ⟨q, hqe, rfl, by simp [hqe], by simp [hqe, data_append]⟩

private lemma twR_cases (p : TwitterPost) :
    (twRLines p = [] ∧ (twRChunk p).data = [] ∧
      (p.retweetedContent = none ∨ p.retweetedContent = some "")) ∨
    (∃ r : String, r ≠ "" ∧ p.retweetedContent = some r ∧
      twRLines p = [[], "### Retweeted Tweet".data, []] ++ splitLinesC r.data ∧
      (twRChunk p).data = "\n\n### Retweeted Tweet\n\n".data ++ r.data) := by
  unfold twRLines twRChunk
  cases hr : p.retweetedContent with
  | none => exact Or.inl ⟨rfl, rfl, Or.inl rfl⟩
  | some r =>
    by_cases hre : r = ""
    · exact Or.inl ⟨by simp [hre], by simp [hre], Or.inr (by rw [hre])⟩
    · exact Or.inr ⟨r, hre, rfl, by simp [hre], by simp [hre, data_append]⟩

private lemma joinNl_contentRegion (c : String) (QL RL : List (List Char))
    (QC RC : List Char)
    (hQ : (QL = [] ∧ QC = []) ∨ (∃ q : String,
      QL = [[], "### Quoted Tweet".data, []] ++ splitLinesC q.data ∧
      QC = "\n\n### Quoted Tweet\n\n".data ++ q.data))
    (hR : (RL = [] ∧ RC = []) ∨ (∃ r : String,
      RL = [[], "### Retweeted Tweet".data, []] ++ splitLinesC r.data ∧
      RC = "\n\n### Retweeted Tweet\n\n".data ++ r.data)) :
    joinNl (splitLinesC c.data ++ (QL ++ RL)) = c.data ++ (QC ++ RC) := by
  rcases hQ with ⟨rfl, rfl⟩ | ⟨q, rfl, rfl⟩ <;> rcases hR with ⟨rfl, rfl⟩ | ⟨r, rfl, rfl⟩
  · simp [joinNl_splitLinesC]
  · rw [List.nil_append, joinNl_append _ _ (splitLinesC_ne_nil _) (by simp),
      joinNl_marker _ _ (splitLinesC_ne_nil _), joinNl_splitLinesC, joinNl_splitLinesC,
      List.nil_append]
    rfl
  · rw [List.append_nil, joinNl_append _ _ (splitLinesC_ne_nil _) (by simp),
      joinNl_marker _ _ (splitLinesC_ne_nil _), joinNl_splitLinesC, joinNl_splitLinesC,
      List.append_nil]
    rfl
  · rw [show ([[], "### Quoted Tweet".data, []] ++ splitLinesC q.data) ++
        ([[], "### Retweeted Tweet".data, []] ++ splitLinesC r.data) =
        [[], "### Quoted Tweet".data, []] ++ (splitLinesC q.data ++
          ([[], "### Retweeted Tweet".data, []] ++ splitLinesC r.data)) from by
        simp [List.append_assoc],
      joinNl_append _ _ (splitLinesC_ne_nil _) (by simp),
      joinNl_marker _ _ (by
        intro h
        exact absurd (List.append_eq_nil.mp h).1 (splitLinesC_ne_nil _)),
      joinNl_append _ _ (splitLinesC_ne_nil _) (by simp),
      joinNl_marker _ _ (splitLinesC_ne_nil _),
      joinNl_splitLinesC, joinNl_splitLinesC, joinNl_splitLinesC]
    rfl

private lemma twSection_data (n : Nat) (p : TwitterPost) :
    (twSection n p).data = joinNl (twSecLines n p) := by
  have hL9 : splitLinesC p.content.data ++ (twQLines p ++ twRLines p) ≠ [] := by
    intro h
    exact absurd (List.append_eq_nil.mp h).1 (splitLinesC_ne_nil _)
  have hshape : joinNl (twSecLines n p) =
      ("## Post ".data ++ (natDecimal n).data) ++ '\n' :: ([] ++ '\n' ::
        (("**Author:** ".data ++ (p.author.data ++ (" (@".data ++
          (p.username.data ++ [')'])))) ++ '\n' ::
          (("**Date:** ".data ++ p.createdAt.data) ++ '\n' ::
            (("**URL:** ".data ++ p.url.data) ++ '\n' :: ([] ++ '\n' ::
              ("### Content".data ++ '\n' :: ([] ++ '\n' ::
                joinNl (splitLinesC p.content.data ++
                  (twQLines p ++ twRLines p))))))))) := by
    rw [show twSecLines n p = ["## Post ".data ++ (natDecimal n).data, [],
        "**Author:** ".data ++ (p.author.data ++ (" (@".data ++ (p.username.data ++ [')']))),
        "**Date:** ".data ++ p.createdAt.data, "**URL:** ".data ++ p.url.data, [],
        "### Content".data, []] ++
        (splitLinesC p.content.data ++ (twQLines p ++ twRLines p)) from rfl,
      joinNl_append _ _ (by simp) hL9]
    simp [joinNl, List.append_assoc]
  have hQ' : (twQLines p = [] ∧ (twQChunk p).data = []) ∨ (∃ q : String,
      twQLines p = [[], "### Quoted Tweet".data, []] ++ splitLinesC q.data ∧
      (twQChunk p).data = "\n\n### Quoted Tweet\n\n".data ++ q.data) := by
    rcases twQ_cases p with ⟨h1, h2, -⟩ | ⟨q, _, _, h1, h2⟩
    · exact Or.inl ⟨h1, h2⟩
    · exact Or.inr ⟨q, h1, h2⟩
  have hR' : (twRLines p = [] ∧ (twRChunk p).data = []) ∨ (∃ r : String,
      twRLines p = [[], "### Retweeted Tweet".data, []] ++ splitLinesC r.data ∧
      (twRChunk p).data = "\n\n### Retweeted Tweet\n\n".data ++ r.data) := by
    rcases twR_cases p with ⟨h1, h2, -⟩ | ⟨r, _, _, h1, h2⟩
    · exact Or.inl ⟨h1, h2⟩
    · exact Or.inr ⟨r, h1, h2⟩
  rw [hshape, joinNl_contentRegion p.content _ _ _ _ hQ' hR']
  unfold twSection
  simp only [data_append, List.append_assoc, List.cons_append, List.nil_append]

private lemma jsTrimC_combined (a un : List Char)
    (ha : a.dropWhile jsIsWhitespace = a) (hane : a ≠ []) :
    jsTrimC (a ++ (" (@".data ++ (un ++ [')']))) =
      a ++ (" (@".data ++ (un ++ [')'])) := by
  obtain ⟨c0, a', rfl⟩ := List.exists_cons_of_ne_nil hane
  have hc0 : jsIsWhitespace c0 = false := head_notWs_of_dropWhile_stable _ _ ha
  unfold jsTrimC
  rw [show (c0 :: a') ++ (" (@".data ++ (un ++ [')'])) =
      c0 :: (a' ++ (" (@".data ++ (un ++ [')']))) from rfl,
    dropWhileWs_cons_notWs _ _ hc0,
    show c0 :: (a' ++ (" (@".data ++ (un ++ [')']))) =
      (c0 :: (a' ++ (" (@".data ++ un))) ++ [')'] from by simp,
    trimRightWs_concat_notWs _ _ (by decide)]

private lemma tw_scan (n : Nat) (p : TwitterPost)
    (ha : jsTrimC (p.author.data ++ (" (@".data ++ (p.username.data ++ [')']))) =
      p.author.data ++ (" (@".data ++ (p.username.data ++ [')'])))
    (hd : jsTrimC p.createdAt.data = p.createdAt.data)
    (hu : jsTrimC p.url.data = p.url.data) (T : List (List Char)) :
    scanMeta ⟨[], [], [], [], []⟩ ((twSecLines n p ++ T).drop 1) =
      (⟨p.author.data ++ (" (@".data ++ (p.username.data ++ [')'])), p.url.data,
        p.createdAt.data, [], []⟩,
        some ([] :: ((splitLinesC p.content.data ++ (twQLines p ++ twRLines p)) ++ T))) := by
  have hdrop : (twSecLines n p ++ T).drop 1 =
      [] :: (("**Author:** ".data ++
          (p.author.data ++ (" (@".data ++ (p.username.data ++ [')'])))) ::
        (("**Date:** ".data ++ p.createdAt.data) ::
          (("**URL:** ".data ++ p.url.data) :: ([] :: ("### Content".data ::
            ([] :: ((splitLinesC p.content.data ++ (twQLines p ++ twRLines p)) ++
              T))))))) := by
    simp [twSecLines]
  rw [hdrop, scanMeta_empty, scanMeta_author, scanMeta_date, scanMeta_url, scanMeta_empty,
    scanMeta_content,
    jsTrimC_cons_ws ' ' (p.author.data ++ (" (@".data ++ (p.username.data ++ [')'])))
      (by decide), ha,
    jsTrimC_cons_ws ' ' p.createdAt.data (by decide), hd,
    jsTrimC_cons_ws ' ' p.url.data (by decide), hu]

private lemma twQLines_noNl (p : TwitterPost) : ∀ l ∈ twQLines p, '\n' ∉ l := by
  intro x hx
  unfold twQLines at hx
  cases hq : p.quotedContent with
  | none => rw [hq] at hx; simp at hx
  | some q =>
    rw [hq] at hx
    replace hx : x ∈ (if q = "" then ([] : List (List Char)) else
      [[], "### Quoted Tweet".data, []] ++ splitLinesC q.data) := hx
    by_cases hqe : q = ""
    · rw [if_pos hqe] at hx; simp at hx
    · rw [if_neg hqe] at hx
      simp only [List.cons_append, List.mem_cons, List.nil_append] at hx
      rcases hx with rfl | rfl | rfl | hx
      · simp
      · decide
      · simp
      · exact splitLinesC_mem_noNl _ x hx

private lemma twRLines_noNl (p : TwitterPost) : ∀ l ∈ twRLines p, '\n' ∉ l := by
  intro x hx
  unfold twRLines at hx
  cases hr : p.retweetedContent with
  | none => rw [hr] at hx; simp at hx
  | some r =>
    rw [hr] at hx
    replace hx : x ∈ (if r = "" then ([] : List (List Char)) else
      [[], "### Retweeted Tweet".data, []] ++ splitLinesC r.data) := hx
    by_cases hre : r = ""
    · rw [if_pos hre] at hx; simp at hx
    · rw [if_neg hre] at hx
      simp only [List.cons_append, List.mem_cons, List.nil_append] at hx
      rcases hx with rfl | rfl | rfl | hx
      · simp
      · decide
      · simp
      · exact splitLinesC_mem_noNl _ x hx

private lemma tw_noNl (n : Nat) (p : TwitterPost)
    (hanl : '\n' ∉ p.author.data) (hunnl : '\n' ∉ p.username.data)
    (hdnl : '\n' ∉ p.createdAt.data) (hunl : '\n' ∉ p.url.data)
    (T : List (List Char)) (hTn : ∀ l ∈ T, '\n' ∉ l) :
    ∀ l ∈ twSecLines n p ++ T, '\n' ∉ l := by
  intro x hx
  rcases List.mem_append.mp hx with hx | hx
  · simp only [twSecLines, List.mem_cons] at hx
    rcases hx with rfl | rfl | rfl | rfl | rfl | rfl | rfl | rfl | hx
    · exact noNl_append _ _ (by decide) (noNl_natDecimal n)
    · simp
    · exact noNl_append _ _ (by decide) (noNl_append _ _ hanl
        (noNl_append _ _ (by decide) (noNl_append _ _ hunnl (by decide))))
    · exact noNl_append _ _ (by decide) hdnl
    · exact noNl_append _ _ (by decide) hunl
    · simp
    · decide
    · simp
    · rcases List.mem_append.mp hx with hx | hx
      · exact splitLinesC_mem_noNl _ x hx
      · rcases List.mem_append.mp hx with hx | hx
        · exact twQLines_noNl p x hx
        · exact twRLines_noNl p x hx
  · exact hTn x hx

private lemma twQLines_noHead (p : TwitterPost) (hqn : NiceExtra p.quotedContent) :
    ∀ l ∈ twQLines p, isSectionHeadAt l = false := by
  intro x hx
  unfold twQLines at hx
  cases hq : p.quotedContent with
  | none => rw [hq] at hx; simp at hx
  | some q =>
    rw [hq] at hx
    rw [hq] at hqn
    replace hx : x ∈ (if q = "" then ([] : List (List Char)) else
      [[], "### Quoted Tweet".data, []] ++ splitLinesC q.data) := hx
    by_cases hqe : q = ""
    · rw [if_pos hqe] at hx; simp at hx
    · rw [if_neg hqe] at hx
      simp only [List.cons_append, List.mem_cons, List.nil_append] at hx
      rcases hx with rfl | rfl | rfl | hx
      · rfl
      · decide
      · rfl
      · rcases hqn with hqn | hqn
        · exact absurd hqn hqe
        · exact hqn.2 x hx

private lemma twRLines_noHead (p : TwitterPost) (hrn : NiceExtra p.retweetedContent) :
    ∀ l ∈ twRLines p, isSectionHeadAt l = false := by
  intro x hx
  unfold twRLines at hx
  cases hr : p.retweetedContent with
  | none => rw [hr] at hx; simp at hx
  | some r =>
    rw [hr] at hx
    rw [hr] at hrn
    replace hx : x ∈ (if r = "" then ([] : List (List Char)) else
      [[], "### Retweeted Tweet".data, []] ++ splitLinesC r.data) := hx
    by_cases hre : r = ""
    · rw [if_pos hre] at hx; simp at hx
    · rw [if_neg hre] at hx
      simp only [List.cons_append, List.mem_cons, List.nil_append] at hx
      rcases hx with rfl | rfl | rfl | hx
      · rfl
      · decide
      · rfl
      · rcases hrn with hrn | hrn
        · exact absurd hrn hre
        · exact hrn.2 x hx

private lemma tw_tail_noHead (n : Nat) (p : TwitterPost)
    (hcl : ∀ l ∈ splitLinesC p.content.data, isSectionHeadAt l = false)
    (hqn : NiceExtra p.quotedContent) (hrn : NiceExtra p.retweetedContent)
    (T : List (List Char)) (hTh : ∀ l ∈ T, isSectionHeadAt l = false) :
    ∀ l ∈ (twSecLines n p ++ T).tail, isSectionHeadAt l = false := by
  intro x hx
  simp only [twSecLines, List.cons_append, List.tail_cons, List.mem_cons] at hx
  rcases hx with rfl | rfl | rfl | rfl | rfl | rfl | rfl | hx
  · rfl
  · rfl
  · rfl
  · rfl
  · rfl
  · rfl
  · rfl
  · rcases List.mem_append.mp hx with hx | hx
    · rcases List.mem_append.mp hx with hx | hx
      · exact hcl x hx
      · rcases List.mem_append.mp hx with hx | hx
        · exact twQLines_noHead p hqn x hx
        · exact twRLines_noHead p hrn x hx
    · exact hTh x hx

private lemma splitExtra_append_main (A : List (List Char))
    (hA : ∀ l ∈ A, ("### Quoted Tweet".data.isPrefixOf l) = false ∧
      ("### Retweeted Tweet".data.isPrefixOf l) = false) :
    ∀ main ex B, splitExtra main ex false (A ++ B) = splitExtra (main ++ A) ex false B := by
  induction A with
  | nil => intro main ex B; simp
  | cons l A ih =>
    intro main ex B
    rw [List.cons_append,
      splitExtra_main_cons main ex l _ (hA l (by simp)).1 (hA l (by simp)).2,
      ih (fun x hx => hA x (List.mem_cons_of_mem _ hx)),
      show (main ++ [l]) ++ A = main ++ l :: A by simp]

private lemma trimRightWs_append_stable (A q : List Char) (hq : trimRightWs q = q)
    (hqne : q ≠ []) : trimRightWs (A ++ q) = A ++ q := by
  induction A with
  | nil => simpa using hq
  | cons c A ih =>
    rw [List.cons_append, trimRightWs_cons_of_ne c _ (by
        rw [ih]
        intro h
        exact hqne (List.append_eq_nil.mp h).2), ih]

private lemma contentSplit_extra (c : String) (M : List Char) (Mrest : List (List Char))
    (hcd : c.data ≠ []) (hdw : c.data.dropWhile jsIsWhitespace = c.data)
    (hcl : ∀ l ∈ splitLinesC c.data,
      ("### Quoted Tweet".data.isPrefixOf l) = false ∧
      ("### Retweeted Tweet".data.isPrefixOf l) = false)
    (htrig : ("### Quoted Tweet".data.isPrefixOf M) = true ∨
      ("### Retweeted Tweet".data.isPrefixOf M) = true) :
    contentSplit ([] :: (splitLinesC c.data ++ ([] :: (M :: Mrest)))) =
      (splitLinesC c.data ++ [[]],
        (M :: Mrest).foldr (fun l acc => l ++ '\n' :: acc) []) := by
  unfold contentSplit
  rw [dropWhile_blank_content _ _ hcd hdw, splitExtra_append_main _ hcl [] [] _,
    splitExtra_main_cons _ _ [] _ (by decide) (by decide),
    splitExtra_trigger _ _ _ _ htrig]
  simp

private lemma jsTrimC_region (A q W : List Char)
    (hA : A.dropWhile jsIsWhitespace = A) (hAne : A ≠ [])
    (hq : trimRightWs q = q) (hqne : q ≠ [])
    (hW : ∀ c ∈ W, jsIsWhitespace c = true) :
    jsTrimC (A ++ (q ++ W)) = A ++ q := by
  obtain ⟨c0, A', rfl⟩ := List.exists_cons_of_ne_nil hAne
  have hc0 : jsIsWhitespace c0 = false := head_notWs_of_dropWhile_stable _ _ hA
  unfold jsTrimC
  rw [show (c0 :: A') ++ (q ++ W) = c0 :: (A' ++ (q ++ W)) from rfl,
    dropWhileWs_cons_notWs _ _ hc0,
    show c0 :: (A' ++ (q ++ W)) = ((c0 :: A') ++ q) ++ W from by simp,
    trimRightWs_append_ws _ _ hW, trimRightWs_append_stable _ _ hq hqne]

private lemma jsTrimC_region_dash (A W : List Char)
    (hA : A.dropWhile jsIsWhitespace = A) (hAne : A ≠ [])
    (hW : ∀ c ∈ W, jsIsWhitespace c = true) :
    jsTrimC ((A ++ ['-']) ++ W) = A ++ ['-'] := by
  obtain ⟨c0, A', rfl⟩ := List.exists_cons_of_ne_nil hAne
  have hc0 : jsIsWhitespace c0 = false := head_notWs_of_dropWhile_stable _ _ hA
  unfold jsTrimC
  rw [show ((c0 :: A') ++ ['-']) ++ W = c0 :: ((A' ++ ['-']) ++ W) from by simp,
    dropWhileWs_cons_notWs _ _ hc0,
    show c0 :: ((A' ++ ['-']) ++ W) = ((c0 :: A') ++ ['-']) ++ W from by simp,
    trimRightWs_append_ws _ _ hW, trimRightWs_concat_notWs _ _ (by decide)]

private lemma trailJoin_M (M : List Char) (R : List (List Char)) (hR : R ≠ []) :
    (M :: [] :: R).foldr (fun l acc => l ++ '\n' :: acc) [] =
      M ++ '\n' :: '\n' :: (joinNl R ++ ['\n']) := by
  rw [trailJoin_eq _ (by simp), joinNl_cons _ _ (by simp), joinNl_cons _ _ hR]
  simp

private lemma joinNl_slT_last (q : String) :
    joinNl (splitLinesC q.data ++ [[]]) = q.data ++ ['\n'] := by
  rw [joinNl_append _ _ (splitLinesC_ne_nil _) (by simp), joinNl_splitLinesC]
  rfl

private lemma joinNl_slT_mid (q : String) :
    joinNl (splitLinesC q.data ++ [[], "---".data, [], []]) =
      q.data ++ "\n\n---\n\n".data := by
  rw [joinNl_append _ _ (splitLinesC_ne_nil _) (by simp), joinNl_splitLinesC]
  rfl

private lemma joinNl_slT_ext (q : String) (X : List (List Char)) (hX : X ≠ []) :
    joinNl (splitLinesC q.data ++ ([] :: X)) = q.data ++ '\n' :: '\n' :: joinNl X := by
  rw [joinNl_append _ _ (splitLinesC_ne_nil _) (by simp), joinNl_splitLinesC,
    joinNl_cons _ _ hX]
  rfl

private lemma joinNl_M2 (M : List Char) (r : String) (T : List (List Char)) (hT : T ≠ []) :
    joinNl (M :: [] :: (splitLinesC r.data ++ T)) =
      M ++ '\n' :: '\n' :: (r.data ++ '\n' :: joinNl T) := by
  rw [joinNl_cons _ _ (by simp), joinNl_cons _ _ (by
      intro h
      exact absurd (List.append_eq_nil.mp h).1 (splitLinesC_ne_nil _)),
    joinNl_append _ _ (splitLinesC_ne_nil _) hT, joinNl_splitLinesC]
  simp

private lemma tw_extra_q_last (q : String) (hqtr : trimRightWs q.data = q.data)
    (hqne : q.data ≠ []) :
    jsTrimC (("### Quoted Tweet".data :: [] :: (splitLinesC q.data ++ [[]])).foldr
      (fun l acc => l ++ '\n' :: acc) []) = "### Quoted Tweet\n\n".data ++ q.data := by
  rw [trailJoin_M _ _ (by
      intro h
      exact absurd (List.append_eq_nil.mp h).1 (splitLinesC_ne_nil _)),
    joinNl_slT_last,
    show "### Quoted Tweet".data ++ '\n' :: '\n' :: ((q.data ++ ['\n']) ++ ['\n']) =
      "### Quoted Tweet\n\n".data ++ (q.data ++ ['\n', '\n']) from by
      simp only [List.append_assoc, List.cons_append, List.nil_append],
    jsTrimC_region _ _ _ (by decide) (by decide) hqtr hqne (by decide)]

private lemma tw_extra_q_mid (q : String) :
    jsTrimC (("### Quoted Tweet".data :: [] ::
        (splitLinesC q.data ++ [[], "---".data, [], []])).foldr
      (fun l acc => l ++ '\n' :: acc) []) =
      ("### Quoted Tweet\n\n".data ++ (q.data ++ "\n\n--".data)) ++ ['-'] := by
  rw [trailJoin_M _ _ (by
      intro h
      exact absurd (List.append_eq_nil.mp h).1 (splitLinesC_ne_nil _)),
    joinNl_slT_mid,
    show "### Quoted Tweet".data ++ '\n' :: '\n' ::
        ((q.data ++ "\n\n---\n\n".data) ++ ['\n']) =
      (("### Quoted Tweet\n\n".data ++ (q.data ++ "\n\n--".data)) ++ ['-']) ++
        ['\n', '\n', '\n'] from by
      simp only [List.append_assoc, List.cons_append, List.nil_append],
    jsTrimC_region_dash _ _ (by
      exact dropWhileWs_cons_notWs _ _ (by decide)) (by simp) (by decide)]

private lemma tw_extra_r_last (r : String) (hrtr : trimRightWs r.data = r.data)
    (hrne : r.data ≠ []) :
    jsTrimC (("### Retweeted Tweet".data :: [] :: (splitLinesC r.data ++ [[]])).foldr
      (fun l acc => l ++ '\n' :: acc) []) = "### Retweeted Tweet\n\n".data ++ r.data := by
  rw [trailJoin_M _ _ (by
      intro h
      exact absurd (List.append_eq_nil.mp h).1 (splitLinesC_ne_nil _)),
    joinNl_slT_last,
    show "### Retweeted Tweet".data ++ '\n' :: '\n' :: ((r.data ++ ['\n']) ++ ['\n']) =
      "### Retweeted Tweet\n\n".data ++ (r.data ++ ['\n', '\n']) from by
      simp only [List.append_assoc, List.cons_append, List.nil_append],
    jsTrimC_region _ _ _ (by decide) (by decide) hrtr hrne (by decide)]

private lemma tw_extra_r_mid (r : String) :
    jsTrimC (("### Retweeted Tweet".data :: [] ::
        (splitLinesC r.data ++ [[], "---".data, [], []])).foldr
      (fun l acc => l ++ '\n' :: acc) []) =
      ("### Retweeted Tweet\n\n".data ++ (r.data ++ "\n\n--".data)) ++ ['-'] := by
  rw [trailJoin_M _ _ (by
      intro h
      exact absurd (List.append_eq_nil.mp h).1 (splitLinesC_ne_nil _)),
    joinNl_slT_mid,
    show "### Retweeted Tweet".data ++ '\n' :: '\n' ::
        ((r.data ++ "\n\n---\n\n".data) ++ ['\n']) =
      (("### Retweeted Tweet\n\n".data ++ (r.data ++ "\n\n--".data)) ++ ['-']) ++
        ['\n', '\n', '\n'] from by
      simp only [List.append_assoc, List.cons_append, List.nil_append],
    jsTrimC_region_dash _ _ (by
      exact dropWhileWs_cons_notWs _ _ (by decide)) (by simp) (by decide)]

private lemma tw_extra_qr_last (q r : String) (hrtr : trimRightWs r.data = r.data)
    (hrne : r.data ≠ []) :
    jsTrimC (("### Quoted Tweet".data :: [] :: (splitLinesC q.data ++
        ([] :: ("### Retweeted Tweet".data :: [] :: (splitLinesC r.data ++ [[]]))))).foldr
      (fun l acc => l ++ '\n' :: acc) []) =
      ("### Quoted Tweet\n\n".data ++
        (q.data ++ "\n\n### Retweeted Tweet\n\n".data)) ++ r.data := by
  rw [trailJoin_M _ _ (by
      intro h
      exact absurd (List.append_eq_nil.mp h).1 (splitLinesC_ne_nil _)),
    joinNl_slT_ext q _ (by simp), joinNl_M2 _ _ _ (by simp),
    show "### Quoted Tweet".data ++ '\n' :: '\n' :: ((q.data ++ '\n' :: '\n' ::
        ("### Retweeted Tweet".data ++ '\n' :: '\n' ::
          (r.data ++ '\n' :: joinNl [[]]))) ++ ['\n']) =
      ("### Quoted Tweet\n\n".data ++
        (q.data ++ "\n\n### Retweeted Tweet\n\n".data)) ++ (r.data ++ ['\n', '\n'])
      from by
      simp only [List.append_assoc, List.cons_append, List.nil_append]; rfl,
    jsTrimC_region _ _ _ (by
      exact dropWhileWs_cons_notWs _ _ (by decide)) (by simp) hrtr hrne (by decide)]

private lemma tw_extra_qr_mid (q r : String) :
    jsTrimC (("### Quoted Tweet".data :: [] :: (splitLinesC q.data ++
        ([] :: ("### Retweeted Tweet".data :: [] ::
          (splitLinesC r.data ++ [[], "---".data, [], []]))))).foldr
      (fun l acc => l ++ '\n' :: acc) []) =
      (("### Quoted Tweet\n\n".data ++
        (q.data ++ "\n\n### Retweeted Tweet\n\n".data)) ++ (r.data ++ "\n\n--".data)) ++
        ['-'] := by
  rw [trailJoin_M _ _ (by
      intro h
      exact absurd (List.append_eq_nil.mp h).1 (splitLinesC_ne_nil _)),
    joinNl_slT_ext q _ (by simp), joinNl_M2 _ _ _ (by simp),
    show "### Quoted Tweet".data ++ '\n' :: '\n' :: ((q.data ++ '\n' :: '\n' ::
        ("### Retweeted Tweet".data ++ '\n' :: '\n' ::
          (r.data ++ '\n' :: joinNl [[], "---".data, [], []]))) ++ ['\n']) =
      ((("### Quoted Tweet\n\n".data ++
        (q.data ++ "\n\n### Retweeted Tweet\n\n".data)) ++ (r.data ++ "\n\n--".data)) ++
        ['-']) ++ ['\n', '\n', '\n'] from by
      simp only [List.append_assoc, List.cons_append, List.nil_append]; rfl,
    jsTrimC_region_dash _ _ (by
      exact dropWhileWs_cons_notWs _ _ (by decide)) (by simp) (by decide)]

private lemma str_append_empty (s : String) : s ++ "" = s := by
  apply String.ext
  show s.data ++ [] = s.data
  exact List.append_nil s.data

private lemma tw_author_merge (p : TwitterPost) :
    (⟨p.author.data ++ (" (@".data ++ (p.username.data ++ [')']))⟩ : String) =
      p.author ++ " (@" ++ p.username ++ ")" := by
  apply String.ext
  show p.author.data ++ (" (@".data ++ (p.username.data ++ ")".data)) =
    (p.author ++ " (@" ++ p.username ++ ")").data
  simp only [data_append, List.append_assoc]

private lemma tw_parseSection (n : Nat) (p : TwitterPost) (hp : NiceTwPost p)
    (T : List (List Char)) (last : Bool)
    (hT : (last = true ∧ T = [[]]) ∨ (last = false ∧ T = [[], "---".data, [], []])) :
    parseSection (joinNl (twSecLines n p ++ T)) = twParsedPost n p last := by
  obtain ⟨⟨hadw, hatr, hanl⟩, hane, hunnl, ⟨hddw, hdtr, hdnl⟩, ⟨hudw, hutr, hunl⟩,
    ⟨hcdw, hctr, hcne, hcsuf, hcl⟩, hqn, hrn⟩ := hp
  have hcd : p.content.data ≠ [] := data_ne_nil _ hcne
  have hsl : splitLinesC (joinNl (twSecLines n p ++ T)) = twSecLines n p ++ T :=
    splitLinesC_joinNl _ (by simp [twSecLines])
      (tw_noNl n p hanl hunnl hdnl hunl T
        (by rcases hT with ⟨-, rfl⟩ | ⟨-, rfl⟩ <;> decide))
  have hscan := tw_scan n p
    (jsTrimC_combined p.author.data p.username.data hadw (data_ne_nil _ hane))
    (jsTrimC_nice p.createdAt hddw hdtr) (jsTrimC_nice p.url hudw hutr) T
  have hsm : sectionMeta (twSecLines n p ++ T) =
      ⟨p.author.data ++ (" (@".data ++ (p.username.data ++ [')'])), p.url.data,
        p.createdAt.data, [], []⟩ := by
    unfold sectionMeta
    rw [hscan]
  have hscl : sectionContentLines (twSecLines n p ++ T) =
      [] :: ((splitLinesC p.content.data ++ (twQLines p ++ twRLines p)) ++ T) := by
    unfold sectionContentLines
    rw [hscan]
  have hhead : (twSecLines n p ++ T).head? =
      some ("## Post ".data ++ (natDecimal n).data) := by
    simp [twSecLines]
  have hclq : ∀ l ∈ splitLinesC p.content.data,
      ("### Quoted Tweet".data.isPrefixOf l) = false ∧
      ("### Retweeted Tweet".data.isPrefixOf l) = false :=
    fun l hl => ⟨(hcl l hl).2.1, (hcl l hl).2.2⟩
  have hTm : ∀ l ∈ T, ("### Quoted Tweet".data.isPrefixOf l) = false ∧
      ("### Retweeted Tweet".data.isPrefixOf l) = false := by
    rcases hT with ⟨-, rfl⟩ | ⟨-, rfl⟩ <;> decide
  rcases twQ_cases p with ⟨hQL, hQC, hqo⟩ | ⟨q, hqe0, hqeq, hQL, hQC⟩ <;>
    rcases twR_cases p with ⟨hRL, hRC, hro⟩ | ⟨r, hre0, hreq, hRL, hRC⟩
  · -- no quoted, no retweeted section
    have hreg : (splitLinesC p.content.data ++ (twQLines p ++ twRLines p)) ++ T =
        splitLinesC p.content.data ++ T := by
      rw [hQL, hRL]
      simp
    have hmains : ∀ l ∈ splitLinesC p.content.data ++ T,
        ("### Quoted Tweet".data.isPrefixOf l) = false ∧
        ("### Retweeted Tweet".data.isPrefixOf l) = false := by
      intro x hx
      rcases List.mem_append.mp hx with hx | hx
      · exact hclq x hx
      · exact hTm x hx
    have hcsplit : contentSplit ([] :: (splitLinesC p.content.data ++ T)) =
        (splitLinesC p.content.data ++ T, []) := by
      unfold contentSplit
      rw [dropWhile_blank_content _ _ hcd hcdw, splitExtra_all_main _ hmains [] []]
      simp
    have hcontent : jsTrimC (stripTrailingSep
        (joinNl (contentSplit (sectionContentLines (twSecLines n p ++ T))).1)) =
        p.content.data := by
      rw [hscl, hreg, hcsplit]
      rcases hT with ⟨-, rfl⟩ | ⟨-, rfl⟩
      · exact content_last p.content hcdw hctr hcne hcsuf
      · exact content_mid p.content hcdw hctr hcne
    have hpe0 : twParsedExtra p last = "" := by
      rcases hqo with hq1 | hq1 <;> rcases hro with hr1 | hr1 <;>
        simp [twParsedExtra, hq1, hr1]
    have hextra : jsTrimC (contentSplit (sectionContentLines (twSecLines n p ++ T))).2 =
        (twParsedExtra p last).data := by
      rw [hscl, hreg, hcsplit, hpe0]
      rfl
    unfold parseSection
    rw [hsl, hsm, hhead, hcontent, hextra]
    show ({
        heading := ⟨"## Post ".data ++ (natDecimal n).data⟩,
        author := ⟨p.author.data ++ (" (@".data ++ (p.username.data ++ [')']))⟩,
        url := p.url, date := p.createdAt, subject := "", fromAddr := "",
        content := p.content, extra := twParsedExtra p last } : ParsedPost) =
      twParsedPost n p last
    rw [tw_author_merge p]
    rfl
  · -- retweeted section only
    have hreg : (splitLinesC p.content.data ++ (twQLines p ++ twRLines p)) ++ T =
        splitLinesC p.content.data ++ ([] :: ("### Retweeted Tweet".data ::
          ([] :: (splitLinesC r.data ++ T)))) := by
      rw [hQL, hRL]
      simp only [List.append_nil, List.nil_append, List.cons_append, List.append_assoc]
    have hcsplit := contentSplit_extra p.content "### Retweeted Tweet".data
      ([] :: (splitLinesC r.data ++ T)) hcd hcdw hclq (Or.inr (by decide))
    have hcontent : jsTrimC (stripTrailingSep
        (joinNl (contentSplit (sectionContentLines (twSecLines n p ++ T))).1)) =
        p.content.data := by
      rw [hscl, hreg, hcsplit]
      exact content_last p.content hcdw hctr hcne hcsuf
    have hextra : jsTrimC (contentSplit (sectionContentLines (twSecLines n p ++ T))).2 =
        (twParsedExtra p last).data := by
      rw [hscl, hreg, hcsplit]
      rcases hT with ⟨rfl, rfl⟩ | ⟨rfl, rfl⟩
      · have hr' : r = "" ∨ (trimRightWs r.data = r.data ∧
            ∀ l ∈ splitLinesC r.data, isSectionHeadAt l = false) := by
          rw [hreq] at hrn
          exact hrn
        rw [tw_extra_r_last r (hr'.resolve_left hre0).1 (data_ne_nil r hre0)]
        have hpe : twParsedExtra p true = "### Retweeted Tweet\n\n" ++ r := by
          rcases hqo with hq1 | hq1 <;>
            simp [twParsedExtra, hq1, hreq, hre0, str_append_empty]
        rw [hpe]
        simp only [data_append, List.append_assoc]
      · rw [tw_extra_r_mid r]
        have hpe : twParsedExtra p false =
            "### Retweeted Tweet\n\n" ++ r ++ "\n\n---" := by
          rcases hqo with hq1 | hq1 <;> simp [twParsedExtra, hq1, hreq, hre0]
        rw [hpe]
        simp only [data_append, List.append_assoc, List.cons_append, List.nil_append]
    unfold parseSection
    rw [hsl, hsm, hhead, hcontent, hextra]
    show ({
        heading := ⟨"## Post ".data ++ (natDecimal n).data⟩,
        author := ⟨p.author.data ++ (" (@".data ++ (p.username.data ++ [')']))⟩,
        url := p.url, date := p.createdAt, subject := "", fromAddr := "",
        content := p.content, extra := twParsedExtra p last } : ParsedPost) =
      twParsedPost n p last
    rw [tw_author_merge p]
    rfl
  · -- quoted section only
    have hreg : (splitLinesC p.content.data ++ (twQLines p ++ twRLines p)) ++ T =
        splitLinesC p.content.data ++ ([] :: ("### Quoted Tweet".data ::
          ([] :: (splitLinesC q.data ++ T)))) := by
      rw [hQL, hRL]
      simp only [List.append_nil, List.nil_append, List.cons_append, List.append_assoc]
    have hcsplit := contentSplit_extra p.content "### Quoted Tweet".data
      ([] :: (splitLinesC q.data ++ T)) hcd hcdw hclq (Or.inl (by decide))
    have hcontent : jsTrimC (stripTrailingSep
        (joinNl (contentSplit (sectionContentLines (twSecLines n p ++ T))).1)) =
        p.content.data := by
      rw [hscl, hreg, hcsplit]
      exact content_last p.content hcdw hctr hcne hcsuf
    have hextra : jsTrimC (contentSplit (sectionContentLines (twSecLines n p ++ T))).2 =
        (twParsedExtra p last).data := by
      rw [hscl, hreg, hcsplit]
      rcases hT with ⟨rfl, rfl⟩ | ⟨rfl, rfl⟩
      · have hq' : q = "" ∨ (trimRightWs q.data = q.data ∧
            ∀ l ∈ splitLinesC q.data, isSectionHeadAt l = false) := by
          rw [hqeq] at hqn
          exact hqn
        rw [tw_extra_q_last q (hq'.resolve_left hqe0).1 (data_ne_nil q hqe0)]
        have hpe : twParsedExtra p true = "### Quoted Tweet\n\n" ++ q := by
          rcases hro with hr1 | hr1 <;>
            simp [twParsedExtra, hqeq, hr1, hqe0, str_append_empty]
        rw [hpe]
        simp only [data_append, List.append_assoc]
      · rw [tw_extra_q_mid q]
        have hpe : twParsedExtra p false =
            "### Quoted Tweet\n\n" ++ q ++ "\n\n---" := by
          rcases hro with hr1 | hr1 <;> simp [twParsedExtra, hqeq, hr1, hqe0]
        rw [hpe]
        simp only [data_append, List.append_assoc, List.cons_append, List.nil_append]
    unfold parseSection
    rw [hsl, hsm, hhead, hcontent, hextra]
    show ({
        heading := ⟨"## Post ".data ++ (natDecimal n).data⟩,
        author := ⟨p.author.data ++ (" (@".data ++ (p.username.data ++ [')']))⟩,
        url := p.url, date := p.createdAt, subject := "", fromAddr := "",
        content := p.content, extra := twParsedExtra p last } : ParsedPost) =
      twParsedPost n p last
    rw [tw_author_merge p]
    rfl
  · -- both quoted and retweeted sections
    have hreg : (splitLinesC p.content.data ++ (twQLines p ++ twRLines p)) ++ T =
        splitLinesC p.content.data ++ ([] :: ("### Quoted Tweet".data ::
          ([] :: (splitLinesC q.data ++ ([] :: ("### Retweeted Tweet".data ::
            ([] :: (splitLinesC r.data ++ T)))))))) := by
      rw [hQL, hRL]
      simp only [List.nil_append, List.cons_append, List.append_assoc]
    have hcsplit := contentSplit_extra p.content "### Quoted Tweet".data
      ([] :: (splitLinesC q.data ++ ([] :: ("### Retweeted Tweet".data ::
        ([] :: (splitLinesC r.data ++ T)))))) hcd hcdw hclq (Or.inl (by decide))
    have hcontent : jsTrimC (stripTrailingSep
        (joinNl (contentSplit (sectionContentLines (twSecLines n p ++ T))).1)) =
        p.content.data := by
      rw [hscl, hreg, hcsplit]
      exact content_last p.content hcdw hctr hcne hcsuf
    have hextra : jsTrimC (contentSplit (sectionContentLines (twSecLines n p ++ T))).2 =
        (twParsedExtra p last).data := by
      rw [hscl, hreg, hcsplit]
      rcases hT with ⟨rfl, rfl⟩ | ⟨rfl, rfl⟩
      · have hr' : r = "" ∨ (trimRightWs r.data = r.data ∧
            ∀ l ∈ splitLinesC r.data, isSectionHeadAt l = false) := by
          rw [hreq] at hrn
          exact hrn
        rw [tw_extra_qr_last q r (hr'.resolve_left hre0).1 (data_ne_nil r hre0)]
        have hpe : twParsedExtra p true =
            "### Quoted Tweet\n\n" ++ q ++ "\n\n### Retweeted Tweet\n\n" ++ r := by
          simp [twParsedExtra, hqeq, hreq, hqe0, hre0, str_append_empty]
        rw [hpe]
        simp only [data_append, List.append_assoc]
      · rw [tw_extra_qr_mid q r]
        have hpe : twParsedExtra p false = "### Quoted Tweet\n\n" ++ q ++
            "\n\n### Retweeted Tweet\n\n" ++ r ++ "\n\n---" := by
          simp [twParsedExtra, hqeq, hreq, hqe0, hre0]
        rw [hpe]
        simp only [data_append, List.append_assoc, List.cons_append, List.nil_append]
    unfold parseSection
    rw [hsl, hsm, hhead, hcontent, hextra]
    show ({
        heading := ⟨"## Post ".data ++ (natDecimal n).data⟩,
        author := ⟨p.author.data ++ (" (@".data ++ (p.username.data ++ [')']))⟩,
        url := p.url, date := p.createdAt, subject := "", fromAddr := "",
        content := p.content, extra := twParsedExtra p last } : ParsedPost) =
      twParsedPost n p last
    rw [tw_author_merge p]
    rfl

private def twFrags : Nat → List TwitterPost → List (List Char)
  | _, [] => []
  | n, [p] => [joinNl (twSecLines n p ++ [[]])]
  | n, p :: q :: rest =>
      joinNl (twSecLines n p ++ [[], "---".data, [], []]) :: twFrags (n + 1) (q :: rest)

private lemma twSection_head_text (m : Nat) (q : TwitterPost) (t : List Char) :
    isSectionHeadAt ((twSection m q).data ++ t) = true := by
  unfold twSection
  simp only [data_append, List.append_assoc]
  exact isSectionHeadAt_post _ _ (headIsDigit_natDecimal m)

private lemma tw_tail_head (m : Nat) (q : TwitterPost) (qs : List TwitterPost)
    (t : List Char) :
    isSectionHeadAt
      ((joinSep "\n\n---\n\n" (sectionsFrom twSection m (q :: qs))).data ++ t) = true := by
  cases qs with
  | nil => exact twSection_head_text m q t
  | cons y ys =>
    rw [show joinSep "\n\n---\n\n" (sectionsFrom twSection m (q :: y :: ys)) =
        twSection m q ++ "\n\n---\n\n" ++
          joinSep "\n\n---\n\n" (sectionsFrom twSection (m + 1) (y :: ys)) from rfl,
      data_append, data_append, List.append_assoc, List.append_assoc]
    exact twSection_head_text m q _

private lemma tw_splitHeads_frags (ps : List TwitterPost) :
    ∀ n, ps ≠ [] → (∀ p ∈ ps, NiceTwPost p) →
    splitHeadsAux [] ((joinSep "\n\n---\n\n" (sectionsFrom twSection n ps)).data ++ ['\n']) =
      twFrags n ps := by
  induction ps with
  | nil => intro n h _; exact absurd rfl h
  | cons p qs ih =>
    intro n _ hnice
    obtain ⟨⟨hadw, hatr, hanl⟩, hane, hunnl, ⟨hddw, hdtr, hdnl⟩, ⟨hudw, hutr, hunl⟩,
      ⟨hcdw, hctr, hcne, hcsuf, hcl⟩, hqn, hrn⟩ := hnice p (by simp)
    cases qs with
    | nil =>
      have htext : (joinSep "\n\n---\n\n" (sectionsFrom twSection n [p])).data ++ ['\n'] =
          joinNl (twSecLines n p ++ [[]]) := by
        rw [show joinSep "\n\n---\n\n" (sectionsFrom twSection n [p]) = twSection n p
            from rfl, twSection_data n p,
          joinNl_append _ _ (by simp [twSecLines]) (by simp)]
        rfl
      rw [htext,
        splitHeadsAux_chunk_end _ (by simp [twSecLines])
          (tw_noNl n p hanl hunnl hdnl hunl [[]] (by decide))
          (tw_tail_noHead n p (fun l hl => (hcl l hl).1) hqn hrn [[]] (by decide)) []]
      simp [twFrags]
    | cons q qs2 =>
      have htext : (joinSep "\n\n---\n\n"
            (sectionsFrom twSection n (p :: q :: qs2))).data ++ ['\n'] =
          joinNl (twSecLines n p ++ [[], "---".data, []]) ++ '\n' ::
            ((joinSep "\n\n---\n\n" (sectionsFrom twSection (n + 1) (q :: qs2))).data ++
              ['\n']) := by
        rw [show joinSep "\n\n---\n\n" (sectionsFrom twSection n (p :: q :: qs2)) =
            twSection n p ++ "\n\n---\n\n" ++
              joinSep "\n\n---\n\n" (sectionsFrom twSection (n + 1) (q :: qs2)) from rfl,
          data_append, data_append, twSection_data n p,
          joinNl_append _ _ (by simp [twSecLines]) (by simp)]
        simp only [List.append_assoc, List.cons_append]
        rfl
      rw [htext,
        splitHeadsAux_chunk_cut _ (by simp [twSecLines])
          (tw_noNl n p hanl hunnl hdnl hunl [[], "---".data, []] (by decide))
          (tw_tail_noHead n p (fun l hl => (hcl l hl).1) hqn hrn
            [[], "---".data, []] (by decide))
          _ (tw_tail_head (n + 1) q qs2 ['\n']) [],
        ih (n + 1) (by simp) (fun x hx => hnice x (List.mem_cons_of_mem _ hx))]
      rw [show twFrags n (p :: q :: qs2) =
          joinNl (twSecLines n p ++ [[], "---".data, [], []]) :: twFrags (n + 1) (q :: qs2)
          from rfl]
      rw [joinNl_append _ _ (by simp [twSecLines]) (by simp),
        joinNl_append _ _ (by simp [twSecLines]) (by simp)]
      simp
      rfl

private lemma twFrag_isHead (n : Nat) (p : TwitterPost) (T : List (List Char)) :
    isSectionHeadAt (joinNl (twSecLines n p ++ T)) = true := by
  rw [show twSecLines n p ++ T = ("## Post ".data ++ (natDecimal n).data) ::
      ([] :: ("**Author:** ".data ++
          (p.author.data ++ (" (@".data ++ (p.username.data ++ [')'])))) ::
        ("**Date:** ".data ++ p.createdAt.data) ::
        ("**URL:** ".data ++ p.url.data) :: [] :: "### Content".data :: [] ::
        ((splitLinesC p.content.data ++ (twQLines p ++ twRLines p)) ++ T))
      from by simp [twSecLines],
    isSectionHeadAt_joinNl _ _ (by simp)]
  exact isSectionHeadAt_postLine n

private lemma twFrags_parse (ps : List TwitterPost) :
    ∀ n, (∀ p ∈ ps, NiceTwPost p) →
      ((twFrags n ps).filter (fun f => isSectionHeadAt f)).map parseSection =
        twParsedFrom n ps := by
  induction ps with
  | nil => intro n _; rfl
  | cons p qs ih =>
    intro n hnice
    cases qs with
    | nil =>
      rw [show twFrags n [p] = [joinNl (twSecLines n p ++ [[]])] from rfl,
        List.filter_cons_of_pos (by rw [twFrag_isHead]),
        show twParsedFrom n [p] = [twParsedPost n p true] from rfl]
      simp only [List.filter_nil, List.map_cons, List.map_nil]
      rw [tw_parseSection n p (hnice p (by simp)) [[]] true (Or.inl ⟨rfl, rfl⟩)]
    | cons q qs2 =>
      rw [show twFrags n (p :: q :: qs2) =
          joinNl (twSecLines n p ++ [[], "---".data, [], []]) :: twFrags (n + 1) (q :: qs2)
          from rfl,
        List.filter_cons_of_pos (by rw [twFrag_isHead]),
        show twParsedFrom n (p :: q :: qs2) =
          twParsedPost n p false :: twParsedFrom (n + 1) (q :: qs2) from rfl,
        List.map_cons,
        tw_parseSection n p (hnice p (by simp)) [[], "---".data, [], []] false
          (Or.inr ⟨rfl, rfl⟩),
        ih (n + 1) (fun x hx => hnice x (List.mem_cons_of_mem _ hx))]

private lemma tw_parsePosts (ps : List TwitterPost) (p0 : TwitterPost)
    (ps' : List TwitterPost) (hps : ps = p0 :: ps')
    (hnice : ∀ p ∈ ps, NiceTwPost p) :
    parsePosts ⟨'\n' :: ("# Twitter List Crawl".data ++ '\n' :: ('\n' ::
        ((joinSep "\n\n---\n\n" (sectionsFrom twSection 1 ps)).data ++ ['\n'])))⟩ =
      ("# Twitter List Crawl", twParsedFrom 1 ps) := by
  subst hps
  unfold parsePosts
  have htitle : mdTitle ⟨'\n' :: ("# Twitter List Crawl".data ++ '\n' :: ('\n' ::
      ((joinSep "\n\n---\n\n" (sectionsFrom twSection 1 (p0 :: ps'))).data ++ ['\n'])))⟩ =
      "# Twitter List Crawl" := by
    unfold mdTitle
    rw [show ((⟨'\n' :: ("# Twitter List Crawl".data ++ '\n' :: ('\n' ::
        ((joinSep "\n\n---\n\n" (sectionsFrom twSection 1 (p0 :: ps'))).data ++
          ['\n'])))⟩ : String)).data = '\n' :: ("# Twitter List Crawl".data ++
        '\n' :: ('\n' :: ((joinSep "\n\n---\n\n"
          (sectionsFrom twSection 1 (p0 :: ps'))).data ++ ['\n']))) from rfl,
      show splitLinesC ('\n' :: ("# Twitter List Crawl".data ++ '\n' :: ('\n' ::
        ((joinSep "\n\n---\n\n" (sectionsFrom twSection 1 (p0 :: ps'))).data ++
          ['\n'])))) = [] :: splitLinesC ("# Twitter List Crawl".data ++ '\n' ::
            ('\n' :: ((joinSep "\n\n---\n\n"
              (sectionsFrom twSection 1 (p0 :: ps'))).data ++ ['\n'])))
        from by simp [splitLinesC],
      splitLinesC_append, splitLinesC_noNl _ (by decide)]
    rfl
  rw [htitle]
  have hsplit : splitHeads ('\n' :: ("# Twitter List Crawl".data ++ '\n' :: ('\n' ::
      ((joinSep "\n\n---\n\n" (sectionsFrom twSection 1 (p0 :: ps'))).data ++ ['\n'])))) =
      ('\n' :: ("# Twitter List Crawl".data ++ ['\n', '\n'])) ::
        twFrags 1 (p0 :: ps') := by
    unfold splitHeads
    rw [splitHeadsAux_nocut _ _ (by rw [isSectionHeadAt_append_nl]; rfl),
      splitHeadsAux_noNl _ (by decide),
      splitHeadsAux_nocut _ _ (by rfl),
      splitHeadsAux_cut _ _ (tw_tail_head 1 p0 ps' ['\n']),
      tw_splitHeads_frags (p0 :: ps') 1 (by simp) hnice]
    simp
  rw [hsplit, List.filter_cons_of_neg (by decide), twFrags_parse (p0 :: ps') 1 hnice]

private lemma tw_roundtrip (ps : List TwitterPost) (ct : String) (r : StoppedReason)
    (hct : '\n' ∉ ct.data) (hq : ¬(ct.data ≠ [] ∧ ct.data.all Char.isDigit = true))
    (hps : ∀ p ∈ ps, NiceTwPost p) :
    parseMdFile (generateTwitterMD ps ct r) =
      some { frontmatter := mdFrontmatter "twitter" ct ps.length r,
             title := "# Twitter List Crawl",
             posts := twParsedFrom 1 ps,
             raw := generateTwitterMD ps ct r } := by
  have hdoc : (generateTwitterMD ps ct r).data =
      "---\n".data ++ ("platform: twitter".data ++ '\n' ::
        (("crawlTime: \"".data ++ (ct.data ++ ['"'])) ++ '\n' ::
          (("postCount: ".data ++ (natDecimal ps.length).data) ++ '\n' ::
            (("stoppedReason: \"".data ++ ((r.render).data ++ ['"'])) ++ '\n' ::
              ("---\n".data ++ ('\n' :: ("# Twitter List Crawl".data ++ '\n' ::
                ('\n' :: ((joinSep "\n\n---\n\n"
                  (sectionsFrom twSection 1 ps)).data ++ ['\n']))))))))) := by
    unfold generateTwitterMD fmBlock
    simp only [data_append, List.append_assoc, List.cons_append, List.nil_append]
  have hfm := parseFrontmatter_doc (generateTwitterMD ps ct r)
    "platform: twitter".data "twitter" (by decide) (by rfl) ct hct hq ps.length r
    ('\n' :: ("# Twitter List Crawl".data ++ '\n' :: ('\n' ::
      ((joinSep "\n\n---\n\n" (sectionsFrom twSection 1 ps)).data ++ ['\n'])))) hdoc
  unfold parseMdFile
  rw [hfm]
  show some ({
      frontmatter := mdFrontmatter "twitter" ct ps.length r,
      title := (parsePosts ⟨'\n' :: ("# Twitter List Crawl".data ++ '\n' :: ('\n' ::
        ((joinSep "\n\n---\n\n" (sectionsFrom twSection 1 ps)).data ++ ['\n'])))⟩).1,
      posts := (parsePosts ⟨'\n' :: ("# Twitter List Crawl".data ++ '\n' :: ('\n' ::
        ((joinSep "\n\n---\n\n" (sectionsFrom twSection 1 ps)).data ++ ['\n'])))⟩).2,
      raw := generateTwitterMD ps ct r } : ParsedFile) = _
  cases ps with
  | nil => rfl
  | cons p0 ps' =>
    rw [tw_parsePosts (p0 :: ps') p0 ps' rfl hps]

/-- C7: emitter/parser round-trip. For every post list and metadata whose
fields are emission-safe (trimmed, newline-free metadata, content that does
not collide with the parser's section/marker patterns, and — for Facebook —
a non-empty url), parsing the emitted artifact recovers the frontmatter
(platform, crawlTime, postCount = item count, stoppedReason), the title,
and one parsed post per input item with its metadata, content and extra
sections. The recovered posts are NOT verbatim the claim's: an empty
Facebook url comes back as "N/A" (see the counterexample), the Twitter
author and handle merge into the single field `author (@username)`, and on
every non-final Twitter section with a quoted/retweeted block the
`\n\n---` separator leaks into the recovered extra text (`twParsedPost`,
`twParsedExtra`). -/
theorem c7_roundtrip_spec (fps : List FacebookPost) (tps : List TwitterPost)
    (ges : List GmailEmail) (ct : String) (r : StoppedReason)
    (hct : '\n' ∉ ct.data) (hq : ¬(ct.data ≠ [] ∧ ct.data.all Char.isDigit = true))
    (hf : ∀ p ∈ fps, NiceFbPost p) (ht : ∀ p ∈ tps, NiceTwPost p)
    (hg : ∀ e ∈ ges, NiceGmPost e) :
    parseMdFile (generateFacebookMD fps ct r) =
      some { frontmatter := mdFrontmatter "facebook" ct fps.length r,
             title := "# Facebook Favorites Crawl",
             posts := parsedFrom fbParsedPost 1 fps,
             raw := generateFacebookMD fps ct r } ∧
    parseMdFile (generateTwitterMD tps ct r) =
      some { frontmatter := mdFrontmatter "twitter" ct tps.length r,
             title := "# Twitter List Crawl",
             posts := twParsedFrom 1 tps,
             raw := generateTwitterMD tps ct r } ∧
    parseMdFile (generateGmailMD ges ct r) =
      some { frontmatter := mdFrontmatter "gmail" ct ges.length r,
             title := "# Gmail Newsletter Crawl",
             posts := parsedFrom gmParsedPost 1 ges,
             raw := generateGmailMD ges ct r } :=
  ⟨fb_roundtrip fps ct r hct hq hf, tw_roundtrip tps ct r hct hq ht,
    gm_roundtrip ges ct r hct hq hg⟩

/-- C7 counterexample: the round-trip is not verbatim. A Facebook post
captured with an empty url is emitted as `**URL:** N/A`, so the parsed
post's url is "N/A", not the input's "" — the parsed sequence does not
reproduce the input item's url as the claim states. -/
theorem c7_roundtrip_cex :
    (parseMdFile (generateFacebookMD [{ author := "A", content := "hello", url := "" }]
        "now" StoppedReason.api_limit)).map (fun pf => pf.posts.map ParsedPost.url) =
      some ["N/A"] ∧ ("N/A" : String) ≠ "" := by
  constructor
  · rfl
  · decide

private def fbWitnessPost : FacebookPost :=
  { author := "A", content := "hello", url := "https://fb.example/p1" }

private def twWitnessPost : TwitterPost :=
  { id := "1", createdAt := "2024-01-01", author := "Ann", username := "ann",
    url := "https://x.example/1", content := "hi", quotedContent := some "qt",
    retweetedContent := none }

private def gmWitnessEmail : GmailEmail :=
  { id := "m1", threadId := "t1", date := "2024-01-01", fromAddr := "a@b.example",
    subject := "S", content := "news", labels := [] }

/-- C7 witness: the round-trip theorem applied to one concrete post per
platform (the Twitter one carrying a quoted tweet). -/
theorem c7_roundtrip_witness :
    parseMdFile (generateFacebookMD [fbWitnessPost] "now" StoppedReason.api_limit) =
      some { frontmatter := mdFrontmatter "facebook" "now" 1 StoppedReason.api_limit,
             title := "# Facebook Favorites Crawl",
             posts := parsedFrom fbParsedPost 1 [fbWitnessPost],
             raw := generateFacebookMD [fbWitnessPost] "now" StoppedReason.api_limit } ∧
    parseMdFile (generateTwitterMD [twWitnessPost] "now" StoppedReason.api_limit) =
      some { frontmatter := mdFrontmatter "twitter" "now" 1 StoppedReason.api_limit,
             title := "# Twitter List Crawl",
             posts := twParsedFrom 1 [twWitnessPost],
             raw := generateTwitterMD [twWitnessPost] "now" StoppedReason.api_limit } ∧
    parseMdFile (generateGmailMD [gmWitnessEmail] "now" StoppedReason.api_limit) =
      some { frontmatter := mdFrontmatter "gmail" "now" 1 StoppedReason.api_limit,
             title := "# Gmail Newsletter Crawl",
             posts := parsedFrom gmParsedPost 1 [gmWitnessEmail],
             raw := generateGmailMD [gmWitnessEmail] "now" StoppedReason.api_limit } :=
  c7_roundtrip_spec _ _ _ _ _ (by decide) (by decide)
    (by
      intro p hp
      rw [List.mem_singleton] at hp
      subst hp
      unfold NiceFbPost NiceField NiceText
      decide)
    (by
      intro p hp
      rw [List.mem_singleton] at hp
      subst hp
      exact ⟨⟨by decide, by decide, by decide⟩, by decide, by decide,
        ⟨by decide, by decide, by decide⟩, ⟨by decide, by decide, by decide⟩,
        ⟨by decide, by decide, by decide, by decide, by decide⟩,
        Or.inr ⟨by decide, by decide⟩, trivial⟩)
    (by
      intro e he
      rw [List.mem_singleton] at he
      subst he
      unfold NiceGmPost NiceField NiceText
      decide)

end LazyCrawl
